import Mathlib

/-!
Verification of the pyqualw2 configuration file parser/serializer subsystem.

The development shallowly embeds the parsing code of
`pyqualw2/config/subconfig.py` and `pyqualw2/config/inputs.py`:

* files are modelled as `List String` of their lines (the contents of each
  line, without the trailing newline character);
* Python `str.split(sep)`, `str.strip()`, `str.lower()` and
  `re.split(r"\s+", ...)` are modelled by executable functions on the
  character lists underlying Lean strings;
* Python numeric literals appearing in the files are modelled exactly by
  decimal values `Dec` (an integer mantissa and a base-10 exponent), so that
  decoding and re-encoding a value can be compared without binary
  floating-point rounding;
* fallible code is modelled with `Option`/`Except`.
-/

namespace PyQualW2

/-- The characters Python's `str.strip()` removes (ASCII whitespace). -/
def isPySpace (c : Char) : Bool :=
  c == ' ' || c == '\t' || c == '\n' || c == '\r' || c == '\x0b' || c == '\x0c'

/-- `str.strip()` on a character list: drop whitespace on both ends. -/
def stripChars (cs : List Char) : List Char :=
  ((cs.dropWhile isPySpace).reverse.dropWhile isPySpace).reverse

/-- Python `s.strip()`. -/
def pyStrip (s : String) : String := ⟨stripChars s.data⟩

/-- Python `s.lower()` (the files are ASCII). -/
def pyLower (s : String) : String := ⟨s.data.map Char.toLower⟩

/-- Python `s.split(sep)` for a one-character separator: the pieces between
separators, empty pieces kept (`"".split(",") == [""]`). -/
def splitChar (sep : Char) (s : String) : List String :=
  (s.data.splitOn sep).map (fun cs => ⟨cs⟩)

/-- Python `sep.join(parts)` for a one-character separator. -/
def joinChar (sep : Char) (ss : List String) : String :=
  ⟨List.intercalate [sep] (ss.map String.data)⟩

/-- Helper for `pySplitWs`: cut a character list at maximal whitespace runs,
the current token being accumulated in reverse in `acc`. -/
def wsTokensAux : List Char → List Char → List (List Char)
  | [], [] => []
  | [], acc => [acc.reverse]
  | c :: cs, acc =>
      if isPySpace c then
        (if acc.isEmpty then wsTokensAux cs [] else acc.reverse :: wsTokensAux cs [])
      else wsTokensAux cs (c :: acc)

/-- Python `re.split(r"\s+", s.strip())` as used by the profile reader: on the
empty string the result is `[""]`, otherwise the maximal runs of
non-whitespace characters. -/
def pySplitWs (s : String) : List String :=
  let t := stripChars s.data
  if t.isEmpty then [""] else (wsTokensAux t []).map (fun cs => ⟨cs⟩)

/-- The decimal digit character for `n % 10`. -/
def digitChar (n : Nat) : Char := Char.ofNat (48 + n % 10)

/-- Fuelled helper for `natDigits` (structural recursion, so that terms
reduce definitionally); the fuel is always sufficient when it exceeds `n`. -/
def natDigitsAux : Nat → Nat → List Char
  | 0, _ => []
  | fuel + 1, n =>
      if n < 10 then [digitChar n]
      else natDigitsAux fuel (n / 10) ++ [digitChar (n % 10)]

/-- Decimal digits of a natural number, most significant first. -/
def natDigits (n : Nat) : List Char := natDigitsAux (n + 1) n

/-- Numeric value of a digit character. -/
def digitVal (c : Char) : Nat := c.toNat - 48

/-- Value of a digit string, most significant first. -/
def digitsToNat (cs : List Char) : Nat := cs.foldl (fun a c => a * 10 + digitVal c) 0

/-- Parse a non-empty all-digit character list. -/
def parseDigits (cs : List Char) : Option Nat :=
  if cs ≠ [] ∧ cs.all Char.isDigit then some (digitsToNat cs) else none

/-- Python `int(s)` restricted to the integer literals occurring in the data
files: optional sign followed by decimal digits, surrounding whitespace
ignored. -/
def pyParseIntChars : List Char → Option Int
  | [] => none
  | c :: rest =>
      if c = '-' then (parseDigits rest).map (fun n => -(n : Int))
      else if c = '+' then (parseDigits rest).map (fun n => (n : Int))
      else (parseDigits (c :: rest)).map (fun n => (n : Int))

def pyParseInt (s : String) : Option Int :=
  pyParseIntChars (stripChars s.data)

/-- Python `str(n)` for an integer `n`. -/
def printInt (n : Int) : String :=
  if n < 0 then ⟨'-' :: natDigits n.natAbs⟩ else ⟨natDigits n.natAbs⟩

/-- An exact decimal literal: the value `man / 10 ^ exp`.  This represents the
result of parsing a decimal numeral without binary floating-point rounding. -/
structure Dec where
  man : Int
  exp : Nat
deriving DecidableEq, Repr

/-- Parse an unsigned decimal literal: digits, optionally followed by a point
and more digits, with at least one digit present. -/
def parseUDec (cs : List Char) : Option Dec :=
  let intPart := cs.takeWhile Char.isDigit
  let rest := cs.dropWhile Char.isDigit
  if rest.isEmpty then
    if intPart.isEmpty then none else some ⟨digitsToNat intPart, 0⟩
  else if rest.headD ' ' = '.' then
    if rest.tail.all Char.isDigit ∧ ¬(intPart.isEmpty ∧ rest.tail.isEmpty) then
      some ⟨digitsToNat intPart * 10 ^ rest.tail.length + digitsToNat rest.tail,
        rest.tail.length⟩
    else none
  else none

/-- Python `float(s)` restricted to the plain decimal literals occurring in
the data files (optional sign, digits, optional fractional part; surrounding
whitespace ignored). -/
def pyParseDecChars : List Char → Option Dec
  | [] => none
  | c :: rest =>
      if c = '-' then (parseUDec rest).map (fun d => ⟨-d.man, d.exp⟩)
      else if c = '+' then parseUDec rest
      else parseUDec (c :: rest)

def pyParseDec (s : String) : Option Dec :=
  pyParseDecChars (stripChars s.data)

/-- Render a decimal value back to a literal with exactly `exp` fractional
digits (`⟨150, 2⟩` renders as `"1.50"`). -/
def printDec (d : Dec) : String :=
  let ds := natDigits d.man.natAbs
  let ds := List.replicate (d.exp + 1 - ds.length) '0' ++ ds
  let sgn : List Char := if d.man < 0 then ['-'] else []
  if d.exp = 0 then ⟨sgn ++ ds⟩
  else ⟨sgn ++ ds.take (ds.length - d.exp) ++ '.' :: ds.drop (ds.length - d.exp)⟩

/-- The rational value of a decimal literal. -/
def decVal (d : Dec) : ℚ := (d.man : ℚ) / 10 ^ d.exp

/-- The boolean string coercion applied by the section models (pydantic's
case-insensitive boolean token set). -/
def pyParseBool (s : String) : Option Bool :=
  let t := pyLower s
  if t = "on" ∨ t = "true" ∨ t = "t" ∨ t = "y" ∨ t = "yes" ∨ t = "1" then some true
  else if t = "off" ∨ t = "false" ∨ t = "f" ∨ t = "n" ∨ t = "no" ∨ t = "0" then some false
  else none

/-- The boolean tokens the configuration files carry. -/
def printBool (b : Bool) : String := if b then "ON" else "OFF"

/-! ### Section decode primitives (`pyqualw2/config/subconfig.py`)

A configuration file is a `List String` of its lines.  `SubConfig.parse`
classmethods return a typed section together with the next cursor position,
or raise; raising is modelled with `Except DErr`. -/

/-- The errors the section decoders can raise.

* `indexError`: `lines[i]` out of range (an uncaught Python `IndexError`);
* `zipMismatch`: the `ValueError` raised by `zip(..., strict=True)` in
  `parse_line_pair_table` when the two lines split into unequally many cells
  and no empty cell stops the loop first — raised outside the `try` block, so
  it carries no line number and no snippet;
* `parseError`: the `ParseError` of `subconfig.py`, carrying the offending
  line number, the up-to-10 lines before it, the line itself, and the
  up-to-9 lines after it (`lines[lineno+1 : lineno+10]`). -/
inductive DErr
  | indexError
  | zipMismatch
  | parseError (lineno : Nat) (before : List String) (line : String) (after : List String)
deriving DecidableEq, Repr

/-- The context snippet `ParseError.__init__` builds: `lines[max(0,lineno-10):lineno]`,
the offending line, and `lines[lineno+1:lineno+10]`. -/
def errSnippet (lines : List String) (lineno : Nat) : DErr :=
  .parseError lineno ((lines.take lineno).drop (lineno - 10))
    ((lines.get? lineno).getD "") ((lines.drop (lineno + 1)).take 9)

/-- The kwargs-building loop of `parse_line_pair_table`: zip the header cells
with the value cells under `strict=True`, stopping at the first position where
either raw cell is the empty string; keys are stripped and lower-cased, values
stripped.  `none` models the uncaught `ValueError` of the strict zip (one side
exhausted, the other not, with no empty cell reached first). -/
def pairCells : List String → List String → Option (List (String × String))
  | [], [] => some []
  | k :: ks, v :: vs =>
      if k = "" ∨ v = "" then some []
      else (pairCells ks vs).map (fun rest => (pyLower (pyStrip k), pyStrip v) :: rest)
  | _, _ => none

/-- `parse_line_pair_table` up to (and excluding) instantiation of the
pydantic model: the name-to-raw-string mapping built from `lines[i]` and
`lines[i+1]`. -/
def pairTableKwargs (lines : List String) (i : Nat) : Except DErr (List (String × String)) :=
  match lines.get? i, lines.get? (i + 1) with
  | some l1, some l2 =>
      match pairCells (splitChar ',' l1) (splitChar ',' l2) with
      | some kvs => .ok kvs
      | none => .error .zipMismatch
  | _, _ => .error .indexError

/-- The typed values a configuration field can carry after coercion. -/
inductive FieldVal
  | vint (n : Int)
  | vdec (d : Dec)
  | vbool (b : Bool)
  | vstr (s : String)
  | venum (s : String)
deriving DecidableEq, Repr

/-- The declared type of a configuration field; enumerations carry their
closed set of admissible tokens (`options.py`). -/
inductive FieldType
  | tInt
  | tFloat
  | tBool
  | tStr
  | tEnum (allowed : List String)
deriving DecidableEq, Repr

/-- Coercion of one raw string to a typed value, as pydantic performs it for
the field annotations of `subconfig.py`. -/
def parseField : FieldType → String → Option FieldVal
  | .tInt, s => (pyParseInt s).map .vint
  | .tFloat, s => (pyParseDec s).map .vdec
  | .tBool, s => (pyParseBool s).map .vbool
  | .tStr, s => some (.vstr s)
  | .tEnum allowed, s => if s ∈ allowed then some (.venum s) else none

/-- Canonical rendering of a typed value when a section re-emits its card. -/
def printField : FieldVal → String
  | .vint n => printInt n
  | .vdec d => printDec d
  | .vbool b => printBool b
  | .vstr s => s
  | .venum s => s

/-- One declared field of a section: its python name, the key under which the
file supplies it (the pydantic alias when one is declared, e.g. `orgcc` for
`orcc`, otherwise the name itself), and its declared type. -/
structure FieldSpec where
  name : String
  key : String
  ty : FieldType
deriving DecidableEq, Repr

/-- Python dict lookup over the kwargs assoc list: a later assignment to the
same key wins. -/
def lookupLast (kvs : List (String × String)) (k : String) : Option String :=
  kvs.reverse.lookup k

/-- Instantiating a pair-table section from its kwargs: every declared field
must be present under its key and coerce to its declared type; extra keys are
ignored (pydantic `extra="ignore"`, after a warning). -/
def instantiateFields (fields : List FieldSpec) (kvs : List (String × String)) :
    Option (List FieldVal) :=
  fields.mapM (fun f => (lookupLast kvs f.key).bind (parseField f.ty))

/-- `parse_line_pair_table` in full: build the kwargs from `lines[i]` and
`lines[i+1]`, instantiate the section, return it with the cursor `i + 3`.
Instantiation failure raises `ParseError(lines, i)`. -/
def decodePairTable (fields : List FieldSpec) (lines : List String) (i : Nat) :
    Except DErr (List FieldVal × Nat) :=
  match pairTableKwargs lines i with
  | .ok kvs =>
      match instantiateFields fields kvs with
      | some vals => .ok (vals, i + 3)
      | none => .error (errSnippet lines i)
  | .error e => .error e

/-- `line.strip().split(",")` — the cells of one data line of a row-tabulated
card. -/
def rowCells (l : String) : List String := splitChar ',' (pyStrip l)

/-- The values one data line contributes: its cells stripped, cut at the
first empty one. -/
def lineVals (l : String) : List String :=
  ((rowCells l).map pyStrip).takeWhile (fun v => v ≠ "")

/-- The data lines `parse_row_variables` consumes starting at `lines[i+1]`:
every line up to (excluding) the first whose first cell is empty. -/
def rowBlockLines (ls : List String) : List String :=
  ls.takeWhile (fun l => (rowCells l).headD "" ≠ "")

/-- How many warnings `parse_row_variables` emits: one per consumed line
beyond the declared field count whose first stripped cell is non-empty. -/
def rowWarnings (nfields : Nat) (rows : List String) : Nat :=
  (rows.drop nfields).countP (fun l => !(lineVals l).isEmpty)

/-- Instantiating a row-table section: the `j`-th declared field collects the
values of the `j`-th consumed line (each coerced to the field's type);
a missing line means a missing required field, hence failure.  Lines beyond
the field count are dropped. -/
def instantiateRows (fields : List FieldSpec) (rows : List String) :
    Option (List (List FieldVal)) :=
  fields.enum.mapM (fun jf =>
    (rows.get? jf.1).bind (fun row => (lineVals row).mapM (parseField jf.2.ty)))

/-- `parse_row_variables` in full: consume the block below the header line,
instantiate, and return the cursor `i + (lines consumed) + 2` together with
the number of warnings emitted.  Instantiation failure raises
`ParseError(lines, i)`. -/
def decodeRowTable (fields : List FieldSpec) (lines : List String) (i : Nat) :
    Except DErr (List (List FieldVal) × Nat × Nat) :=
  let rows := rowBlockLines (lines.drop (i + 1))
  match instantiateRows fields rows with
  | some vals => .ok (vals, i + rows.length + 2, rowWarnings fields.length rows)
  | none => .error (errSnippet lines i)

/-! ### The configuration aggregate

`w2_con.csv` is a fixed ordered sequence of cards; each card is decoded by
one of the three decoder shapes of `subconfig.py` (`Title.parse`,
`parse_line_pair_table`, `parse_row_variables`). -/

/-- The decoder shape of a card. -/
inductive CardKind
  | title
  | pairTable
  | rowTable
deriving DecidableEq, Repr

/-- One card of the configuration file: a heading text (used when re-emitting
a row card, whose heading the decoder skips), its decoder shape, and its
declared fields in order. -/
structure CardSchema where
  header : String
  kind : CardKind
  fields : List FieldSpec
deriving DecidableEq, Repr

/-- A decoded section. `Title.parse` stores the 10 raw title lines (the
source keeps their `"\n"`-join, which is in bijection with the list because
lines contain no newline). -/
inductive Section
  | title (ls : List String)
  | pairs (vals : List FieldVal)
  | rows (vals : List (List FieldVal))
deriving DecidableEq, Repr

/-- Decode one card at cursor `i`.  `Title.parse` takes `lines[i:i+10]` and
advances by 12; warnings of row cards are discarded at this level. -/
def decodeCard (c : CardSchema) (lines : List String) (i : Nat) :
    Except DErr (Section × Nat) :=
  match c.kind with
  | .title => .ok (.title ((lines.drop i).take 10), i + 12)
  | .pairTable => (decodePairTable c.fields lines i).map (fun p => (.pairs p.1, p.2))
  | .rowTable => (decodeRowTable c.fields lines i).map (fun p => (.rows p.1, p.2.1))

/-- Drive every card decoder in the declared sequence, threading the cursor,
failing fast on the first error. -/
def decodeCards : List CardSchema → List String → Nat → Except DErr (List Section × Nat)
  | [], _, i => .ok ([], i)
  | c :: cs, lines, i =>
      match decodeCard c lines i with
      | .ok (s, j) => (decodeCards cs lines j).map (fun p => (s :: p.1, p.2))
      | .error e => .error e

/-- Modelled from the spec: the repository has no serializer for the
configuration cards (`SubConfig` and its subclasses only decode), so the
`encode` half of §4.3 is modelled here.  Each section re-emits its own card
exactly as the corresponding decoder expects to re-read it: a title card
re-emits its 10 lines plus the two separator lines it skipped; a pair card
re-emits the field keys line, the rendered values line and the blank
separator; a row card re-emits its (decoder-skipped) heading, one
comma-joined line per field, and a terminating line whose first cell is
empty. -/
def encodeCard (c : CardSchema) : Section → List String
  | .title ls => ls ++ ["", ""]
  | .pairs vals =>
      [joinChar ',' (c.fields.map FieldSpec.key), joinChar ',' (vals.map printField), ""]
  | .rows vals =>
      c.header :: vals.map (fun vs => joinChar ',' (vs.map printField)) ++ [","]

/-- Modelled from the spec: `encode(config) -> lines`, the concatenation of
every card's re-emission in the declared order. -/
def encodeConfig : List CardSchema → List Section → List String
  | [], _ => []
  | _, [] => []
  | c :: cs, s :: ss => encodeCard c s ++ encodeConfig cs ss

/-- A field supplied under its own name, of integer type. -/
def fI (n : String) : FieldSpec := ⟨n, n, .tInt⟩

/-- A field supplied under its own name, of float type. -/
def fF (n : String) : FieldSpec := ⟨n, n, .tFloat⟩

/-- A field supplied under its own name, of boolean type. -/
def fB (n : String) : FieldSpec := ⟨n, n, .tBool⟩

/-- A field supplied under its own name, of string type. -/
def fS (n : String) : FieldSpec := ⟨n, n, .tStr⟩

/-- A field supplied under its own name, of enumerated type. -/
def fE (n : String) (allowed : List String) : FieldSpec := ⟨n, n, .tEnum allowed⟩

/-- The fixed ordered card sequence of `w2_con.csv`, one entry per
`SubConfig` subclass of `subconfig.py`, with each field's declared type,
the pydantic aliases (`orcc`/`orgcc`, `ndt`/`ndlt`, `dltintr`/`dltinter`)
and the enumerations of `options.py`. -/
def w2Schemas : List CardSchema := [
  ⟨"TITLE C", .title, []⟩,
  ⟨"GRID", .pairTable, [fI "nwb", fI "nbr", fI "imx", fI "kmx", fI "nproc", fB "closec"]⟩,
  ⟨"INFLOW", .pairTable,
    [fI "ntr", fI "nst", fI "niw", fI "nwd", fI "ngt", fI "nsp", fI "npi", fI "npu"]⟩,
  ⟨"CONSTIT", .pairTable,
    [fI "ngc", fI "nss", fI "nal", fI "nep", fI "nbod", fI "nmc", fI "nzp"]⟩,
  ⟨"MISC", .pairTable,
    [fI "nday", fS "selectc", fB "habtatc", fB "envirpc", fB "aeratec", fB "inituwl",
     ⟨"orcc", "orgcc", .tBool⟩, fB "sed_diag"]⟩,
  ⟨"TIME CON", .pairTable, [fF "tmstrt", fF "tmend", fI "year"]⟩,
  ⟨"DLT CON", .pairTable,
    [⟨"ndt", "ndlt", .tInt⟩, fF "dltmin", ⟨"dltintr", "dltinter", .tBool⟩]⟩,
  ⟨"DLT DATE", .rowTable, [fF "dltd"]⟩,
  ⟨"DLT MAX", .rowTable, [fF "dltmax"]⟩,
  ⟨"DLT FRN", .rowTable, [fF "dltf"]⟩,
  ⟨"DLT LIMIT", .rowTable, [fB "visc", fB "celc", fB "dltadd"]⟩,
  ⟨"BRANCH G", .rowTable,
    [fI "us", fI "ds", fI "uhs", fI "dhs", fI "nlmin", fF "slope", fF "slopec"]⟩,
  ⟨"LOCATION", .rowTable, [fF "lat", fF "long", fF "ebot", fI "bs", fI "be", fI "jbdn"]⟩,
  ⟨"INIT CND", .rowTable,
    [fF "t2i", fF "icethi", fE "wtypec" ["FRESH", "SALT"], fE "gridc" ["RECT", "TRAP"]]⟩,
  ⟨"CALCULAT", .rowTable, [fB "vbc", fB "ebc", fB "mbc", fB "pqc", fB "evc", fB "prc"]⟩,
  ⟨"DEAD SEA", .rowTable, [fB "windc", fB "qinc", fB "qoutc", fB "heatc"]⟩,
  ⟨"INTERPOL", .rowTable, [fB "qinic", fB "dtric", fB "hdic"]⟩,
  ⟨"HEAT EXCH", .rowTable,
    [fE "slhtc" ["TERM", "ET"], fB "sroc", fB "rhevap", fB "metic", fB "fetchc",
     fF "afw", fF "bfw", fF "cfw", fF "windh"]⟩,
  ⟨"ICE COVER", .rowTable,
    [fE "icec" ["ON", "ONWB", "OFF"], fE "slicec" ["SIMPLE", "DETAIL"], fF "albedo",
     fF "hwi", fF "betai", fF "gammai", fF "icemin", fF "icet2"]⟩,
  ⟨"TRANSPORT", .rowTable, [fE "sltrc" ["ULTIMATE", "QUICKEST", "UPWIND"], fF "theta"]⟩,
  ⟨"HYD COEF", .rowTable,
    [fF "ax", fF "dx", fF "cbhe", fF "tsed", fF "fi", fF "tsedf",
     fE "fricc" ["MANN", "CHEZY"], fF "z0"]⟩,
  ⟨"EDDY VISC", .rowTable,
    [fE "azc" ["NICK", "PARAB", "RNG", "W2", "W2N", "TKE", "TKE1"],
     fE "azslc" ["IMP", "EXP"], fF "azmax", fI "fbc", fF "e", fF "arodi",
     fF "strcklr", fF "boundfr", fE "tkecal" ["IMP", "EXP"]]⟩,
  ⟨"N STRUC", .rowTable, [fI "nstr", fB "dynstruc"]⟩,
  ⟨"STR INT", .rowTable, [fB "stric"]⟩]

/-- `decode(lines)`: drive the full card sequence from the start of the line
list (the title card located at the head). -/
def decodeConfig (lines : List String) : Except DErr (List Section × Nat) :=
  decodeCards w2Schemas lines 0

/-- Modelled from the spec: `encode(config)` over the full card sequence. -/
def encodeW2 (cfg : List Section) : List String :=
  encodeConfig w2Schemas cfg

/-! ### The simple time-window view of `w2_con.csv`
(`W2ConSimpleInput` of `pyqualw2/config/inputs.py`) -/

/-- `W2ConSimpleInput`: the raw file content (as its list of lines) plus the
index of the one line carrying `TMSTRT`, `TMEND` and `YEAR`. -/
structure W2ConSimple where
  content : List String
  time_lineno : Nat
deriving DecidableEq, Repr

/-- The `timedata` property getter: split the tracked line on commas, unpack
the first three cells (at least three must exist), coerce them with
`float`, `float`, `int`. -/
def timedataGet (w : W2ConSimple) : Option (ℚ × ℚ × ℤ) :=
  (w.content.get? w.time_lineno).bind (fun l =>
    match splitChar ',' l with
    | a :: b :: c :: _ =>
        (pyParseDec a).bind (fun da =>
          (pyParseDec b).bind (fun db =>
            (pyParseInt c).map (fun y => (decVal da, decVal db, y))))
    | _ => none)

/-- The `timedata` property setter, specialized to integer arguments as in
the concrete scenario (`str()` of a Python int is its decimal
representation): split the tracked line, replace its first three cells by the
rendered values, keep the rest, and store the re-joined line.  At least three
cells must exist for the unpacking to succeed. -/
def timedataSet (w : W2ConSimple) (tmstart tmend year : Int) : Option W2ConSimple :=
  (w.content.get? w.time_lineno).bind (fun l =>
    match splitChar ',' l with
    | _ :: _ :: _ :: rest =>
        let newline := joinChar ','
          (printInt tmstart :: printInt tmend :: printInt year :: rest)
        some { w with content := w.content.set w.time_lineno newline }
    | _ => none)

/-! ### The profile codec (`ProfileInput` of `pyqualw2/config/inputs.py`)

Data blocks carry whitespace-delimited numeric values; the numeric cells are
modelled by exact decimal literals, and the `NaN` padding that
`pandas.read_csv` inserts for a row shorter than the block's first row is
modelled by `none`. -/

/-- The errors the profile codec can raise. -/
inductive PErr
  | headerMissing
  | nameError
  | emptyData
  | tokenizeError
  | numberError
  | lengthMismatch
  | labelError
  | reshapeError
deriving DecidableEq, Repr

/-- The backward scan of `_iter_blocks`: the last token is the repeated code;
walking the earlier tokens from the right, the first one that differs from it
ends the block name, and the name is the space-join of every token up to and
including it.  `none` when every earlier token equals the last one (the
`ValueError` of the source). -/
def findBlockName (tokens : List String) : Option String :=
  match tokens.reverse with
  | [] => none
  | w :: rest =>
      match rest.findIdx? (fun t => t ≠ w) with
      | none => none
      | some m => some (joinChar ' ' (tokens.take (tokens.length - 1 - m)))

/-- One data row as `pandas.read_csv(sep=r"\s+", header=None)` reads it,
given the column count `w` fixed by the block's first row: more tokens than
`w` is a tokenize error; fewer are padded with `NaN` (`none`); each token
must be a decimal literal (the blocks are numeric). -/
def readCsvRow (w : Nat) (l : String) : Except PErr (List (Option Dec)) :=
  let toks := pySplitWs l
  if w < toks.length then .error .tokenizeError
  else
    match toks.mapM pyParseDec with
    | none => .error .numberError
    | some ds => .ok (ds.map some ++ List.replicate (w - toks.length) none)

/-- The whole data block of one profile quantity, flattened row-major as
`DataFrame.to_numpy().flatten()` flattens it.  An empty block is pandas'
`EmptyDataError`. -/
def readCsvFlat (rows : List String) : Except PErr (List (Option Dec)) :=
  match rows with
  | [] => .error .emptyData
  | r0 :: _ =>
      (rows.mapM (readCsvRow (pySplitWs r0).length)).map List.flatten

/-- `_iter_blocks`: repeatedly skip at most one leading blank line, stop at
end of input, read the block's name from the header line, consume the data
rows up to the first blank line or end of input (consuming the blank), and
flatten the block. -/
def iterBlocksAux : Nat → List String → Except PErr (List (String × List (Option Dec)))
  | _, [] => .ok []
  | 0, _ :: _ => .ok []
  | fuel + 1, l0 :: rest0 =>
      if pyStrip l0 = "" then
        match rest0 with
        | [] => .ok []
        | hline :: body =>
            match findBlockName (pySplitWs hline) with
            | none => .error .nameError
            | some name =>
                let rows := body.takeWhile (fun l => pyStrip l ≠ "")
                match readCsvFlat rows with
                | .error e => .error e
                | .ok vals =>
                    (iterBlocksAux fuel ((body.drop rows.length).drop 1)).map
                      (fun bs => (name, vals) :: bs)
      else
        match findBlockName (pySplitWs l0) with
        | none => .error .nameError
        | some name =>
            let rows := rest0.takeWhile (fun l => pyStrip l ≠ "")
            match readCsvFlat rows with
            | .error e => .error e
            | .ok vals =>
                (iterBlocksAux fuel ((rest0.drop rows.length).drop 1)).map
                  (fun bs => (name, vals) :: bs)

def iterBlocks (lines : List String) : Except PErr (List (String × List (Option Dec))) :=
  iterBlocksAux lines.length lines

/-- `re.match(r"^Profile file: (?P<fname>[^\s]+)$", line)`: the literal
heading followed by one non-empty whitespace-free name spanning the rest of
the line. -/
def matchProfileHeader (l : String) : Option String :=
  let pre : List Char := "Profile file: ".data
  if pre.isPrefixOf l.data then
    let rest := l.data.drop pre.length
    if !rest.isEmpty && rest.all (fun c => !isPySpace c) then some ⟨rest⟩ else none
  else none

/-- The parsed profile aggregate. -/
structure ProfileData where
  profile_file : Option String
  comment : String
  data : List (String × List (Option Dec))
deriving DecidableEq, Repr

/-- Python dict insertion: a repeated key keeps its first position but takes
the new value. -/
def dictInsert (d : List (String × List (Option Dec))) (k : String)
    (v : List (Option Dec)) : List (String × List (Option Dec)) :=
  if d.any (fun p => p.1 = k) then d.map (fun p => if p.1 = k then (k, v) else p)
  else d ++ [(k, v)]

/-- `pandas.DataFrame(data=dict)` accepts the dict only when all value arrays
have one common length. -/
def allSameLength (ls : List (List (Option Dec))) : Bool :=
  match ls with
  | [] => true
  | x :: xs => xs.all (fun y => y.length = x.length)

/-- `ProfileInput.from_file` on the file's lines: needs at least two lines;
first line optionally matches the profile-file heading (no match is only a
warning); second line is the comment, stripped; the rest is the block
sequence, collected into a dict and then into a `DataFrame` (which requires
all blocks to share one length). -/
def parseProfile (lines : List String) : Except PErr ProfileData :=
  match lines with
  | l0 :: l1 :: rest =>
      match iterBlocks rest with
      | .error e => .error e
      | .ok blocks =>
          let d := blocks.foldl (fun acc b => dictInsert acc b.1 b.2) []
          if allSameLength (d.map (fun p => p.2)) then
            .ok ⟨matchProfileHeader l0, pyStrip l1, d⟩
          else .error .lengthMismatch
  | _ => .error .headerMissing

/-- `ProfileInput._get_label`: the fixed name-to-code mapping, keyed on a
case-insensitive name beginning; an unrecognized kind has no label (the
source raises `NotImplementedError`). -/
def getLabel (name : String) : Option String :=
  let low := (pyLower name).data
  if "temp".data.isPrefixOf low then some "T1"
  else if "tds".data.isPrefixOf low then some "C1"
  else if "do".data.isPrefixOf low then some "C2"
  else none

/-- Right-justify into a field of width `w` (Python `f"{s:>w}"`). -/
def padLeft (s : String) (w : Nat) : String :=
  ⟨List.replicate (w - s.length) ' ' ++ s.data⟩

/-- Left-justify into a field of width `w` (Python `f"{s:w}"`). -/
def padRight (s : String) (w : Nat) : String :=
  ⟨s.data ++ List.replicate (w - s.length) ' '⟩

/-- Round `num / den` (with `den > 0`) to an integer, ties to even. -/
def roundHalfEven (num : Int) (den : Nat) : Int :=
  let q := Int.fdiv num den
  let r := num - q * den
  if 2 * r < den then q
  else if (den : Int) < 2 * r then q + 1
  else if q % 2 = 0 then q else q + 1

/-- `f"{val:.2f}"` on an exact decimal value: round to two fractional digits
(ties to even) and render. -/
def fmtFixed2 (d : Dec) : String :=
  printDec ⟨roundHalfEven (d.man * 100) (10 ^ d.exp), 2⟩

/-- One rendered data cell (`f"{val:>8.2f}"`; a padding `NaN` renders as
`nan`). -/
def fmtVal : Option Dec → String
  | some d => padLeft (fmtFixed2 d) 8
  | none => padLeft "nan" 8

/-- Fuelled helper for `chunksSucc` (structural recursion); the fuel is
always sufficient when it is at least the list length. -/
def chunksAux (n : Nat) : Nat → List α → List (List α)
  | _, [] => []
  | 0, _ :: _ => []
  | fuel + 1, x :: xs =>
      (x :: xs).take (n + 1) :: chunksAux n fuel ((x :: xs).drop (n + 1))

/-- Slices of `n + 1` consecutive elements (`numpy.reshape((-1, n + 1))` on a
list whose length the caller has checked). -/
def chunksSucc (n : Nat) (l : List α) : List (List α) := chunksAux n l.length l

/-- Re-emission of one profile block by `ProfileInput.to_file`: the label
must be known (`_get_label` raises otherwise), the flattened values must
re-wrap into full 9-wide rows (`reshape((-1, 9))` raises otherwise); the
block is the header line, the rendered 9-cell rows, and one blank
separator. -/
def encodeBlock (name : String) (arr : List (Option Dec)) : Except PErr (List String) :=
  match getLabel name with
  | none => .error .labelError
  | some label =>
      if arr.length % 9 = 0 then
        .ok ((padRight name 8 ++ String.join (List.replicate 9 (padLeft label 8)))
          :: (chunksSucc 8 arr).map (fun row => "        " ++ String.join (row.map fmtVal))
          ++ [""])
      else .error .reshapeError

/-- `ProfileInput.to_file` up to the filesystem: the list of parts joined
with `"\n"` into the written text.  An absent (or empty, hence falsy)
profile-file name renders as `None`. -/
def encodeProfileParts (p : ProfileData) : Except PErr (List String) :=
  (p.data.mapM (fun b => encodeBlock b.1 b.2)).map (fun bls =>
    ("Profile file: " ++
      (match p.profile_file with
       | some f => if f.isEmpty then "None" else f
       | none => "None")) :: p.comment :: bls.flatten)

/-- The number of lines `readlines` yields on the text
`"\n".join(parts)`: one per part, except that a single final empty part only
closes the previous line's newline. -/
def fileLineCount (parts : List String) : Nat :=
  parts.length - (if parts.getLast? = some "" then 1 else 0)

/-! ### The write gate shared by every `to_file`
(`_create_parents_or_fail` of `pyqualw2/config/inputs.py`) -/

/-- A filesystem: files (path components with content) and directories.  The
working directory is the empty path and always exists. -/
structure FileSys where
  files : List (List String × String)
  dirs : List (List String)
deriving DecidableEq, Repr

/-- `Path.exists()`: a file or a directory is present at the path. -/
def pathExists (fs : FileSys) (p : List String) : Bool :=
  fs.files.any (fun f => f.1 = p) || fs.dirs.any (fun d => d = p)

/-- `path.parent.exists()`; the parent of a top-level name is the working
directory, which exists. -/
def parentExists (fs : FileSys) (p : List String) : Bool :=
  p.dropLast.isEmpty || pathExists fs p.dropLast

/-- `Path(name).suffix`: the extension of the final component from its last
dot, empty when there is no dot or the only dot is leading. -/
def pySuffix (s : String) : String :=
  let r := s.data.reverse.takeWhile (fun c => c ≠ '.')
  if r.length + 1 < s.data.length then ⟨'.' :: r.reverse⟩ else ""

/-- The failures of a `to_file` call. -/
inductive WErr
  | extError
  | fileExists
  | parentMissing
deriving DecidableEq, Repr

/-- Store the rendered text at the path, replacing existing content. -/
def fsWrite (fs : FileSys) (p : List String) (text : String) : FileSys :=
  { fs with files :=
      if fs.files.any (fun f => f.1 = p) then
        fs.files.map (fun f => if f.1 = p then (p, text) else f)
      else fs.files ++ [(p, text)] }

/-- `path.parent.mkdir(parents=True, exist_ok=True)`: add every ancestor of
the parent directory. -/
def fsMkParents (fs : FileSys) (p : List String) : FileSys :=
  let newDirs := (List.range p.dropLast.length).map (fun k => p.dropLast.take (k + 1))
  { fs with dirs := fs.dirs ++ newDirs }

/-- The `to_file` control flow shared by the input writers
(`BathymetryInput.to_file` shown in the source): reject a wrong extension
outright; then `_create_parents_or_fail` — an existing destination fails
unless overwriting was requested, a missing parent directory fails unless
creation was requested, and directories are created only in the latter case —
and only then is the rendered text written. -/
def writeGate (fs : FileSys) (p : List String) (ext : String) (text : String)
    (overwrite createParents : Bool) : FileSys × Option WErr :=
  if pySuffix (p.getLastD "") ≠ ext then (fs, some .extError)
  else if pathExists fs p then
    if !overwrite then (fs, some .fileExists)
    else (fsWrite fs p text, none)
  else if !parentExists fs p then
    if createParents then (fsWrite (fsMkParents fs p) p text, none)
    else (fs, some .parentMissing)
  else (fsWrite fs p text, none)

/-! ### Well-formedness of decoded configurations

The invariants a decoded `Section` satisfies by construction (each value is
the coercion of a stripped, comma-free cell of the declared type), the extra
conditions under which the round trip of C1 holds, and the facts about the
fixed schemas themselves that the round-trip proof uses. -/

/-- No character of the string is a comma (every decoded cell satisfies
this, commas being the split separator). -/
def noComma (s : String) : Bool := s.data.all (fun c => !(c == ','))

/-- Stripping is the identity on the string. -/
def stripId (s : String) : Bool := pyStrip s == s

/-- Lower-casing is the identity on the string. -/
def lowerId (s : String) : Bool := pyLower s == s

/-- A decoded value matches its declared type; string-like payloads are
stripped and comma-free as the decoders produce them. -/
def valOk : FieldType → FieldVal → Bool
  | .tInt, .vint _ => true
  | .tFloat, .vdec _ => true
  | .tBool, .vbool _ => true
  | .tStr, .vstr s => stripId s && noComma s
  | .tEnum allowed, .venum s => allowed.contains s && stripId s && noComma s
  | _, _ => false

/-- The extra condition of the amended C1: a string payload is nonempty. -/
def valNonempty : FieldVal → Bool
  | .vstr s => !(s == "")
  | _ => true

/-- A decoded section matches its card's shape and carries one well-typed
value per declared field (for a row card, one nonempty value list per
field). -/
def secOk (c : CardSchema) : Section → Bool
  | .title _ => c.kind == .title
  | .pairs vals => c.kind == .pairTable && vals.length == c.fields.length &&
      (c.fields.zip vals).all (fun p => valOk p.1.ty p.2)
  | .rows valss => c.kind == .rowTable && valss.length == c.fields.length &&
      (c.fields.zip valss).all (fun p => !p.2.isEmpty && p.2.all (valOk p.1.ty))

/-- A decoded configuration matches the schema sequence card for card. -/
def cfgOk (cs : List CardSchema) (ss : List Section) : Bool :=
  ss.length == cs.length && (cs.zip ss).all (fun p => secOk p.1 p.2)

/-- Every string-typed value in the configuration is nonempty. -/
def cfgStrNonempty (ss : List Section) : Bool :=
  ss.all (fun s => match s with
    | .title _ => true
    | .pairs vals => vals.all valNonempty
    | .rows valss => valss.all (fun vs => vs.all valNonempty))

/-- Every title section holds its full 10 lines. -/
def cfgTitles10 (ss : List Section) : Bool :=
  ss.all (fun s => match s with
    | .title ls => ls.length == 10
    | _ => true)

/-- The enumeration tokens of a field type are nonempty, stripped and
comma-free. -/
def tyOk : FieldType → Bool
  | .tEnum allowed => allowed.all (fun t => !(t == "") && stripId t && noComma t)
  | _ => true

/-- A pair-card key as found in the fixed schemas: nonempty, stripped,
comma-free and lower-case. -/
def keyOk (k : String) : Bool := !(k == "") && stripId k && noComma k && lowerId k

/-- The schema facts the round trip relies on: pair cards have at least one
field, distinct well-formed keys and well-formed enum tokens; row cards have
well-formed enum tokens. -/
def schemaOk (c : CardSchema) : Bool :=
  match c.kind with
  | .title => true
  | .pairTable => !c.fields.isEmpty &&
      decide ((c.fields.map FieldSpec.key).Nodup) &&
      c.fields.all (fun f => keyOk f.key && tyOk f.ty)
  | .rowTable => c.fields.all (fun f => tyOk f.ty)

/-- All cards of a schema sequence are well-formed. -/
def schemasOk (cs : List CardSchema) : Bool := cs.all schemaOk

/-! ### Canonical profile-file layouts

A description of one raw data block of a profile file: the header line, the
name tokens and trailing repeated code it splits into, and the data rows
below it.  Used to state which layouts survive a parse/encode round trip. -/

structure RawBlock where
  hline : String
  nameToks : List String
  code : String
  n : Nat
  rows : List String
deriving DecidableEq, Repr

/-- The lines one block occupies: its header line and its data rows. -/
def blockLines (b : RawBlock) : List String := b.hline :: b.rows

/-- The data section of a canonically laid out profile file: the blocks in
order, separated by single blank lines, with no blank line after the last
block. -/
def profileBody : List RawBlock → List String
  | [] => []
  | [b] => blockLines b
  | b :: b2 :: bs => blockLines b ++ [""] ++ profileBody (b2 :: bs)

/-- The spec's description (§4.1) of the paired-header-row primitive, written
for comparison against the source's `pairCells`: zip the two cell lists
positionally, stop at the first position where either side is the empty
string, lower-case and trim the names, trim the values. -/
def specPairMap (ks vs : List String) : List (String × String) :=
  ((ks.zip vs).takeWhile (fun p => !(p.1 == "") && !(p.2 == ""))).map
    (fun p => (pyLower (pyStrip p.1), pyStrip p.2))

/-! ## Lemmas: string utilities -/

theorem dropWhile_eq_self_of (p : α → Bool) (l : List α) (h : ∀ c ∈ l, p c = false) :
    l.dropWhile p = l := by
  cases l with
  | nil => rfl
  | cons a t =>
      rw [List.dropWhile_cons_of_neg]
      simp [h a (by simp)]

theorem dropWhile_idem (p : α → Bool) (l : List α) :
    (l.dropWhile p).dropWhile p = l.dropWhile p := by
  induction l with
  | nil => rfl
  | cons a t ih => by_cases h : p a <;> simp [List.dropWhile_cons, h, ih]

theorem head?_dropWhile (p : α → Bool) (l : List α) (a : α)
    (h : (l.dropWhile p).head? = some a) : p a = false := by
  induction l with
  | nil => simp at h
  | cons b t ih =>
      by_cases hb : p b
      · rw [List.dropWhile_cons_of_pos hb] at h; exact ih h
      · rw [List.dropWhile_cons_of_neg hb] at h
        simp only [List.head?_cons, Option.some.injEq] at h
        subst h
        simpa using hb

theorem getLast?_dropWhile (p : α → Bool) (l : List α) (h : l.dropWhile p ≠ []) :
    (l.dropWhile p).getLast? = l.getLast? := by
  induction l with
  | nil => simp at h
  | cons a t ih =>
      by_cases ha : p a
      · rw [List.dropWhile_cons_of_pos ha] at h ⊢
        have ht : t ≠ [] := by
          intro he
          rw [he] at h
          exact h rfl
        rw [ih h]
        cases t with
        | nil => exact absurd rfl ht
        | cons y t2 => rw [List.getLast?_cons_cons]
      · rw [List.dropWhile_cons_of_neg ha]

theorem stripChars_eq_self (cs : List Char) (h : ∀ c ∈ cs, isPySpace c = false) :
    stripChars cs = cs := by
  unfold stripChars
  rw [dropWhile_eq_self_of _ _ h, dropWhile_eq_self_of, List.reverse_reverse]
  intro c hc
  exact h c (by simpa using hc)

theorem dropWhile_eq_self_of_head? (p : α → Bool) (l : List α) (a : α)
    (hh : l.head? = some a) (ha : p a = false) : l.dropWhile p = l := by
  cases l with
  | nil => simp at hh
  | cons b t =>
      simp at hh
      rw [List.dropWhile_cons_of_neg]
      rw [hh, ha]
      simp

theorem stripChars_eq_self_of_ends (cs : List Char)
    (h1 : ∀ a, cs.head? = some a → isPySpace a = false)
    (h2 : ∀ a, cs.getLast? = some a → isPySpace a = false) :
    stripChars cs = cs := by
  unfold stripChars
  have hdw : cs.dropWhile isPySpace = cs := by
    cases hh : cs.head? with
    | none =>
        rw [List.head?_eq_none_iff] at hh
        rw [hh]
        rfl
    | some a => exact dropWhile_eq_self_of_head? _ _ _ hh (h1 a hh)
  rw [hdw]
  have hrw : cs.reverse.dropWhile isPySpace = cs.reverse := by
    cases hh : cs.reverse.head? with
    | none =>
        rw [List.head?_eq_none_iff] at hh
        rw [hh]
        rfl
    | some a =>
        refine dropWhile_eq_self_of_head? _ _ _ hh (h2 a ?_)
        rw [← List.head?_reverse]
        exact hh
  rw [hrw, List.reverse_reverse]

theorem stripChars_idem (cs : List Char) : stripChars (stripChars cs) = stripChars cs := by
  apply stripChars_eq_self_of_ends
  · intro a ha
    unfold stripChars at ha
    rw [List.head?_reverse] at ha
    have hne : (cs.dropWhile isPySpace).reverse.dropWhile isPySpace ≠ [] := by
      intro he
      rw [he] at ha
      simp at ha
    rw [getLast?_dropWhile _ _ hne, List.getLast?_reverse] at ha
    exact head?_dropWhile _ _ _ ha
  · intro a ha
    unfold stripChars at ha
    rw [List.getLast?_reverse] at ha
    exact head?_dropWhile _ _ _ ha

/-! ## Lemmas: split and join -/

theorem splitOnP_no_p (p : α → Bool) (l : List α) :
    ∀ q ∈ l.splitOnP p, ∀ x ∈ q, p x = false := by
  induction l with
  | nil =>
      intro q hq
      rw [List.splitOnP_nil] at hq
      simp at hq
      simp [hq]
  | cons a t ih =>
      intro q hq
      rw [List.splitOnP_cons] at hq
      by_cases h : p a
      · rw [if_pos h] at hq
        rcases List.mem_cons.mp hq with h1 | h1
        · simp [h1]
        · exact ih q h1
      · rw [if_neg h] at hq
        cases hsp : t.splitOnP p with
        | nil => exact absurd hsp (List.splitOnP_ne_nil _ t)
        | cons h0 rest =>
            rw [hsp] at hq
            simp only [List.modifyHead] at hq
            rcases List.mem_cons.mp hq with h1 | h1
            · subst h1
              intro x hx
              rcases List.mem_cons.mp hx with he | he
              · subst he
                simpa using h
              · exact ih h0 (by rw [hsp]; simp) x he
            · exact ih q (by rw [hsp]; exact List.mem_cons_of_mem _ h1)

theorem splitChar_no_sep (sep : Char) (s : String) :
    ∀ q ∈ splitChar sep s, ∀ c ∈ q.data, c ≠ sep := by
  intro q hq c hc
  unfold splitChar at hq
  rcases List.mem_map.mp hq with ⟨cs, hcs, rfl⟩
  have h := splitOnP_no_p (fun x => x == sep) s.data cs hcs c hc
  simpa using h

theorem splitChar_ne_nil (sep : Char) (s : String) : splitChar sep s ≠ [] := by
  unfold splitChar
  intro h
  rw [List.map_eq_nil_iff] at h
  exact List.splitOnP_ne_nil _ s.data h

theorem mk_data_eq (s : String) : (⟨s.data⟩ : String) = s := rfl

theorem splitChar_joinChar (sep : Char) (parts : List String) (hne : parts ≠ [])
    (h : ∀ q ∈ parts, ∀ c ∈ q.data, c ≠ sep) :
    splitChar sep (joinChar sep parts) = parts := by
  unfold splitChar joinChar
  show ((List.intercalate [sep] (parts.map String.data)).splitOn sep).map _ = parts
  rw [List.splitOn_intercalate (parts.map String.data) sep ?hx ?hls]
  · rw [List.map_map]
    have hcomp : ((fun cs => (⟨cs⟩ : String)) ∘ String.data) = id :=
      funext (fun s => rfl)
    rw [hcomp, List.map_id]
  case hx =>
    intro l hl
    rcases List.mem_map.mp hl with ⟨q, hq, rfl⟩
    intro hc
    exact h q hq sep hc rfl
  case hls => simpa using hne

theorem joinChar_splitChar (sep : Char) (s : String) :
    joinChar sep (splitChar sep s) = s := by
  unfold splitChar joinChar
  rw [List.map_map]
  have hcomp : (String.data ∘ fun cs => (⟨cs⟩ : String)) = id := funext (fun l => rfl)
  rw [hcomp, List.map_id]
  show (⟨[sep].intercalate (s.data.splitOn sep)⟩ : String) = s
  rw [List.intercalate_splitOn]

/-! ## Lemmas: decimal digits and numeric round trips -/

theorem takeWhile_eq_self_of (p : α → Bool) (l : List α) (h : ∀ c ∈ l, p c = true) :
    l.takeWhile p = l := by
  induction l with
  | nil => rfl
  | cons a t ih =>
      rw [List.takeWhile_cons_of_pos (h a (by simp))]
      rw [ih (fun c hc => h c (by simp [hc]))]

theorem digitChar_eq_mod (m : Nat) : digitChar m = digitChar (m % 10) := by
  unfold digitChar
  congr 1
  omega

theorem digitChar_facts : ∀ k, k < 10 →
    (digitChar k).isDigit = true ∧ digitVal (digitChar k) = k ∧
    isPySpace (digitChar k) = false ∧ digitChar k ≠ ',' ∧ digitChar k ≠ '-' ∧
    digitChar k ≠ '+' ∧ digitChar k ≠ '.' := by decide

theorem digitVal_digitChar (m : Nat) : digitVal (digitChar m) = m % 10 := by
  rw [digitChar_eq_mod]
  exact (digitChar_facts (m % 10) (by omega)).2.1

theorem natDigitsAux_eq (f1 : Nat) : ∀ (f2 n : Nat), n < f1 → n < f2 →
    natDigitsAux f1 n = natDigitsAux f2 n := by
  induction f1 with
  | zero => intro f2 n h1 _; omega
  | succ f ih =>
      intro f2 n h1 h2
      cases f2 with
      | zero => omega
      | succ g =>
          simp only [natDigitsAux]
          by_cases h : n < 10
          · simp [h]
          · rw [if_neg h, if_neg h]
            have hdiv : n / 10 < n := Nat.div_lt_self (by omega) (by omega)
            rw [ih g (n / 10) (by omega) (by omega)]

theorem natDigits_eq (n : Nat) : natDigits n =
    if n < 10 then [digitChar n] else natDigits (n / 10) ++ [digitChar (n % 10)] := by
  show natDigitsAux (n + 1) n = _
  by_cases h : n < 10
  · simp [natDigitsAux, h]
  · simp only [natDigitsAux, if_neg h]
    have hdiv : n / 10 < n := Nat.div_lt_self (by omega) (by omega)
    rw [show natDigits (n / 10) = natDigitsAux (n / 10 + 1) (n / 10) from rfl]
    rw [natDigitsAux_eq n (n / 10 + 1) (n / 10) (by omega) (by omega)]

theorem natDigits_forall (P : Char → Prop) (hP : ∀ k, k < 10 → P (digitChar k)) :
    ∀ n, ∀ c ∈ natDigits n, P c := by
  intro n
  induction n using Nat.strong_induction_on with
  | _ n ih =>
      intro c hc
      rw [natDigits_eq] at hc
      split at hc
      · next h =>
          simp only [List.mem_singleton] at hc
          subst hc
          rw [digitChar_eq_mod]
          exact hP (n % 10) (by omega)
      · next h =>
          rcases List.mem_append.mp hc with h1 | h1
          · exact ih (n / 10) (Nat.div_lt_self (by omega) (by omega)) c h1
          · simp only [List.mem_singleton] at h1
            subst h1
            rw [digitChar_eq_mod]
            exact hP (n % 10 % 10) (by omega)

theorem natDigits_isDigit (n : Nat) : ∀ c ∈ natDigits n, c.isDigit = true :=
  natDigits_forall _ (fun k hk => (digitChar_facts k hk).1) n

theorem natDigits_not_space (n : Nat) : ∀ c ∈ natDigits n, isPySpace c = false :=
  natDigits_forall _ (fun k hk => (digitChar_facts k hk).2.2.1) n

theorem natDigits_ne_comma (n : Nat) : ∀ c ∈ natDigits n, c ≠ ',' :=
  natDigits_forall _ (fun k hk => (digitChar_facts k hk).2.2.2.1) n

theorem natDigits_ne_sign (n : Nat) : ∀ c ∈ natDigits n, c ≠ '-' ∧ c ≠ '+' :=
  natDigits_forall _ (fun k hk =>
    ⟨(digitChar_facts k hk).2.2.2.2.1, (digitChar_facts k hk).2.2.2.2.2.1⟩) n

theorem natDigits_ne_nil (n : Nat) : natDigits n ≠ [] := by
  rw [natDigits_eq]
  split <;> simp

theorem digitsToNat_foldl : ∀ (ys : List Char) (a : Nat),
    ys.foldl (fun acc c => acc * 10 + digitVal c) a =
      a * 10 ^ ys.length + digitsToNat ys
  | [], a => by simp [digitsToNat]
  | c :: t, a => by
      have h2 : digitsToNat (c :: t) = digitVal c * 10 ^ t.length + digitsToNat t := by
        rw [show digitsToNat (c :: t) =
            t.foldl (fun acc x => acc * 10 + digitVal x) (0 * 10 + digitVal c) from rfl,
          digitsToNat_foldl t (0 * 10 + digitVal c)]
        simp
      rw [List.foldl_cons, digitsToNat_foldl t (a * 10 + digitVal c), h2,
        List.length_cons, pow_succ]
      ring

theorem digitsToNat_append (xs ys : List Char) :
    digitsToNat (xs ++ ys) = digitsToNat xs * 10 ^ ys.length + digitsToNat ys := by
  unfold digitsToNat
  rw [List.foldl_append]
  exact digitsToNat_foldl ys _

theorem digitsToNat_natDigits (n : Nat) : digitsToNat (natDigits n) = n := by
  induction n using Nat.strong_induction_on with
  | _ n ih =>
      rw [natDigits_eq]
      split
      · next h =>
          unfold digitsToNat
          simp [digitVal_digitChar]
          omega
      · next h =>
          rw [digitsToNat_append, ih (n / 10) (Nat.div_lt_self (by omega) (by omega))]
          unfold digitsToNat
          simp [digitVal_digitChar]
          omega

theorem digitsToNat_replicate_zero (k : Nat) :
    digitsToNat (List.replicate k '0') = 0 := by
  induction k with
  | zero => rfl
  | succ k ih =>
      rw [List.replicate_succ]
      rw [show digitsToNat ('0' :: List.replicate k '0') =
          (List.replicate k '0').foldl (fun acc x => acc * 10 + digitVal x)
            (0 * 10 + digitVal '0') from rfl]
      rw [digitsToNat_foldl, ih]
      have h0 : digitVal '0' = 0 := rfl
      simp [h0]

theorem digitsToNat_pad (k : Nat) (xs : List Char) :
    digitsToNat (List.replicate k '0' ++ xs) = digitsToNat xs := by
  rw [digitsToNat_append, digitsToNat_replicate_zero]
  simp

theorem parseDigits_of_digits (cs : List Char) (hne : cs ≠ [])
    (hd : ∀ c ∈ cs, c.isDigit = true) : parseDigits cs = some (digitsToNat cs) := by
  unfold parseDigits
  rw [if_pos ⟨hne, List.all_eq_true.mpr (fun c hc => hd c hc)⟩]

theorem parseDigits_natDigits (m : Nat) : parseDigits (natDigits m) = some m := by
  rw [parseDigits_of_digits _ (natDigits_ne_nil m) (natDigits_isDigit m),
    digitsToNat_natDigits]

theorem pyParseInt_printInt (n : Int) : pyParseInt (printInt n) = some n := by
  unfold pyParseInt printInt
  by_cases h : n < 0
  · rw [if_pos h]
    have hstrip : stripChars ('-' :: natDigits n.natAbs) = '-' :: natDigits n.natAbs := by
      apply stripChars_eq_self
      intro c hc
      rcases List.mem_cons.mp hc with rfl | hc
      · decide
      · exact natDigits_not_space _ c hc
    show pyParseIntChars (stripChars ('-' :: natDigits n.natAbs)) = some n
    rw [hstrip]
    simp only [pyParseIntChars]
    rw [if_pos trivial, parseDigits_natDigits]
    have habs : ((n.natAbs : Nat) : Int) = -n :=
      Int.ofNat_natAbs_of_nonpos (le_of_lt h)
    simp [habs]
  · rw [if_neg h]
    have hstrip : stripChars (natDigits n.natAbs) = natDigits n.natAbs :=
      stripChars_eq_self _ (natDigits_not_space _)
    show pyParseIntChars (stripChars (natDigits n.natAbs)) = some n
    rw [hstrip]
    obtain ⟨c, cs, hcons⟩ := List.exists_cons_of_ne_nil (natDigits_ne_nil n.natAbs)
    rw [hcons]
    simp only [pyParseIntChars]
    have hsign := natDigits_ne_sign n.natAbs c (by rw [hcons]; simp)
    rw [if_neg hsign.1, if_neg hsign.2, ← hcons, parseDigits_natDigits]
    simp
    omega

theorem parseUDec_plain (A : List Char) (hne : A ≠ [])
    (hdig : ∀ c ∈ A, c.isDigit = true) :
    parseUDec A = some ⟨(digitsToNat A : Int), 0⟩ := by
  unfold parseUDec
  have htw : A.takeWhile Char.isDigit = A := takeWhile_eq_self_of _ _ hdig
  have hdw : A.dropWhile Char.isDigit = [] := by
    rw [List.dropWhile_eq_nil_iff]
    exact hdig
  rw [htw, hdw]
  simp [hne]

theorem parseUDec_pointed (P : List Char) (e : Nat)
    (hdig : ∀ c ∈ P, c.isDigit = true) (hlen : e + 1 ≤ P.length) :
    parseUDec (P.take (P.length - e) ++ '.' :: P.drop (P.length - e)) =
      some ⟨(digitsToNat P : Int), e⟩ := by
  have hIdig : ∀ c ∈ P.take (P.length - e), c.isDigit = true :=
    fun c hc => hdig c (List.take_subset _ _ hc)
  have hFdig : ∀ c ∈ P.drop (P.length - e), c.isDigit = true :=
    fun c hc => hdig c (List.drop_subset _ _ hc)
  have hIlen : (P.take (P.length - e)).length = P.length - e := by
    rw [List.length_take]
    omega
  have hFlen : (P.drop (P.length - e)).length = e := by
    rw [List.length_drop]
    omega
  have hIne : P.take (P.length - e) ≠ [] := by
    intro hnil
    rw [hnil] at hIlen
    simp at hIlen
    omega
  unfold parseUDec
  have htw : ((P.take (P.length - e) ++ '.' :: P.drop (P.length - e)).takeWhile
      Char.isDigit) = P.take (P.length - e) := by
    rw [List.takeWhile_append_of_pos hIdig, List.takeWhile_cons_of_neg (by decide)]
    simp
  have hdw : ((P.take (P.length - e) ++ '.' :: P.drop (P.length - e)).dropWhile
      Char.isDigit) = '.' :: P.drop (P.length - e) := by
    rw [List.dropWhile_append_of_pos hIdig, List.dropWhile_cons_of_neg (by decide)]
  rw [htw, hdw]
  simp only [List.isEmpty_cons, List.headD_cons, List.tail_cons]
  rw [if_neg (by simp), if_pos trivial, if_pos ⟨List.all_eq_true.mpr hFdig, by simp [hIne]⟩]
  have hval : digitsToNat (P.take (P.length - e)) * 10 ^ e + digitsToNat
      (P.drop (P.length - e)) = digitsToNat P := by
    rw [show digitsToNat P = digitsToNat (P.take (P.length - e)
      ++ P.drop (P.length - e)) by rw [List.take_append_drop]]
    rw [digitsToNat_append, hFlen]
  rw [hFlen]
  congr 1
  rw [Dec.mk.injEq]
  refine ⟨?_, rfl⟩
  rw [← hval]
  push_cast
  ring

theorem pyParseDecChars_neg (cs : List Char) :
    pyParseDecChars ('-' :: cs) = (parseUDec cs).map (fun d => ⟨-d.man, d.exp⟩) := by
  simp only [pyParseDecChars]
  rw [if_pos trivial]

theorem pyParseDecChars_digit (c : Char) (cs : List Char) (hc : c.isDigit = true) :
    pyParseDecChars (c :: cs) = parseUDec (c :: cs) := by
  simp only [pyParseDecChars]
  have h1 : c ≠ '-' := by intro he; rw [he] at hc; exact absurd hc (by decide)
  have h2 : c ≠ '+' := by intro he; rw [he] at hc; exact absurd hc (by decide)
  rw [if_neg h1, if_neg h2]

theorem pyParseDec_printDec (d : Dec) : pyParseDec (printDec d) = some d := by
  obtain ⟨m, e⟩ := d
  have hAne : natDigits m.natAbs ≠ [] := natDigits_ne_nil _
  have hAlen : 1 ≤ (natDigits m.natAbs).length := List.length_pos.mpr hAne
  have hPdig : ∀ c ∈ List.replicate (e + 1 - (natDigits m.natAbs).length) '0'
      ++ natDigits m.natAbs, c.isDigit = true := by
    intro c hc
    rcases List.mem_append.mp hc with h1 | h1
    · rw [List.eq_of_mem_replicate h1]; decide
    · exact natDigits_isDigit _ c h1
  have hPns : ∀ c ∈ List.replicate (e + 1 - (natDigits m.natAbs).length) '0'
      ++ natDigits m.natAbs, isPySpace c = false := by
    intro c hc
    rcases List.mem_append.mp hc with h1 | h1
    · rw [List.eq_of_mem_replicate h1]; decide
    · exact natDigits_not_space _ c h1
  have hPlen : e + 1 ≤ (List.replicate (e + 1 - (natDigits m.natAbs).length) '0'
      ++ natDigits m.natAbs).length := by
    rw [List.length_append, List.length_replicate]
    omega
  have hPval : digitsToNat (List.replicate (e + 1 - (natDigits m.natAbs).length) '0'
      ++ natDigits m.natAbs) = m.natAbs := by
    rw [digitsToNat_pad, digitsToNat_natDigits]
  set P := List.replicate (e + 1 - (natDigits m.natAbs).length) '0'
    ++ natDigits m.natAbs with hP
  by_cases he : e = 0
  · subst he
    have hP0 : P = natDigits m.natAbs := by
      rw [hP, show 0 + 1 - (natDigits m.natAbs).length = 0 by omega]
      simp
    have hprint : printDec ⟨m, 0⟩ =
        ⟨(if m < 0 then ['-'] else []) ++ natDigits m.natAbs⟩ := by
      simp only [printDec]
      rw [if_pos trivial, show 0 + 1 - (natDigits m.natAbs).length = 0 by omega]
      simp
    rw [hprint]
    unfold pyParseDec
    by_cases hm : m < 0
    · rw [if_pos hm]
      show pyParseDecChars (stripChars ('-' :: ([] ++ natDigits m.natAbs))) = _
      rw [List.nil_append]
      rw [stripChars_eq_self _ (by
        intro c hc
        rcases List.mem_cons.mp hc with rfl | hc
        · decide
        · exact natDigits_not_space _ c hc)]
      rw [pyParseDecChars_neg, parseUDec_plain _ hAne (natDigits_isDigit _)]
      simp only [Option.map_some']
      congr 1
      rw [Dec.mk.injEq]
      refine ⟨?_, rfl⟩
      rw [digitsToNat_natDigits]
      omega
    · rw [if_neg hm]
      show pyParseDecChars (stripChars (natDigits m.natAbs)) = _
      rw [stripChars_eq_self _ (natDigits_not_space _)]
      obtain ⟨c, cs, hcons⟩ := List.exists_cons_of_ne_nil hAne
      rw [hcons, pyParseDecChars_digit c cs (natDigits_isDigit _ c (by rw [hcons]; simp)),
        ← hcons, parseUDec_plain _ hAne (natDigits_isDigit _)]
      congr 1
      rw [Dec.mk.injEq]
      refine ⟨?_, rfl⟩
      rw [digitsToNat_natDigits]
      omega
  · have hprint : printDec ⟨m, e⟩ = ⟨(if m < 0 then ['-'] else []) ++
        (P.take (P.length - e) ++ '.' :: P.drop (P.length - e))⟩ := by
      simp only [printDec]
      rw [if_neg he]
      simp [hP]
    rw [hprint]
    unfold pyParseDec
    have hbody : ∀ c ∈ P.take (P.length - e) ++ '.' :: P.drop (P.length - e),
        isPySpace c = false := by
      intro c hc
      rcases List.mem_append.mp hc with h1 | h1
      · exact hPns c (List.take_subset _ _ h1)
      · rcases List.mem_cons.mp h1 with rfl | h1
        · decide
        · exact hPns c (List.drop_subset _ _ h1)
    by_cases hm : m < 0
    · rw [if_pos hm]
      show pyParseDecChars (stripChars ('-' :: ([] ++ (P.take (P.length - e)
        ++ '.' :: P.drop (P.length - e))))) = _
      rw [List.nil_append]
      rw [stripChars_eq_self _ (by
        intro c hc
        rcases List.mem_cons.mp hc with rfl | hc
        · decide
        · exact hbody c hc)]
      rw [pyParseDecChars_neg, parseUDec_pointed P e hPdig hPlen]
      simp only [Option.map_some']
      congr 1
      rw [Dec.mk.injEq]
      refine ⟨?_, rfl⟩
      rw [hPval]
      omega
    · rw [if_neg hm]
      show pyParseDecChars (stripChars (P.take (P.length - e)
        ++ '.' :: P.drop (P.length - e))) = _
      rw [stripChars_eq_self _ hbody]
      have hIne : P.take (P.length - e) ≠ [] := by
        intro hnil
        have := congrArg List.length hnil
        rw [List.length_take] at this
        simp at this
        omega
      obtain ⟨c, cs, hcons⟩ := List.exists_cons_of_ne_nil hIne
      have hcd : c.isDigit = true :=
        hPdig c (List.take_subset _ _ (by rw [hcons]; simp))
      rw [hcons]
      rw [show (c :: cs) ++ '.' :: P.drop (P.length - e)
        = c :: (cs ++ '.' :: P.drop (P.length - e)) from rfl]
      rw [pyParseDecChars_digit c _ hcd]
      rw [show c :: (cs ++ '.' :: P.drop (P.length - e))
        = (c :: cs) ++ '.' :: P.drop (P.length - e) from rfl]
      rw [← hcons, parseUDec_pointed P e hPdig hPlen]
      congr 1
      rw [Dec.mk.injEq]
      refine ⟨?_, rfl⟩
      rw [hPval]
      omega

theorem pyParseBool_printBool (b : Bool) : pyParseBool (printBool b) = some b := by
  cases b <;> decide

/-! ## Lemmas: the pair-table and row-table primitives -/

theorem stripChars_eq_nil_iff (cs : List Char) :
    stripChars cs = [] ↔ ∀ c ∈ cs, isPySpace c = true := by
  unfold stripChars
  rw [List.reverse_eq_nil_iff, List.dropWhile_eq_nil_iff]
  constructor
  · intro h c hc
    rw [← List.takeWhile_append_dropWhile (p := isPySpace) (l := cs)] at hc
    rcases List.mem_append.mp hc with h1 | h1
    · exact List.mem_takeWhile_imp h1
    · exact h c (by simpa using h1)
  · intro h c hc
    exact h c ((List.dropWhile_sublist _).subset (by simpa using hc))

theorem stripChars_head?_not_space (cs : List Char) (a : Char)
    (h : (stripChars cs).head? = some a) : isPySpace a = false := by
  unfold stripChars at h
  rw [List.head?_reverse] at h
  have hne : (cs.dropWhile isPySpace).reverse.dropWhile isPySpace ≠ [] := by
    intro he
    rw [he] at h
    simp at h
  rw [getLast?_dropWhile _ _ hne, List.getLast?_reverse] at h
  exact head?_dropWhile _ _ _ h

theorem head?_of_takeWhile_cons (p : α → Bool) (l : List α) (x : α) (xs : List α)
    (h : l.takeWhile p = x :: xs) : l.head? = some x := by
  cases l with
  | nil => simp at h
  | cons a t =>
      by_cases ha : p a
      · rw [List.takeWhile_cons_of_pos ha] at h
        simp at h
        simp [h.1]
      · rw [List.takeWhile_cons_of_neg ha] at h
        simp at h

theorem splitOnP_head? (p : α → Bool) (l : List α) :
    (l.splitOnP p).head? = some (l.takeWhile (fun a => !p a)) := by
  induction l with
  | nil => simp [List.splitOnP_nil]
  | cons a t ih =>
      rw [List.splitOnP_cons]
      by_cases h : p a
      · simp [h]
      · rw [if_neg h]
        cases hsp : t.splitOnP p with
        | nil => exact absurd hsp (List.splitOnP_ne_nil _ t)
        | cons h0 rest =>
            rw [hsp] at ih
            simp only [List.head?_cons, Option.some.injEq] at ih
            simp [List.modifyHead, List.takeWhile_cons, h, ih]

theorem rowCells_head (l : String) :
    (rowCells l).headD "" =
      ⟨(stripChars l.data).takeWhile (fun c => !(c == ','))⟩ := by
  unfold rowCells splitChar
  rw [show (pyStrip l).data = stripChars l.data from rfl]
  rw [show (stripChars l.data).splitOn ','
    = (stripChars l.data).splitOnP (fun c => c == ',') from rfl]
  cases hsp : (stripChars l.data).splitOnP (fun c => c == ',') with
  | nil => exact absurd hsp (List.splitOnP_ne_nil _ _)
  | cons h0 rest =>
      have hh := splitOnP_head? (fun c => c == ',') (stripChars l.data)
      rw [hsp] at hh
      simp only [List.head?_cons, Option.some.injEq] at hh
      simp [hh]

theorem mk_ne_empty_iff (cs : List Char) : (⟨cs⟩ : String) ≠ "" ↔ cs ≠ [] := by
  constructor
  · intro h he
    exact h (by rw [he])
  · intro h he
    exact h (congrArg String.data he)

theorem lineVals_ne_nil_of_first (l : String)
    (h : (rowCells l).headD "" ≠ "") : lineVals l ≠ [] := by
  have hcell := rowCells_head l
  cases hrc : rowCells l with
  | nil => rw [hrc] at h; simp at h
  | cons c0 rest =>
      rw [hrc] at h hcell
      simp only [List.headD_cons] at h hcell
      subst hcell
      have hT : (stripChars l.data).takeWhile (fun c => !(c == ',')) ≠ [] :=
        (mk_ne_empty_iff _).mp h
      obtain ⟨x, xs, hx⟩ := List.exists_cons_of_ne_nil hT
      have hhead : (stripChars l.data).head? = some x :=
        head?_of_takeWhile_cons _ _ _ _ hx
      have hxs : isPySpace x = false := stripChars_head?_not_space _ _ hhead
      have hmem : x ∈ (stripChars l.data).takeWhile (fun c => !(c == ',')) := by
        rw [hx]; simp
      have hstrip : stripChars ((stripChars l.data).takeWhile
          (fun c => !(c == ','))) ≠ [] := by
        intro hnil
        rw [stripChars_eq_nil_iff] at hnil
        rw [hnil x hmem] at hxs
        exact absurd hxs (by simp)
      unfold lineVals
      rw [hrc]
      simp only [List.map_cons]
      rw [List.takeWhile_cons_of_pos]
      · simp
      · simp only [bne_iff_ne, ne_eq, decide_eq_true_eq]
        show pyStrip ⟨(stripChars l.data).takeWhile (fun c => !(c == ','))⟩ ≠ ""
        rw [mk_ne_empty_iff]
        exact hstrip

theorem optionMapM_congr (f g : α → Option β) (l : List α)
    (h : ∀ x ∈ l, f x = g x) : l.mapM f = l.mapM g := by
  induction l with
  | nil => rfl
  | cons a t ih =>
      rw [List.mapM_cons, List.mapM_cons, h a (by simp),
        ih (fun x hx => h x (by simp [hx]))]

theorem enumFrom_fst_lt (l : List α) :
    ∀ (n : Nat) (p : Nat × α), p ∈ l.enumFrom n → p.1 < n + l.length := by
  induction l with
  | nil => intro n p hp; simp at hp
  | cons a t ih =>
      intro n p hp
      rw [List.enumFrom_cons] at hp
      rcases List.mem_cons.mp hp with h1 | h1
      · subst h1; simp
      · have := ih (n + 1) p h1
        simp only [List.length_cons]
        omega

theorem instantiateRows_take (fields : List FieldSpec) (rows : List String) :
    instantiateRows fields rows =
      instantiateRows fields (rows.take fields.length) := by
  unfold instantiateRows
  apply optionMapM_congr
  intro jf hjf
  have hlt : jf.1 < fields.length := by
    have := enumFrom_fst_lt fields 0 jf (by simpa [List.enum] using hjf)
    omega
  rw [List.get?_take hlt]

theorem pairCells_spec (ks vs : List String) (m : List (String × String))
    (h : pairCells ks vs = some m) : m = specPairMap ks vs := by
  induction ks generalizing vs m with
  | nil =>
      cases vs with
      | nil =>
          simp only [pairCells, Option.some.injEq] at h
          subst h
          rfl
      | cons v vs => simp [pairCells] at h
  | cons k ks ih =>
      cases vs with
      | nil => simp [pairCells] at h
      | cons v vs =>
          simp only [pairCells] at h
          by_cases he : k = "" ∨ v = ""
          · rw [if_pos he] at h
            simp only [Option.some.injEq] at h
            subst h
            unfold specPairMap
            rw [List.zip_cons_cons, List.takeWhile_cons_of_neg]
            · rfl
            · simp only [Bool.and_eq_true, Bool.not_eq_true', beq_eq_false_iff_ne]
              rcases he with he | he <;> simp [he]
          · rw [if_neg he] at h
            cases hp : pairCells ks vs with
            | none => rw [hp] at h; simp at h
            | some m2 =>
                rw [hp] at h
                simp only [Option.map_some', Option.some.injEq] at h
                subst h
                unfold specPairMap
                rw [List.zip_cons_cons, List.takeWhile_cons_of_pos]
                · rw [List.map_cons]
                  have := ih vs m2 hp
                  unfold specPairMap at this
                  rw [← this]
                · push_neg at he
                  simp only [Bool.and_eq_true, Bool.not_eq_true', beq_eq_false_iff_ne]
                  exact ⟨he.1, he.2⟩

theorem pairCells_mismatch (ks vs : List String)
    (hk : ∀ k ∈ ks, k ≠ "") (hv : ∀ v ∈ vs, v ≠ "")
    (hlen : ks.length ≠ vs.length) : pairCells ks vs = none := by
  induction ks generalizing vs with
  | nil =>
      cases vs with
      | nil => simp at hlen
      | cons v vs => simp [pairCells]
  | cons k ks ih =>
      cases vs with
      | nil => simp [pairCells]
      | cons v vs =>
          simp only [pairCells]
          rw [if_neg (by
            push_neg
            exact ⟨hk k (by simp), hv v (by simp)⟩)]
          rw [ih vs (fun x hx => hk x (by simp [hx]))
            (fun x hx => hv x (by simp [hx])) (by simpa using hlen)]
          rfl

/-! ## Reduction lemmas for the decoder shapes -/

theorem pairTableKwargs_eq (lines : List String) (i : Nat) (l1 l2 : String)
    (h1 : lines.get? i = some l1) (h2 : lines.get? (i + 1) = some l2) :
    pairTableKwargs lines i =
      (match pairCells (splitChar ',' l1) (splitChar ',' l2) with
        | some kvs => Except.ok kvs
        | none => Except.error DErr.zipMismatch) := by
  unfold pairTableKwargs
  rw [h1, h2]

theorem pairTableKwargs_ok_of (lines : List String) (i : Nat) (l1 l2 : String)
    (m : List (String × String)) (h1 : lines.get? i = some l1)
    (h2 : lines.get? (i + 1) = some l2)
    (hp : pairCells (splitChar ',' l1) (splitChar ',' l2) = some m) :
    pairTableKwargs lines i = .ok m := by
  rw [pairTableKwargs_eq lines i l1 l2 h1 h2, hp]

theorem pairTableKwargs_zip_of (lines : List String) (i : Nat) (l1 l2 : String)
    (h1 : lines.get? i = some l1) (h2 : lines.get? (i + 1) = some l2)
    (hp : pairCells (splitChar ',' l1) (splitChar ',' l2) = none) :
    pairTableKwargs lines i = .error .zipMismatch := by
  rw [pairTableKwargs_eq lines i l1 l2 h1 h2, hp]

theorem decodePairTable_eq_of_kwargs (fields : List FieldSpec) (lines : List String)
    (i : Nat) (kvs : List (String × String))
    (hk : pairTableKwargs lines i = .ok kvs) :
    decodePairTable fields lines i =
      (match instantiateFields fields kvs with
        | some vals => Except.ok (vals, i + 3)
        | none => Except.error (errSnippet lines i)) := by
  unfold decodePairTable
  rw [hk]

theorem decodePairTable_err (fields : List FieldSpec) (lines : List String)
    (i : Nat) (e : DErr) (hk : pairTableKwargs lines i = .error e) :
    decodePairTable fields lines i = .error e := by
  unfold decodePairTable
  rw [hk]

theorem decodePairTable_ok_of (fields : List FieldSpec) (lines : List String)
    (i : Nat) (kvs : List (String × String)) (vals : List FieldVal)
    (hk : pairTableKwargs lines i = .ok kvs)
    (hi : instantiateFields fields kvs = some vals) :
    decodePairTable fields lines i = .ok (vals, i + 3) := by
  rw [decodePairTable_eq_of_kwargs fields lines i kvs hk, hi]

theorem decodePairTable_instFail (fields : List FieldSpec) (lines : List String)
    (i : Nat) (kvs : List (String × String))
    (hk : pairTableKwargs lines i = .ok kvs)
    (hi : instantiateFields fields kvs = none) :
    decodePairTable fields lines i = .error (errSnippet lines i) := by
  rw [decodePairTable_eq_of_kwargs fields lines i kvs hk, hi]

theorem decodeRowTable_eq (fields : List FieldSpec) (lines : List String) (i : Nat) :
    decodeRowTable fields lines i =
      (match instantiateRows fields (rowBlockLines (lines.drop (i + 1))) with
        | some vals => Except.ok (vals,
            i + (rowBlockLines (lines.drop (i + 1))).length + 2,
            rowWarnings fields.length (rowBlockLines (lines.drop (i + 1))))
        | none => Except.error (errSnippet lines i)) := rfl

theorem decodeRowTable_ok_of (fields : List FieldSpec) (lines : List String)
    (i : Nat) (vals : List (List FieldVal))
    (hi : instantiateRows fields (rowBlockLines (lines.drop (i + 1))) = some vals) :
    decodeRowTable fields lines i = .ok (vals,
      i + (rowBlockLines (lines.drop (i + 1))).length + 2,
      rowWarnings fields.length (rowBlockLines (lines.drop (i + 1)))) := by
  rw [decodeRowTable_eq, hi]

/-! ## Claims C2, C3, C4: the two decode primitives of `subconfig.py` -/

/-- C4: for every paired-header-row decode, the mapping built from
`lines[i]` and `lines[i+1]` zips the two cell lists positionally, stops at
the first position where either raw cell is the empty string, lower-cases and
trims the names and trims the values (that is, it equals `specPairMap`), and
a successful section decode returns the cursor advanced by exactly 3 lines. -/
theorem claimC4 :
    (∀ (lines : List String) (i : Nat) (kvs : List (String × String)),
      pairTableKwargs lines i = .ok kvs →
        kvs = specPairMap (splitChar ',' ((lines.get? i).getD ""))
          (splitChar ',' ((lines.get? (i + 1)).getD ""))) ∧
    (∀ (fields : List FieldSpec) (lines : List String) (i : Nat)
        (vals : List FieldVal) (j : Nat),
      decodePairTable fields lines i = .ok (vals, j) → j = i + 3) := by
  constructor
  · intro lines i kvs h
    cases hl1 : lines.get? i with
    | none =>
        have hidx : pairTableKwargs lines i = .error .indexError := by
          unfold pairTableKwargs
          rw [hl1]
        rw [hidx] at h
        exact absurd h (by simp)
    | some l1 =>
        cases hl2 : lines.get? (i + 1) with
        | none =>
            have hidx : pairTableKwargs lines i = .error .indexError := by
              unfold pairTableKwargs
              rw [hl1, hl2]
            rw [hidx] at h
            exact absurd h (by simp)
        | some l2 =>
            cases hp : pairCells (splitChar ',' l1) (splitChar ',' l2) with
            | none =>
                rw [pairTableKwargs_zip_of lines i l1 l2 hl1 hl2 hp] at h
                exact absurd h (by simp)
            | some m =>
                rw [pairTableKwargs_ok_of lines i l1 l2 m hl1 hl2 hp] at h
                simp only [Except.ok.injEq] at h
                subst h
                exact pairCells_spec _ _ _ hp
  · intro fields lines i vals j h
    cases hk : pairTableKwargs lines i with
    | error e =>
        rw [decodePairTable_err fields lines i e hk] at h
        exact absurd h (by simp)
    | ok kvs =>
        cases hi : instantiateFields fields kvs with
        | none =>
            rw [decodePairTable_instFail fields lines i kvs hk hi] at h
            exact absurd h (by simp)
        | some v =>
            rw [decodePairTable_ok_of fields lines i kvs v hk hi] at h
            simp only [Except.ok.injEq, Prod.mk.injEq] at h
            exact h.2.symm

/-- C4 witness: the mapping and cursor facts at the concrete `GRID`-style
card `["NWB, NBR,,", "1,4,,"]`. -/
theorem claimC4_witness :
    ([("nwb", "1"), ("nbr", "4")] : List (String × String)) =
      specPairMap (splitChar ',' (((["NWB, NBR,,", "1,4,,"] :
          List String).get? 0).getD ""))
        (splitChar ',' (((["NWB, NBR,,", "1,4,,"] : List String).get? 1).getD "")) ∧
    (3 : Nat) = 0 + 3 := by
  constructor
  · exact claimC4.1 ["NWB, NBR,,", "1,4,,"] 0 [("nwb", "1"), ("nbr", "4")] (by rfl)
  · exact claimC4.2 [fI "nwb", fI "nbr"] ["NWB, NBR,,", "1,4,,"] 0
      [.vint 1, .vint 4] 3 (by rfl)

/-- C2 counterexample: `TimestepDate` declares the single field `dltd`; the
data line `"1.0,2.0,"` carries one more comma-separated value than the
declared field count, yet the decode succeeds with BOTH values kept in
`dltd` and zero warnings emitted — the extra value is neither dropped nor
warned about, refuting the claim as stated. -/
theorem claimC2_cex :
    decodeRowTable [fF "dltd"] ["DLTD,", "1.0,2.0,", " ,,,"] 0 =
      .ok ([[.vdec ⟨10, 1⟩, .vdec ⟨20, 1⟩]], 3, 0) := by rfl

/-- C2 (amended): in `parse_row_variables` the extras that are skipped with a
non-fatal warning are extra data LINES (each line is one declared field, the
values across a line are the per-branch entries): when the consumed block
has more lines than declared fields, at least one warning is emitted, the
decoded section is computed from the first `fields.length` lines only (the
extra lines' values are dropped), and the parse still succeeds — with the
cursor advanced past the whole block — whenever those first lines
instantiate. -/
theorem claimC2 (fields : List FieldSpec) (lines : List String) (i : Nat)
    (h : fields.length < (rowBlockLines (lines.drop (i + 1))).length) :
    1 ≤ rowWarnings fields.length (rowBlockLines (lines.drop (i + 1))) ∧
    instantiateRows fields (rowBlockLines (lines.drop (i + 1))) =
      instantiateRows fields
        ((rowBlockLines (lines.drop (i + 1))).take fields.length) ∧
    (∀ vals, instantiateRows fields
        ((rowBlockLines (lines.drop (i + 1))).take fields.length) = some vals →
      decodeRowTable fields lines i = .ok (vals,
        i + (rowBlockLines (lines.drop (i + 1))).length + 2,
        rowWarnings fields.length (rowBlockLines (lines.drop (i + 1))))) := by
  refine ⟨?_, instantiateRows_take fields _, ?_⟩
  · have hne : (rowBlockLines (lines.drop (i + 1))).drop fields.length ≠ [] := by
      intro he
      have := congrArg List.length he
      rw [List.length_drop] at this
      simp at this
      omega
    obtain ⟨r0, rest, hr⟩ := List.exists_cons_of_ne_nil hne
    have hr0mem : r0 ∈ rowBlockLines (lines.drop (i + 1)) := by
      have hmem : r0 ∈ (rowBlockLines (lines.drop (i + 1))).drop fields.length := by
        rw [hr]; simp
      exact (List.drop_sublist _ _).subset hmem
    have hfirst : (rowCells r0).headD "" ≠ "" := by
      have := List.mem_takeWhile_imp hr0mem
      simpa using this
    have hlv : lineVals r0 ≠ [] := lineVals_ne_nil_of_first r0 hfirst
    unfold rowWarnings
    have hpos : 0 < ((rowBlockLines (lines.drop (i + 1))).drop
        fields.length).countP (fun l => !(lineVals l).isEmpty) := by
      rw [List.countP_pos_iff]
      refine ⟨r0, by rw [hr]; simp, ?_⟩
      simp only [Bool.not_eq_true', List.isEmpty_eq_false]
      exact hlv
    omega
  · intro vals hv
    exact decodeRowTable_ok_of fields lines i vals (by rw [instantiateRows_take, hv])

/-- C2 witness for the amended claim: a `TimestepDate`-shaped block fed two
data lines against its single declared field. -/
theorem claimC2_witness :
    1 ≤ rowWarnings 1 (rowBlockLines ["1.0,", "2.0,", ",,,"]) ∧
    instantiateRows [fF "dltd"] (rowBlockLines ["1.0,", "2.0,", ",,,"]) =
      instantiateRows [fF "dltd"] ((rowBlockLines ["1.0,", "2.0,", ",,,"]).take 1) ∧
    (∀ vals, instantiateRows [fF "dltd"]
        ((rowBlockLines ["1.0,", "2.0,", ",,,"]).take 1) = some vals →
      decodeRowTable [fF "dltd"] ["DLTD,", "1.0,", "2.0,", ",,,"] 0 =
        .ok (vals, 0 + (rowBlockLines ["1.0,", "2.0,", ",,,"]).length + 2,
          rowWarnings 1 (rowBlockLines ["1.0,", "2.0,", ",,,"]))) :=
  claimC2 [fF "dltd"] ["DLTD,", "1.0,", "2.0,", ",,,"] 0 (by decide)

/-- C3 counterexample: the header `"A,B"` splits into two non-empty cells and
the value line `"1"` into one, so strict pairing is violated; the decode
raises, but the raised error is the bare strict-zip mismatch, which carries
no line number and no context snippet — it is not the parse error with
location and context that the claim describes. -/
theorem claimC3_cex :
    decodePairTable [fI "nwb", fI "nbr", fI "imx", fI "kmx", fI "nproc",
      fB "closec"] ["A,B", "1"] 0 = .error .zipMismatch ∧
    DErr.zipMismatch ≠ errSnippet ["A,B", "1"] 0 := by
  exact ⟨rfl, by decide⟩

/-- C3 (amended): a strict-pairing arity mismatch (unequal cell counts with
no empty cell stopping the loop first) raises the uncaught strict-zip error,
which carries NO line number and NO context snippet; the parse error carrying
the offending line number and a context snippet — of up to 10 lines before
and up to 9 (not 10) lines after the offending line — is raised only when
the section cannot be instantiated from the zipped mapping. -/
theorem claimC3 :
    (∀ (fields : List FieldSpec) (lines : List String) (i : Nat) (l1 l2 : String),
      lines.get? i = some l1 → lines.get? (i + 1) = some l2 →
      (∀ k ∈ splitChar ',' l1, k ≠ "") → (∀ v ∈ splitChar ',' l2, v ≠ "") →
      (splitChar ',' l1).length ≠ (splitChar ',' l2).length →
      decodePairTable fields lines i = .error .zipMismatch) ∧
    (∀ (fields : List FieldSpec) (lines : List String) (i : Nat)
        (kvs : List (String × String)),
      pairTableKwargs lines i = .ok kvs → instantiateFields fields kvs = none →
      decodePairTable fields lines i = .error (.parseError i
        ((lines.take i).drop (i - 10)) ((lines.get? i).getD "")
        ((lines.drop (i + 1)).take 9))) := by
  constructor
  · intro fields lines i l1 l2 h1 h2 hk hv hlen
    exact decodePairTable_err fields lines i _
      (pairTableKwargs_zip_of lines i l1 l2 h1 h2
        (pairCells_mismatch _ _ hk hv hlen))
  · intro fields lines i kvs hk hi
    exact decodePairTable_instFail fields lines i kvs hk hi

/-- C3 witness for the amended claim: the strict-zip mismatch at
`["A,B", "1"]`, and the located parse error when `GridDimensions`-style
instantiation from the well-paired card `["A,B", "1,2"]` fails. -/
theorem claimC3_witness :
    decodePairTable [fI "nwb"] ["A,B", "1"] 0 = .error .zipMismatch ∧
    decodePairTable [fI "nwb"] ["A,B", "1,2"] 0 = .error (.parseError 0
      ((["A,B", "1,2"] : List String).take 0 |>.drop (0 - 10))
      (((["A,B", "1,2"] : List String).get? 0).getD "")
      (((["A,B", "1,2"] : List String).drop 1).take 9)) := by
  constructor
  · exact claimC3.1 [fI "nwb"] ["A,B", "1"] 0 "A,B" "1" rfl rfl
      (by decide) (by decide) (by decide)
  · exact claimC3.2 [fI "nwb"] ["A,B", "1,2"] 0 [("a", "1"), ("b", "2")]
      (by rfl) (by rfl)

/-! ## Claim C5: the `W2ConSimpleInput.timedata` get/set pair -/

/-- C5: for a `W2ConSimpleInput` whose tracked time line decodes to
`start=35564.0416666667, end=35569.9583333333, year=1921`, setting the time
data to `(0, 40, 1922)` succeeds, reading it back yields exactly
`(0, 40, 1922)`, and every line of the stored content other than the tracked
line is byte-identical before and after the mutation. -/
theorem claimC5 (w : W2ConSimple)
    (h : timedataGet w = some (35564.0416666667, 35569.9583333333, 1921)) :
    ∃ w2, timedataSet w 0 40 1922 = some w2 ∧
      timedataGet w2 = some (0, 40, 1922) ∧
      w2.time_lineno = w.time_lineno ∧
      ∀ k, k ≠ w.time_lineno → w2.content.get? k = w.content.get? k := by
  unfold timedataGet at h
  cases hl : w.content.get? w.time_lineno with
  | none => rw [hl] at h; simp at h
  | some l =>
      rw [hl] at h
      simp only [Option.some_bind] at h
      cases hsp : splitChar ',' l with
      | nil => rw [hsp] at h; simp at h
      | cons a t1 =>
          cases t1 with
          | nil => rw [hsp] at h; simp at h
          | cons b t2 =>
              cases t2 with
              | nil => rw [hsp] at h; simp at h
              | cons c rest =>
                  have hlt : w.time_lineno < w.content.length := by
                    by_contra hge
                    rw [List.get?_eq_getElem?, List.getElem?_eq_none (by omega)] at hl
                    exact absurd hl (by simp)
                  have hset : timedataSet w 0 40 1922 = some
                      ⟨w.content.set w.time_lineno (joinChar ','
                        (printInt 0 :: printInt 40 :: printInt 1922 :: rest)),
                       w.time_lineno⟩ := by
                    unfold timedataSet
                    rw [hl]
                    simp only [Option.some_bind]
                    rw [hsp]
                  refine ⟨_, hset, ?_, rfl, ?_⟩
                  · unfold timedataGet
                    have hget2 : (w.content.set w.time_lineno (joinChar ','
                        (printInt 0 :: printInt 40 :: printInt 1922 ::
                          rest))).get? w.time_lineno =
                        some (joinChar ',' (printInt 0 :: printInt 40 ::
                          printInt 1922 :: rest)) := by
                      rw [List.get?_eq_getElem?, List.getElem?_set_self (by simpa)]
                    rw [hget2]
                    simp only [Option.some_bind]
                    have hd0 : ∀ x ∈ (printInt 0).data, x ≠ ',' := by decide
                    have hd40 : ∀ x ∈ (printInt 40).data, x ≠ ',' := by decide
                    have hd1922 : ∀ x ∈ (printInt 1922).data, x ≠ ',' := by decide
                    have hsp2 : splitChar ',' (joinChar ',' (printInt 0 ::
                        printInt 40 :: printInt 1922 :: rest)) =
                        printInt 0 :: printInt 40 :: printInt 1922 :: rest := by
                      apply splitChar_joinChar
                      · simp
                      · intro q hq cch hc
                        rcases List.mem_cons.mp hq with rfl | hq
                        · exact hd0 cch hc
                        · rcases List.mem_cons.mp hq with rfl | hq
                          · exact hd40 cch hc
                          · rcases List.mem_cons.mp hq with rfl | hq
                            · exact hd1922 cch hc
                            · exact splitChar_no_sep ',' l q
                                (by rw [hsp]; simp [hq]) cch hc
                    rw [hsp2]
                    have hp0 : pyParseDec (printInt 0) = some ⟨0, 0⟩ := rfl
                    have hp40 : pyParseDec (printInt 40) = some ⟨40, 0⟩ := rfl
                    have hpy : pyParseInt (printInt 1922) = some 1922 := rfl
                    simp only [hp0, hp40, hpy, Option.some_bind, Option.map_some']
                    norm_num [decVal]
                  · intro k hk
                    simp only []
                    rw [List.get?_eq_getElem?, List.get?_eq_getElem?,
                      List.getElem?_set_ne (by omega)]

/-- C5 witness: the concrete two-line content carrying 1921's time card. -/
theorem claimC5_witness :
    ∃ w2, timedataSet ⟨["TMSTRT  TMEND   YEAR",
        "35564.0416666667,35569.9583333333,1921,"], 1⟩ 0 40 1922 = some w2 ∧
      timedataGet w2 = some (0, 40, 1922) ∧
      w2.time_lineno = (1 : Nat) ∧
      ∀ k, k ≠ (1 : Nat) → w2.content.get? k =
        (["TMSTRT  TMEND   YEAR",
          "35564.0416666667,35569.9583333333,1921,"] : List String).get? k :=
  claimC5 ⟨["TMSTRT  TMEND   YEAR",
    "35564.0416666667,35569.9583333333,1921,"], 1⟩ (by
      have h1 : timedataGet ⟨["TMSTRT  TMEND   YEAR",
          "35564.0416666667,35569.9583333333,1921,"], 1⟩ =
          some (decVal ⟨355640416666667, 10⟩, decVal ⟨355699583333333, 10⟩, 1921) := rfl
      rw [h1]
      norm_num [decVal])

/-! ## Claims C7, C10: the profile encoder's labels and row widths -/

theorem exceptBind_error {ε α β : Type} (e : ε) (g : α → Except ε β) :
    (Except.error e >>= g) = Except.error e := rfl

theorem exceptBind_ok {ε α β : Type} (a : α) (g : α → Except ε β) :
    (Except.ok a >>= g) = g a := rfl

theorem exceptMapM_ok_forall {ε α β : Type} (f : α → Except ε β) (l : List α)
    (bs : List β) (h : l.mapM f = .ok bs) : ∀ x ∈ l, ∃ b, f x = .ok b := by
  induction l generalizing bs with
  | nil => intro x hx; simp at hx
  | cons a t ih =>
      intro x hx
      rw [List.mapM_cons] at h
      cases hfa : f a with
      | error e => rw [hfa, exceptBind_error] at h; simp at h
      | ok b =>
          rw [hfa, exceptBind_ok] at h
          cases hmt : t.mapM f with
          | error e => rw [hmt, exceptBind_error] at h; simp at h
          | ok bs2 =>
              rcases List.mem_cons.mp hx with rfl | hx
              · exact ⟨b, hfa⟩
              · exact ih bs2 hmt x hx

theorem exceptMapM_err_of_mem {ε α β : Type} (f : α → Except ε β) (l : List α)
    (x : α) (hx : x ∈ l) (he : ∀ b, f x ≠ .ok b) :
    ∃ e, l.mapM f = .error e := by
  induction l with
  | nil => simp at hx
  | cons a t ih =>
      rw [List.mapM_cons]
      rcases List.mem_cons.mp hx with rfl | hx
      · cases hfa : f x with
        | error e => exact ⟨e, by rw [exceptBind_error]⟩
        | ok b => exact absurd hfa (he b)
      · cases hfa : f a with
        | error e => exact ⟨e, by rw [exceptBind_error]⟩
        | ok b =>
            obtain ⟨e, hmt⟩ := ih hx
            exact ⟨e, by rw [exceptBind_ok, hmt, exceptBind_error]⟩

theorem encodeBlock_ok_inv (name : String) (arr : List (Option Dec))
    (b : List String) (h : encodeBlock name arr = .ok b) :
    (∃ label, getLabel name = some label) ∧ arr.length % 9 = 0 := by
  unfold encodeBlock at h
  cases hl : getLabel name with
  | none => rw [hl] at h; simp at h
  | some label =>
      rw [hl] at h
      by_cases hm : arr.length % 9 = 0
      · exact ⟨⟨label, rfl⟩, hm⟩
      · simp [hm] at h

theorem encodeBlock_badlen (name : String) (arr : List (Option Dec))
    (hm : arr.length % 9 ≠ 0) : ∀ b, encodeBlock name arr ≠ .ok b := by
  intro b h
  exact absurd (encodeBlock_ok_inv name arr b h).2 hm

theorem encodeBlock_nolabel (name : String) (arr : List (Option Dec))
    (hl : getLabel name = none) : ∀ b, encodeBlock name arr ≠ .ok b := by
  intro b h
  obtain ⟨⟨label, hlab⟩, _⟩ := encodeBlock_ok_inv name arr b h
  rw [hl] at hlab
  exact absurd hlab (by simp)

theorem encodeProfileParts_ok_inv (p : ProfileData) (parts : List String)
    (h : encodeProfileParts p = .ok parts) :
    ∃ bls, p.data.mapM (fun b => encodeBlock b.1 b.2) = .ok bls := by
  unfold encodeProfileParts at h
  cases hm : p.data.mapM (fun b => encodeBlock b.1 b.2) with
  | error e => rw [hm] at h; simp [Except.map] at h
  | ok bls => exact ⟨bls, rfl⟩

theorem encodeProfileParts_err (p : ProfileData) (e : PErr)
    (h : p.data.mapM (fun b => encodeBlock b.1 b.2) = .error e) :
    encodeProfileParts p = .error e := by
  unfold encodeProfileParts
  rw [h]
  rfl

/-- C7: when encoding a profile, every quantity whose name starts
case-insensitively with `temp` is labelled `T1`, every name starting with
`tds` is labelled `C1`, every name starting with `do` is labelled `C2`, and
encoding a `ProfileInput` containing a quantity whose name matches none of
these beginnings fails (`_get_label` raises `NotImplementedError`). -/
theorem claimC7 :
    (∀ name : String, "temp".data.isPrefixOf (pyLower name).data = true →
      getLabel name = some "T1") ∧
    (∀ name : String, "tds".data.isPrefixOf (pyLower name).data = true →
      getLabel name = some "C1") ∧
    (∀ name : String, "do".data.isPrefixOf (pyLower name).data = true →
      getLabel name = some "C2") ∧
    (∀ (p : ProfileData) (nv : String × List (Option Dec)),
      nv ∈ p.data → getLabel nv.1 = none →
      ∃ e, encodeProfileParts p = .error e) := by
  refine ⟨?_, ?_, ?_, ?_⟩
  · intro name h
    unfold getLabel
    rw [if_pos h]
  · intro name h
    unfold getLabel
    rw [List.isPrefixOf_iff_prefix] at h
    obtain ⟨t, ht⟩ := h
    rw [if_neg, if_pos]
    · rw [List.isPrefixOf_iff_prefix, ← ht]
      exact ⟨t, by simp⟩
    · rw [List.isPrefixOf_iff_prefix, ← ht]
      simp [List.cons_prefix_cons]
  · intro name h
    unfold getLabel
    rw [List.isPrefixOf_iff_prefix] at h
    obtain ⟨t, ht⟩ := h
    rw [if_neg, if_neg, if_pos]
    · rw [List.isPrefixOf_iff_prefix, ← ht]
      exact ⟨t, by simp⟩
    · rw [List.isPrefixOf_iff_prefix, ← ht]
      simp [List.cons_prefix_cons]
    · rw [List.isPrefixOf_iff_prefix, ← ht]
      simp [List.cons_prefix_cons]
  · intro p nv hmem hl
    obtain ⟨e, he⟩ := exceptMapM_err_of_mem (fun b => encodeBlock b.1 b.2)
      p.data nv hmem (encodeBlock_nolabel nv.1 nv.2 hl)
    exact ⟨e, encodeProfileParts_err p e he⟩

/-- C7 witness: the three label mappings at `TemperC`, `TDS mgl`, `DO mgl`,
and the hard failure of encoding a profile holding a quantity named `Salt`. -/
theorem claimC7_witness :
    getLabel "TemperC" = some "T1" ∧ getLabel "TDS mgl" = some "C1" ∧
    getLabel "DO mgl" = some "C2" ∧
    ∃ e, encodeProfileParts ⟨some "x.csv", "c",
      [("Salt", [some ⟨1, 0⟩])]⟩ = .error e := by
  refine ⟨?_, ?_, ?_, ?_⟩
  · exact claimC7.1 "TemperC" (by decide)
  · exact claimC7.2.1 "TDS mgl" (by decide)
  · exact claimC7.2.2.1 "DO mgl" (by decide)
  · exact claimC7.2.2.2 ⟨some "x.csv", "c", [("Salt", [some ⟨1, 0⟩])]⟩
      ("Salt", [some ⟨1, 0⟩]) (by simp) (by decide)

/-- C10: encoding a `ProfileInput` succeeds only when every quantity's
flattened value sequence has a length that is an exact multiple of 9
(`reshape((-1, 9))`); for every profile holding a quantity whose length is
not a multiple of 9, the encoder fails instead of padding or writing a
partial final row. -/
theorem claimC10 :
    (∀ (p : ProfileData) (parts : List String),
      encodeProfileParts p = .ok parts →
      ∀ nv ∈ p.data, nv.2.length % 9 = 0) ∧
    (∀ (p : ProfileData) (nv : String × List (Option Dec)),
      nv ∈ p.data → nv.2.length % 9 ≠ 0 →
      ∃ e, encodeProfileParts p = .error e) := by
  constructor
  · intro p parts h nv hnv
    obtain ⟨bls, hbls⟩ := encodeProfileParts_ok_inv p parts h
    obtain ⟨b, hb⟩ := exceptMapM_ok_forall _ p.data bls hbls nv hnv
    exact (encodeBlock_ok_inv nv.1 nv.2 b hb).2
  · intro p nv hmem hm
    obtain ⟨e, he⟩ := exceptMapM_err_of_mem (fun b => encodeBlock b.1 b.2)
      p.data nv hmem (encodeBlock_badlen nv.1 nv.2 hm)
    exact ⟨e, encodeProfileParts_err p e he⟩

/-- C10 witness: a 9-value temperature block encodes (and indeed has length
divisible by 9), while a 1-value block makes the encoder fail. -/
theorem claimC10_witness :
    (∀ nv ∈ ([("TempX", List.replicate 9 (some (⟨1, 0⟩ : Dec)))] :
        List (String × List (Option Dec))), nv.2.length % 9 = 0) ∧
    ∃ e, encodeProfileParts ⟨some "x.csv", "c",
      [("TempX", [some ⟨1, 0⟩])]⟩ = .error e := by
  constructor
  · exact claimC10.1 ⟨some "x.csv", "c",
      [("TempX", List.replicate 9 (some ⟨1, 0⟩))]⟩ _ (by rfl)
  · exact claimC10.2 ⟨some "x.csv", "c", [("TempX", [some ⟨1, 0⟩])]⟩
      ("TempX", [some ⟨1, 0⟩]) (by simp) (by decide)

/-! ## Claim C9: the write gate -/

/-- C9: for every write of a parsed aggregate, if the destination exists and
overwrite was not requested the call fails with the filesystem unchanged (no
bytes written); if the destination is absent, its parent directory missing,
and directory creation not requested, the call fails with the filesystem
unchanged; and no directories are ever created unless creation was
requested. -/
theorem claimC9 :
    (∀ (fs : FileSys) (p : List String) (ext text : String) (cp : Bool),
      pySuffix (p.getLastD "") = ext → pathExists fs p = true →
      writeGate fs p ext text false cp = (fs, some .fileExists)) ∧
    (∀ (fs : FileSys) (p : List String) (ext text : String) (ow : Bool),
      pySuffix (p.getLastD "") = ext → pathExists fs p = false →
      parentExists fs p = false →
      writeGate fs p ext text ow false = (fs, some .parentMissing)) ∧
    (∀ (fs : FileSys) (p : List String) (ext text : String) (ow : Bool),
      ((writeGate fs p ext text ow false).1).dirs = fs.dirs) := by
  refine ⟨?_, ?_, ?_⟩
  · intro fs p ext text cp hsuf hex
    unfold writeGate
    rw [if_neg (by simpa using hsuf), if_pos hex]
    simp
  · intro fs p ext text ow hsuf hex hpar
    unfold writeGate
    rw [if_neg (by simpa using hsuf), if_neg (by simp [hex]),
      if_pos (by simp [hpar])]
    simp
  · intro fs p ext text ow
    unfold writeGate
    by_cases h1 : pySuffix (p.getLastD "") ≠ ext
    · rw [if_pos h1]
    · rw [if_neg h1]
      by_cases h2 : pathExists fs p = true
      · rw [if_pos h2]
        by_cases h3 : ow
        · rw [if_neg (by simp [h3])]
          simp [fsWrite]
        · rw [if_pos (by simp [h3])]
      · rw [if_neg h2]
        by_cases h4 : parentExists fs p = true
        · rw [if_neg (by simp [h4])]
          simp [fsWrite]
        · rw [if_pos (by simp [h4])]
          simp

/-- C9 witness: a one-file filesystem exercising both failure gates and the
no-directory-creation guarantee. -/
theorem claimC9_witness :
    writeGate ⟨[(["out.csv"], "old")], []⟩ ["out.csv"] ".csv" "new" false true =
      (⟨[(["out.csv"], "old")], []⟩, some .fileExists) ∧
    writeGate ⟨[(["out.csv"], "old")], []⟩ ["sub", "new.csv"] ".csv" "new"
      true false = (⟨[(["out.csv"], "old")], []⟩, some .parentMissing) ∧
    ((writeGate ⟨[(["out.csv"], "old")], []⟩ ["other.csv"] ".csv" "new"
      true false).1).dirs = ([] : List (List String)) := by
  refine ⟨?_, ?_, ?_⟩
  · exact claimC9.1 ⟨[(["out.csv"], "old")], []⟩ ["out.csv"] ".csv" "new" true
      (by decide) (by decide)
  · exact claimC9.2.1 ⟨[(["out.csv"], "old")], []⟩ ["sub", "new.csv"] ".csv"
      "new" true (by decide) (by decide) (by decide)
  · exact claimC9.2.2 ⟨[(["out.csv"], "old")], []⟩ ["other.csv"] ".csv" "new" true

/-! ## Claim C6: one block step of `_iter_blocks` -/

theorem optBind_some {α β : Type} (a : α) (g : α → Option β) :
    (some a >>= g) = g a := rfl

theorem optionMapM_some_of_forall {α β : Type} (f : α → Option β) :
    ∀ l : List α, (∀ x ∈ l, (f x).isSome) →
      ∃ ds, l.mapM f = some ds ∧ ds.map some = l.map f
  | [], _ => ⟨[], rfl, rfl⟩
  | a :: t, h => by
      obtain ⟨b, hb⟩ := Option.isSome_iff_exists.mp (h a (by simp))
      obtain ⟨ds, h1, h2⟩ := optionMapM_some_of_forall f t
        (fun x hx => h x (by simp [hx]))
      refine ⟨b :: ds, ?_, ?_⟩
      · rw [List.mapM_cons, hb, optBind_some, h1, optBind_some]
        rfl
      · rw [List.map_cons, List.map_cons, hb, h2]

theorem exceptMapM_map {ε α β : Type} (f : α → Except ε β) (g : α → β) :
    ∀ l : List α, (∀ x ∈ l, f x = .ok (g x)) → l.mapM f = .ok (l.map g)
  | [], _ => rfl
  | a :: t, h => by
      rw [List.mapM_cons, h a (by simp), exceptBind_ok,
        exceptMapM_map f g t (fun x hx => h x (by simp [hx])), exceptBind_ok]
      rfl

theorem readCsvRow_eq_some (w : Nat) (l : String) (ds : List Dec)
    (hlt : ¬ w < (pySplitWs l).length)
    (h1 : (pySplitWs l).mapM pyParseDec = some ds) :
    readCsvRow w l =
      .ok (ds.map some ++ List.replicate (w - (pySplitWs l).length) none) := by
  unfold readCsvRow
  rw [if_neg hlt, h1]

theorem readCsvRow_ok (w : Nat) (l : String)
    (hlen : (pySplitWs l).length = w)
    (hp : ∀ t ∈ pySplitWs l, (pyParseDec t).isSome) :
    readCsvRow w l = .ok ((pySplitWs l).map pyParseDec) := by
  obtain ⟨ds, h1, h2⟩ := optionMapM_some_of_forall pyParseDec _ hp
  subst hlen
  rw [readCsvRow_eq_some _ l ds (by omega) h1]
  simp [h2]

theorem readCsvFlat_cons (r0 : String) (rtl : List String) :
    readCsvFlat (r0 :: rtl) =
      ((r0 :: rtl).mapM (readCsvRow (pySplitWs r0).length)).map List.flatten := rfl

theorem readCsvFlat_ok (r0 : String) (rtl : List String)
    (hw : ∀ r ∈ r0 :: rtl, (pySplitWs r).length = (pySplitWs r0).length)
    (hp : ∀ r ∈ r0 :: rtl, ∀ t ∈ pySplitWs r, (pyParseDec t).isSome) :
    readCsvFlat (r0 :: rtl) =
      .ok (((r0 :: rtl).map (fun r => (pySplitWs r).map pyParseDec)).flatten) := by
  rw [readCsvFlat_cons,
    exceptMapM_map _ _ _ (fun r hr => readCsvRow_ok _ r (hw r hr) (hp r hr))]
  rfl

theorem takeWhile_append_all (p : α → Bool) (l₁ l₂ : List α)
    (h : ∀ a ∈ l₁, p a = true) :
    (l₁ ++ l₂).takeWhile p = l₁ ++ l₂.takeWhile p := by
  induction l₁ with
  | nil => simp
  | cons a t ih =>
      rw [List.cons_append, List.takeWhile_cons, if_pos (h a (by simp)),
        ih (fun x hx => h x (by simp [hx])), List.cons_append]

theorem findIdx?_shift {α : Type} (p : α → Bool) (a : α) (hpa : p a = false)
    (l : List α) : ∀ N : Nat,
      (List.replicate N a ++ l).findIdx? p = (l.findIdx? p).map (fun i => i + N)
  | 0 => by
      rw [List.replicate_zero, List.nil_append]
      cases l.findIdx? p <;> simp
  | N + 1 => by
      rw [List.replicate_succ, List.cons_append, List.findIdx?_cons,
        if_neg (by simp [hpa]), List.findIdx?_succ,
        findIdx?_shift p a hpa l N]
      cases l.findIdx? p with
      | none => simp
      | some i => simp [Nat.add_assoc]

theorem findBlockName_eq (tokens : List String) (w : String) (rest : List String)
    (hrev : tokens.reverse = w :: rest) :
    findBlockName tokens =
      match rest.findIdx? (fun t => t ≠ w) with
      | none => none
      | some m => some (joinChar ' ' (tokens.take (tokens.length - 1 - m))) := by
  unfold findBlockName
  rw [hrev]

theorem findBlockName_eq_some (tokens : List String) (w : String)
    (rest : List String) (m : Nat) (hrev : tokens.reverse = w :: rest)
    (hfind : rest.findIdx? (fun t => t ≠ w) = some m) :
    findBlockName tokens =
      some (joinChar ' ' (tokens.take (tokens.length - 1 - m))) := by
  rw [findBlockName_eq tokens w rest hrev, hfind]

theorem replicate_append_cons {α : Type} (N : Nat) (a : α) (L : List α) :
    List.replicate N a ++ a :: L = a :: (List.replicate N a ++ L) := by
  induction N with
  | zero => simp
  | succ N ih => simp [List.replicate_succ, ih]

theorem findBlockName_repeat (nameToks : List String) (code : String) (N : Nat)
    (hname : nameToks.getLastD code ≠ code) :
    findBlockName (nameToks ++ List.replicate (N + 1) code) =
      some (joinChar ' ' nameToks) := by
  rcases List.eq_nil_or_concat nameToks with rfl | ⟨ys, y, hy⟩
  · simp at hname
  · subst hy
    rw [List.concat_eq_append] at hname ⊢
    have hyne : y ≠ code := by simpa [List.getLastD_concat] using hname
    have hrev : ((ys ++ [y]) ++ List.replicate (N + 1) code).reverse =
        code :: (List.replicate N code ++ (y :: ys.reverse)) := by
      simp [List.reverse_append, List.replicate_succ]
      exact replicate_append_cons N code (y :: ys.reverse)
    have hfind : (List.replicate N code ++ (y :: ys.reverse)).findIdx?
        (fun t => t ≠ code) = some N := by
      rw [findIdx?_shift _ code (by simp) _ N, List.findIdx?_cons,
        if_pos (by simp [hyne])]
      simp
    rw [findBlockName_eq_some _ code (List.replicate N code ++ (y :: ys.reverse))
      N hrev hfind]
    have hlen : ((ys ++ [y]) ++ List.replicate (N + 1) code).length - 1 - N =
        (ys ++ [y]).length := by simp; omega
    rw [hlen, List.take_left]

theorem iterBlocksAux_nil : ∀ f : Nat, iterBlocksAux f [] = .ok [] := by
  intro f
  cases f <;> rfl

theorem iterBlocksAux_succ (fuel : Nat) (l0 : String) (rest0 : List String) :
    iterBlocksAux (fuel + 1) (l0 :: rest0) =
      if pyStrip l0 = "" then
        match rest0 with
        | [] => .ok []
        | hline :: body =>
            match findBlockName (pySplitWs hline) with
            | none => .error .nameError
            | some name =>
                match readCsvFlat (body.takeWhile (fun l => pyStrip l ≠ "")) with
                | .error e => .error e
                | .ok vals =>
                    (iterBlocksAux fuel ((body.drop
                      (body.takeWhile (fun l => pyStrip l ≠ "")).length).drop 1)).map
                      (fun bs => (name, vals) :: bs)
      else
        match findBlockName (pySplitWs l0) with
        | none => .error .nameError
        | some name =>
            match readCsvFlat (rest0.takeWhile (fun l => pyStrip l ≠ "")) with
            | .error e => .error e
            | .ok vals =>
                (iterBlocksAux fuel ((rest0.drop
                  (rest0.takeWhile (fun l => pyStrip l ≠ "")).length).drop 1)).map
                  (fun bs => (name, vals) :: bs) := rfl

theorem iterBlocksAux_step_name (fuel : Nat) (l0 : String) (rest0 : List String)
    (name : String) (hb : ¬ pyStrip l0 = "")
    (hfn : findBlockName (pySplitWs l0) = some name) :
    iterBlocksAux (fuel + 1) (l0 :: rest0) =
      match readCsvFlat (rest0.takeWhile (fun l => pyStrip l ≠ "")) with
      | .error e => .error e
      | .ok vals =>
          (iterBlocksAux fuel ((rest0.drop
            (rest0.takeWhile (fun l => pyStrip l ≠ "")).length).drop 1)).map
            (fun bs => (name, vals) :: bs) := by
  rw [iterBlocksAux_succ, if_neg hb, hfn]

theorem iterBlocksAux_step_noname (fuel : Nat) (l0 : String) (rest0 : List String)
    (hb : ¬ pyStrip l0 = "") (hfn : findBlockName (pySplitWs l0) = none) :
    iterBlocksAux (fuel + 1) (l0 :: rest0) = .error .nameError := by
  rw [iterBlocksAux_succ, if_neg hb, hfn]

theorem iterBlocksAux_step_err (fuel : Nat) (l0 : String) (rest0 : List String)
    (name : String) (e : PErr) (hb : ¬ pyStrip l0 = "")
    (hfn : findBlockName (pySplitWs l0) = some name)
    (hrc : readCsvFlat (rest0.takeWhile (fun l => pyStrip l ≠ "")) = .error e) :
    iterBlocksAux (fuel + 1) (l0 :: rest0) = .error e := by
  rw [iterBlocksAux_step_name fuel l0 rest0 name hb hfn, hrc]

theorem iterBlocksAux_step_ok (fuel : Nat) (l0 : String) (rest0 : List String)
    (name : String) (vals : List (Option Dec)) (hb : ¬ pyStrip l0 = "")
    (hfn : findBlockName (pySplitWs l0) = some name)
    (hrc : readCsvFlat (rest0.takeWhile (fun l => pyStrip l ≠ "")) = .ok vals) :
    iterBlocksAux (fuel + 1) (l0 :: rest0) =
      (iterBlocksAux fuel ((rest0.drop
        (rest0.takeWhile (fun l => pyStrip l ≠ "")).length).drop 1)).map
        (fun bs => (name, vals) :: bs) := by
  rw [iterBlocksAux_step_name fuel l0 rest0 name hb hfn, hrc]

theorem iterBlocksAux_bcons (fuel : Nat) (l0 hline : String) (body : List String)
    (hb : pyStrip l0 = "") :
    iterBlocksAux (fuel + 1) (l0 :: hline :: body) =
      match findBlockName (pySplitWs hline) with
      | none => .error .nameError
      | some name =>
          match readCsvFlat (body.takeWhile (fun l => pyStrip l ≠ "")) with
          | .error e => .error e
          | .ok vals =>
              (iterBlocksAux fuel ((body.drop
                (body.takeWhile (fun l => pyStrip l ≠ "")).length).drop 1)).map
                (fun bs => (name, vals) :: bs) := by
  rw [iterBlocksAux_succ, if_pos hb]

theorem iterBlocksAux_bstep_name (fuel : Nat) (l0 hline : String)
    (body : List String) (name : String) (hb : pyStrip l0 = "")
    (hfn : findBlockName (pySplitWs hline) = some name) :
    iterBlocksAux (fuel + 1) (l0 :: hline :: body) =
      match readCsvFlat (body.takeWhile (fun l => pyStrip l ≠ "")) with
      | .error e => .error e
      | .ok vals =>
          (iterBlocksAux fuel ((body.drop
            (body.takeWhile (fun l => pyStrip l ≠ "")).length).drop 1)).map
            (fun bs => (name, vals) :: bs) := by
  rw [iterBlocksAux_bcons fuel l0 hline body hb, hfn]

theorem iterBlocksAux_bstep_noname (fuel : Nat) (l0 hline : String)
    (body : List String) (hb : pyStrip l0 = "")
    (hfn : findBlockName (pySplitWs hline) = none) :
    iterBlocksAux (fuel + 1) (l0 :: hline :: body) = .error .nameError := by
  rw [iterBlocksAux_bcons fuel l0 hline body hb, hfn]

theorem iterBlocksAux_bstep_err (fuel : Nat) (l0 hline : String)
    (body : List String) (name : String) (e : PErr) (hb : pyStrip l0 = "")
    (hfn : findBlockName (pySplitWs hline) = some name)
    (hrc : readCsvFlat (body.takeWhile (fun l => pyStrip l ≠ "")) = .error e) :
    iterBlocksAux (fuel + 1) (l0 :: hline :: body) = .error e := by
  rw [iterBlocksAux_bstep_name fuel l0 hline body name hb hfn, hrc]

theorem iterBlocksAux_bstep_ok (fuel : Nat) (l0 hline : String)
    (body : List String) (name : String) (vals : List (Option Dec))
    (hb : pyStrip l0 = "")
    (hfn : findBlockName (pySplitWs hline) = some name)
    (hrc : readCsvFlat (body.takeWhile (fun l => pyStrip l ≠ "")) = .ok vals) :
    iterBlocksAux (fuel + 1) (l0 :: hline :: body) =
      (iterBlocksAux fuel ((body.drop
        (body.takeWhile (fun l => pyStrip l ≠ "")).length).drop 1)).map
        (fun bs => (name, vals) :: bs) := by
  rw [iterBlocksAux_bstep_name fuel l0 hline body name hb hfn, hrc]

theorem iterBlocksAux_blank_one (fuel : Nat) (l0 : String)
    (hb : pyStrip l0 = "") : iterBlocksAux (fuel + 1) [l0] = .ok [] := by
  rw [iterBlocksAux_succ, if_pos hb]

theorem iterBlocksAux_eq : ∀ f1 f2 : Nat, ∀ lines : List String,
    lines.length ≤ f1 → lines.length ≤ f2 →
    iterBlocksAux f1 lines = iterBlocksAux f2 lines := by
  intro f1
  induction f1 using Nat.strong_induction_on with
  | _ f1 ih =>
    intro f2 lines h1 h2
    cases lines with
    | nil => rw [iterBlocksAux_nil, iterBlocksAux_nil]
    | cons l0 rest0 =>
      simp only [List.length_cons] at h1 h2
      obtain ⟨g1, rfl⟩ : ∃ g, f1 = g + 1 := ⟨f1 - 1, by omega⟩
      obtain ⟨g2, rfl⟩ : ∃ g, f2 = g + 1 := ⟨f2 - 1, by omega⟩
      by_cases hb : pyStrip l0 = ""
      · cases rest0 with
        | nil => rw [iterBlocksAux_blank_one _ _ hb, iterBlocksAux_blank_one _ _ hb]
        | cons hline body =>
          simp only [List.length_cons] at h1 h2
          cases hfn : findBlockName (pySplitWs hline) with
          | none =>
              rw [iterBlocksAux_bstep_noname _ _ _ _ hb hfn,
                iterBlocksAux_bstep_noname _ _ _ _ hb hfn]
          | some name =>
              cases hrc : readCsvFlat (body.takeWhile (fun l => pyStrip l ≠ "")) with
              | error e =>
                  rw [iterBlocksAux_bstep_err _ _ _ _ _ _ hb hfn hrc,
                    iterBlocksAux_bstep_err _ _ _ _ _ _ hb hfn hrc]
              | ok vals =>
                  rw [iterBlocksAux_bstep_ok _ _ _ _ _ _ hb hfn hrc,
                    iterBlocksAux_bstep_ok _ _ _ _ _ _ hb hfn hrc,
                    ih g1 (by omega) g2 _ (by simp [List.length_drop]; omega)
                      (by simp [List.length_drop]; omega)]
      · cases hfn : findBlockName (pySplitWs l0) with
        | none =>
            rw [iterBlocksAux_step_noname _ _ _ hb hfn,
              iterBlocksAux_step_noname _ _ _ hb hfn]
        | some name =>
            cases hrc : readCsvFlat (rest0.takeWhile (fun l => pyStrip l ≠ "")) with
            | error e =>
                rw [iterBlocksAux_step_err _ _ _ _ _ hb hfn hrc,
                  iterBlocksAux_step_err _ _ _ _ _ hb hfn hrc]
            | ok vals =>
                rw [iterBlocksAux_step_ok _ _ _ _ _ hb hfn hrc,
                  iterBlocksAux_step_ok _ _ _ _ _ hb hfn hrc,
                  ih g1 (by omega) g2 _ (by simp [List.length_drop]; omega)
                    (by simp [List.length_drop]; omega)]

theorem iterBlocks_block_sep (hline code : String)
    (nameToks rows rest : List String) (N : Nat)
    (hsplit : pySplitWs hline = nameToks ++ List.replicate (N + 1) code)
    (hname : nameToks.getLastD code ≠ code)
    (hhl : ¬ pyStrip hline = "")
    (hrows : rows ≠ [])
    (hnb : ∀ r ∈ rows, pyStrip r ≠ "")
    (hw : ∀ r ∈ rows, (pySplitWs r).length = (pySplitWs (rows.headD "")).length)
    (hp : ∀ r ∈ rows, ∀ t ∈ pySplitWs r, (pyParseDec t).isSome) :
    iterBlocks (hline :: (rows ++ "" :: rest)) =
      (iterBlocks rest).map (fun bs => (joinChar ' ' nameToks,
        (rows.map (fun r => (pySplitWs r).map pyParseDec)).flatten) :: bs) := by
  have hfn : findBlockName (pySplitWs hline) = some (joinChar ' ' nameToks) := by
    rw [hsplit]
    exact findBlockName_repeat nameToks code N hname
  cases rows with
  | nil => exact absurd rfl hrows
  | cons r0 rtl =>
    have hrc : readCsvFlat (r0 :: rtl) =
        .ok (((r0 :: rtl).map (fun r => (pySplitWs r).map pyParseDec)).flatten) :=
      readCsvFlat_ok r0 rtl hw hp
    have htw : ((r0 :: rtl) ++ "" :: rest).takeWhile (fun l => pyStrip l ≠ "") =
        r0 :: rtl := by
      rw [takeWhile_append_all _ _ _ (fun r hr => by simp [hnb r hr]),
        List.takeWhile_cons, if_neg (by decide)]
      simp
    have hrc' : readCsvFlat (((r0 :: rtl) ++ "" :: rest).takeWhile
        (fun l => pyStrip l ≠ "")) =
        .ok (((r0 :: rtl).map (fun r => (pySplitWs r).map pyParseDec)).flatten) := by
      rw [htw]
      exact hrc
    unfold iterBlocks
    rw [List.length_cons,
      iterBlocksAux_step_ok _ hline _ (joinChar ' ' nameToks) _ hhl hfn hrc',
      htw, List.drop_left]
    have hdrop1 : (("" :: rest) : List String).drop 1 = rest := rfl
    rw [hdrop1, iterBlocksAux_eq ((r0 :: rtl) ++ "" :: rest).length rest.length
      rest (by simp [List.length_append]; omega) (by omega)]

theorem iterBlocks_block_eof (hline code : String)
    (nameToks rows : List String) (N : Nat)
    (hsplit : pySplitWs hline = nameToks ++ List.replicate (N + 1) code)
    (hname : nameToks.getLastD code ≠ code)
    (hhl : ¬ pyStrip hline = "")
    (hrows : rows ≠ [])
    (hnb : ∀ r ∈ rows, pyStrip r ≠ "")
    (hw : ∀ r ∈ rows, (pySplitWs r).length = (pySplitWs (rows.headD "")).length)
    (hp : ∀ r ∈ rows, ∀ t ∈ pySplitWs r, (pyParseDec t).isSome) :
    iterBlocks (hline :: rows) =
      .ok [(joinChar ' ' nameToks,
        (rows.map (fun r => (pySplitWs r).map pyParseDec)).flatten)] := by
  have hfn : findBlockName (pySplitWs hline) = some (joinChar ' ' nameToks) := by
    rw [hsplit]
    exact findBlockName_repeat nameToks code N hname
  cases rows with
  | nil => exact absurd rfl hrows
  | cons r0 rtl =>
    have hrc : readCsvFlat (r0 :: rtl) =
        .ok (((r0 :: rtl).map (fun r => (pySplitWs r).map pyParseDec)).flatten) :=
      readCsvFlat_ok r0 rtl hw hp
    have htwself : (r0 :: rtl).takeWhile (fun l => pyStrip l ≠ "") = r0 :: rtl :=
      takeWhile_eq_self_of _ _ (fun r hr => by simp [hnb r hr])
    have hrc' : readCsvFlat ((r0 :: rtl).takeWhile (fun l => pyStrip l ≠ "")) =
        .ok (((r0 :: rtl).map (fun r => (pySplitWs r).map pyParseDec)).flatten) := by
      rw [htwself]
      exact hrc
    unfold iterBlocks
    rw [List.length_cons,
      iterBlocksAux_step_ok _ hline _ (joinChar ' ' nameToks) _ hhl hfn hrc',
      htwself, List.drop_length]
    rfl

/-- C6 (amended): a block whose header tokens are a name followed by `N+1`
repetitions of a code, and whose data rows are nonblank, of uniform
whitespace-token width, and numeric throughout, decodes to the name joined
from the leading tokens paired with all the rows' numbers flattened in
order; the block ends at the first blank line (first conjunct) or at end of
file (second conjunct).  The uniform-width hypothesis is necessary: a block
whose rows wrap to unequal token counts is padded with `NaN` entries by
`read_csv`, so its flattened values are not just the file's numbers
(`claimC6_cex`). -/
theorem claimC6 (hline code : String) (nameToks rows rest : List String) (N : Nat)
    (hsplit : pySplitWs hline = nameToks ++ List.replicate (N + 1) code)
    (hname : nameToks.getLastD code ≠ code)
    (hhl : ¬ pyStrip hline = "")
    (hrows : rows ≠ [])
    (hnb : ∀ r ∈ rows, pyStrip r ≠ "")
    (hw : ∀ r ∈ rows, (pySplitWs r).length = (pySplitWs (rows.headD "")).length)
    (hp : ∀ r ∈ rows, ∀ t ∈ pySplitWs r, (pyParseDec t).isSome) :
    iterBlocks (hline :: (rows ++ "" :: rest)) =
      (iterBlocks rest).map (fun bs => (joinChar ' ' nameToks,
        (rows.map (fun r => (pySplitWs r).map pyParseDec)).flatten) :: bs) ∧
    iterBlocks (hline :: rows) =
      .ok [(joinChar ' ' nameToks,
        (rows.map (fun r => (pySplitWs r).map pyParseDec)).flatten)] :=
  ⟨iterBlocks_block_sep hline code nameToks rows rest N hsplit hname hhl hrows
      hnb hw hp,
    iterBlocks_block_eof hline code nameToks rows N hsplit hname hhl hrows
      hnb hw hp⟩

/-- C6 counterexample: rows of unequal width are padded: the two data lines
of this block hold three numbers, yet the decoded value sequence has a
fourth entry, a `NaN`, so the block's values are not the file's numbers
flattened. -/
theorem claimC6_cex :
    iterBlocks ["Name X X", "1.0 2.0", "3.0"] =
      .ok [("Name", [some ⟨10, 1⟩, some ⟨20, 1⟩, some ⟨30, 1⟩, none])] ∧
    ([some (⟨10, 1⟩ : Dec), some ⟨20, 1⟩, some ⟨30, 1⟩, none] :
        List (Option Dec)) ≠
      ((["1.0 2.0", "3.0"] : List String).map
        (fun r => (pySplitWs r).map pyParseDec)).flatten := by
  constructor
  · rfl
  · decide

/-- C6 witness: the two-repetition header `TemperC T1 T1` over one uniform
numeric row, once blank-terminated and once ending the file. -/
theorem claimC6_witness :
    iterBlocks ["TemperC T1 T1", "1.0 2.0", ""] =
      (iterBlocks []).map (fun bs => (joinChar ' ' ["TemperC"],
        ((["1.0 2.0"] : List String).map
          (fun r => (pySplitWs r).map pyParseDec)).flatten) :: bs) ∧
    iterBlocks ["TemperC T1 T1", "1.0 2.0"] =
      .ok [(joinChar ' ' ["TemperC"],
        ((["1.0 2.0"] : List String).map
          (fun r => (pySplitWs r).map pyParseDec)).flatten)] :=
  claimC6 "TemperC T1 T1" "T1" ["TemperC"] ["1.0 2.0"] [] 1 (by decide)
    (by decide) (by decide) (by decide) (by decide) (by decide) (by decide)

/-! ## Claim C8: line counts across a parse/encode round trip -/

theorem exceptMapM_nil {ε α β : Type} (f : α → Except ε β) :
    ([] : List α).mapM f = .ok [] := rfl

theorem exceptMapM_cons_ok {ε α β : Type} (f : α → Except ε β) (x : α)
    (t : List α) (b : β) (bs : List β) (hx : f x = .ok b)
    (ht : t.mapM f = .ok bs) : (x :: t).mapM f = .ok (b :: bs) := by
  rw [List.mapM_cons, hx, exceptBind_ok, ht, exceptBind_ok]
  rfl

theorem iterBlocks_profileBody : ∀ bs : List RawBlock,
    (∀ b ∈ bs,
      pySplitWs b.hline = b.nameToks ++ List.replicate (b.n + 1) b.code ∧
      b.nameToks.getLastD b.code ≠ b.code ∧
      ¬ pyStrip b.hline = "" ∧
      b.rows ≠ [] ∧
      (∀ r ∈ b.rows, pyStrip r ≠ "" ∧ (pySplitWs r).length = 9 ∧
        ∀ t ∈ pySplitWs r, (pyParseDec t).isSome)) →
    iterBlocks (profileBody bs) =
      .ok (bs.map (fun b => (joinChar ' ' b.nameToks,
        (b.rows.map (fun r => (pySplitWs r).map pyParseDec)).flatten)))
  | [], _ => rfl
  | [b], h => by
      obtain ⟨h1, h2, h3, h4, h5⟩ := h b (by simp)
      have hmem0 : b.rows.headD "" ∈ b.rows := by
        cases hx : b.rows with
        | nil => exact absurd hx h4
        | cons r0 rtl => simp
      have hw : ∀ r ∈ b.rows, (pySplitWs r).length =
          (pySplitWs (b.rows.headD "")).length := by
        intro r hr
        rw [(h5 r hr).2.1, (h5 _ hmem0).2.1]
      exact iterBlocks_block_eof b.hline b.code b.nameToks b.rows b.n h1 h2 h3 h4
        (fun r hr => (h5 r hr).1) hw (fun r hr => (h5 r hr).2.2)
  | b :: b2 :: bs, h => by
      obtain ⟨h1, h2, h3, h4, h5⟩ := h b (by simp)
      have hmem0 : b.rows.headD "" ∈ b.rows := by
        cases hx : b.rows with
        | nil => exact absurd hx h4
        | cons r0 rtl => simp
      have hw : ∀ r ∈ b.rows, (pySplitWs r).length =
          (pySplitWs (b.rows.headD "")).length := by
        intro r hr
        rw [(h5 r hr).2.1, (h5 _ hmem0).2.1]
      have hform : profileBody (b :: b2 :: bs) =
          b.hline :: (b.rows ++ "" :: profileBody (b2 :: bs)) := by
        simp [profileBody, blockLines]
      rw [hform,
        iterBlocks_block_sep b.hline b.code b.nameToks b.rows
          (profileBody (b2 :: bs)) b.n h1 h2 h3 h4
          (fun r hr => (h5 r hr).1) hw (fun r hr => (h5 r hr).2.2),
        iterBlocks_profileBody (b2 :: bs) (fun x hx => h x (by simp [hx]))]
      rfl

theorem chunksAux_nil_fuel (n : Nat) : ∀ f, chunksAux n f ([] : List α) = [] := by
  intro f
  cases f <;> rfl

theorem chunksAux_succ_cons (n fuel : Nat) (x : α) (xs : List α) :
    chunksAux n (fuel + 1) (x :: xs) =
      (x :: xs).take (n + 1) :: chunksAux n fuel ((x :: xs).drop (n + 1)) := rfl

theorem chunksAux_eq {n : Nat} : ∀ f1 f2 : Nat, ∀ l : List α,
    l.length ≤ f1 → l.length ≤ f2 → chunksAux n f1 l = chunksAux n f2 l := by
  intro f1
  induction f1 using Nat.strong_induction_on with
  | _ f1 ih =>
    intro f2 l h1 h2
    cases l with
    | nil => rw [chunksAux_nil_fuel, chunksAux_nil_fuel]
    | cons x xs =>
      simp only [List.length_cons] at h1 h2
      obtain ⟨g1, rfl⟩ : ∃ g, f1 = g + 1 := ⟨f1 - 1, by omega⟩
      obtain ⟨g2, rfl⟩ : ∃ g, f2 = g + 1 := ⟨f2 - 1, by omega⟩
      rw [chunksAux_succ_cons, chunksAux_succ_cons,
        ih g1 (by omega) g2 _ (by simp [List.length_drop]; omega)
          (by simp [List.length_drop]; omega)]

theorem chunksSucc_length_mul : ∀ (k : Nat) (l : List α),
    l.length = 9 * k → (chunksSucc 8 l).length = k
  | 0, l, h => by
      have hnil : l = [] := List.eq_nil_of_length_eq_zero (by omega)
      subst hnil
      rfl
  | k + 1, l, h => by
      cases l with
      | nil =>
          exact absurd h (by intro hc; simp at hc)
      | cons x xs =>
          have h' : xs.length + 1 = 9 * (k + 1) := by simpa using h
          have hd : ((x :: xs).drop 9).length = 9 * k := by
            simp only [List.length_drop, List.length_cons]
            omega
          have hrec := chunksSucc_length_mul k ((x :: xs).drop 9) hd
          unfold chunksSucc at hrec ⊢
          rw [List.length_cons, chunksAux_succ_cons, List.length_cons,
            chunksAux_eq xs.length ((x :: xs).drop 9).length ((x :: xs).drop 9)
              (by simp only [List.length_drop, List.length_cons]; omega)
              (le_refl _), hrec]

theorem encodeBlock_some (name label : String) (arr : List (Option Dec))
    (hl : getLabel name = some label) :
    encodeBlock name arr =
      if arr.length % 9 = 0 then
        .ok ((padRight name 8 ++ String.join (List.replicate 9 (padLeft label 8)))
          :: (chunksSucc 8 arr).map
            (fun row => "        " ++ String.join (row.map fmtVal)) ++ [""])
      else .error .reshapeError := by
  unfold encodeBlock
  rw [hl]

theorem encodeBlock_ok_full (name label : String) (arr : List (Option Dec))
    (hl : getLabel name = some label) (hm : arr.length % 9 = 0) :
    encodeBlock name arr = .ok
      ((padRight name 8 ++ String.join (List.replicate 9 (padLeft label 8)))
        :: (chunksSucc 8 arr).map
          (fun row => "        " ++ String.join (row.map fmtVal)) ++ [""]) := by
  rw [encodeBlock_some name label arr hl, if_pos hm]

theorem flatten_length_nine : ∀ rows : List String,
    (∀ r ∈ rows, (pySplitWs r).length = 9) →
    ((rows.map (fun r => (pySplitWs r).map pyParseDec)).flatten).length =
      9 * rows.length
  | [], _ => rfl
  | r :: t, h => by
      simp only [List.map_cons, List.flatten_cons, List.length_append,
        List.length_map, List.length_cons]
      rw [h r (by simp), flatten_length_nine t (fun x hx => h x (by simp [hx]))]
      omega

theorem dictFold_append : ∀ l acc : List (String × List (Option Dec)),
    (∀ p ∈ l, ∀ q ∈ acc, q.1 ≠ p.1) → (l.map Prod.fst).Nodup →
    l.foldl (fun a b => dictInsert a b.1 b.2) acc = acc ++ l
  | [], acc, _, _ => by simp
  | x :: t, acc, hdisj, hnd => by
      rw [List.foldl_cons]
      have hins : dictInsert acc x.1 x.2 = acc ++ [x] := by
        unfold dictInsert
        rw [if_neg]
        intro hc
        rw [List.any_eq_true] at hc
        obtain ⟨q, hq, he⟩ := hc
        exact hdisj x (by simp) q hq (by simpa using he)
      rw [List.map_cons] at hnd
      have hnd' := List.nodup_cons.mp hnd
      rw [hins, dictFold_append t (acc ++ [x]) ?_ hnd'.2]
      · simp
      · intro p hp q hq
        rcases List.mem_append.mp hq with hq | hq
        · exact hdisj p (by simp [hp]) q hq
        · have hqx : q = x := List.mem_singleton.mp hq
          subst hqx
          intro he
          exact hnd'.1 (by rw [he]; exact List.mem_map_of_mem Prod.fst hp)

theorem allSameLength_of (ls : List (List (Option Dec))) (k : Nat)
    (h : ∀ x ∈ ls, x.length = 9 * k) : allSameLength ls = true := by
  cases ls with
  | nil => rfl
  | cons x xs =>
      unfold allSameLength
      rw [List.all_eq_true]
      intro y hy
      simp [h y (by simp [hy]), h x (by simp)]

theorem parseProfile_cons (l0 l1 : String) (rest : List String) :
    parseProfile (l0 :: l1 :: rest) =
      match iterBlocks rest with
      | .error e => .error e
      | .ok blocks =>
          if allSameLength ((blocks.foldl (fun acc b => dictInsert acc b.1 b.2)
              []).map (fun p => p.2)) then
            .ok ⟨matchProfileHeader l0, pyStrip l1,
              blocks.foldl (fun acc b => dictInsert acc b.1 b.2) []⟩
          else .error .lengthMismatch := rfl

theorem parseProfile_of_blocks (l0 l1 : String) (rest : List String)
    (blocks : List (String × List (Option Dec)))
    (hib : iterBlocks rest = .ok blocks) :
    parseProfile (l0 :: l1 :: rest) =
      if allSameLength ((blocks.foldl (fun acc b => dictInsert acc b.1 b.2)
          []).map (fun p => p.2)) then
        .ok ⟨matchProfileHeader l0, pyStrip l1,
          blocks.foldl (fun acc b => dictInsert acc b.1 b.2) []⟩
      else .error .lengthMismatch := by
  rw [parseProfile_cons, hib]

theorem profileBody_single (b : RawBlock) : profileBody [b] = blockLines b := rfl

theorem profileBody_cons₂ (b b2 : RawBlock) (bs : List RawBlock) :
    profileBody (b :: b2 :: bs) =
      blockLines b ++ [""] ++ profileBody (b2 :: bs) := rfl

theorem encodeBlocks_profile : ∀ bs : List RawBlock, bs ≠ [] →
    (∀ b ∈ bs, (getLabel (joinChar ' ' b.nameToks)).isSome ∧
      (∀ r ∈ b.rows, (pySplitWs r).length = 9)) →
    ∃ bls, (bs.map (fun b => (joinChar ' ' b.nameToks,
        (b.rows.map (fun r => (pySplitWs r).map pyParseDec)).flatten))).mapM
        (fun p => encodeBlock p.1 p.2) = .ok bls ∧
      bls.flatten.length = (profileBody bs).length + 1 ∧
      bls.flatten.getLast? = some ""
  | [], hne, _ => absurd rfl hne
  | [b], _, hgood => by
      obtain ⟨hlab, h9⟩ := hgood b (by simp)
      obtain ⟨label, hl⟩ := Option.isSome_iff_exists.mp hlab
      have hlen : ((b.rows.map (fun r => (pySplitWs r).map pyParseDec)).flatten).length =
          9 * b.rows.length := flatten_length_nine b.rows h9
      have hok := encodeBlock_ok_full (joinChar ' ' b.nameToks) label _ hl
        (by rw [hlen]; simp [Nat.mul_mod_right])
      have hch := chunksSucc_length_mul b.rows.length
        ((b.rows.map (fun r => (pySplitWs r).map pyParseDec)).flatten) hlen
      refine ⟨[(padRight (joinChar ' ' b.nameToks) 8 ++
          String.join (List.replicate 9 (padLeft label 8)))
        :: (chunksSucc 8 ((b.rows.map
            (fun r => (pySplitWs r).map pyParseDec)).flatten)).map
          (fun row => "        " ++ String.join (row.map fmtVal)) ++ [""]],
        ?_, ?_, ?_⟩
      · exact exceptMapM_cons_ok _ _ _ _ _ hok (exceptMapM_nil _)
      · simp only [List.flatten_cons, List.flatten_nil, List.append_nil,
          profileBody_single, blockLines, List.length_cons, List.length_append,
          List.length_map]
        rw [hch]
        simp
      · simp only [List.flatten_cons, List.flatten_nil, List.append_nil]
        exact List.getLast?_concat _
  | b :: b2 :: bs, _, hgood => by
      obtain ⟨hlab, h9⟩ := hgood b (by simp)
      obtain ⟨label, hl⟩ := Option.isSome_iff_exists.mp hlab
      have hlen : ((b.rows.map (fun r => (pySplitWs r).map pyParseDec)).flatten).length =
          9 * b.rows.length := flatten_length_nine b.rows h9
      have hok := encodeBlock_ok_full (joinChar ' ' b.nameToks) label _ hl
        (by rw [hlen]; simp [Nat.mul_mod_right])
      have hch := chunksSucc_length_mul b.rows.length
        ((b.rows.map (fun r => (pySplitWs r).map pyParseDec)).flatten) hlen
      obtain ⟨bls, hmm, hlen2, hlast2⟩ := encodeBlocks_profile (b2 :: bs)
        (by simp) (fun x hx => hgood x (by simp [hx]))
      refine ⟨((padRight (joinChar ' ' b.nameToks) 8 ++
          String.join (List.replicate 9 (padLeft label 8)))
        :: (chunksSucc 8 ((b.rows.map
            (fun r => (pySplitWs r).map pyParseDec)).flatten)).map
          (fun row => "        " ++ String.join (row.map fmtVal)) ++ [""]) :: bls,
        ?_, ?_, ?_⟩
      · exact exceptMapM_cons_ok _ _ _ _ _ hok hmm
      · rw [List.flatten_cons, List.length_append, hlen2, profileBody_cons₂]
        simp only [List.length_cons, List.length_append, List.length_map,
          blockLines]
        rw [hch]
        simp
        omega
      · rw [List.flatten_cons, List.getLast?_append, hlast2]
        rfl

/-- C8 (amended): re-encoding preserves the line count for canonically laid
out profile files: a header line and a comment line followed by nonempty
blocks, separated by single blank lines with no blank after the last block,
whose rows are nonblank 9-token numeric lines, whose names are distinct and
labelable, and whose blocks all have the same number of rows (as the
DataFrame requires).  The layout restriction is necessary: a parseable file
with a trailing blank line re-encodes to one line fewer (`claimC8_cex`). -/
theorem claimC8 (l0 l1 : String) (bs : List RawBlock)
    (hne : bs ≠ [])
    (hgood : ∀ b ∈ bs,
      pySplitWs b.hline = b.nameToks ++ List.replicate (b.n + 1) b.code ∧
      b.nameToks.getLastD b.code ≠ b.code ∧
      ¬ pyStrip b.hline = "" ∧
      b.rows ≠ [] ∧
      (∀ r ∈ b.rows, pyStrip r ≠ "" ∧ (pySplitWs r).length = 9 ∧
        ∀ t ∈ pySplitWs r, (pyParseDec t).isSome) ∧
      (getLabel (joinChar ' ' b.nameToks)).isSome)
    (hnodup : (bs.map (fun b => joinChar ' ' b.nameToks)).Nodup)
    (hsame : ∀ b ∈ bs, ∀ b' ∈ bs, b.rows.length = b'.rows.length) :
    ∃ p parts,
      parseProfile (l0 :: l1 :: profileBody bs) = .ok p ∧
      encodeProfileParts p = .ok parts ∧
      fileLineCount parts = (l0 :: l1 :: profileBody bs).length := by
  have hib : iterBlocks (profileBody bs) =
      .ok (bs.map (fun b => (joinChar ' ' b.nameToks,
        (b.rows.map (fun r => (pySplitWs r).map pyParseDec)).flatten))) :=
    iterBlocks_profileBody bs (fun b hb =>
      ⟨(hgood b hb).1, (hgood b hb).2.1, (hgood b hb).2.2.1, (hgood b hb).2.2.2.1,
        (hgood b hb).2.2.2.2.1⟩)
  have hfold : (bs.map (fun b => (joinChar ' ' b.nameToks,
      (b.rows.map (fun r => (pySplitWs r).map pyParseDec)).flatten))).foldl
        (fun acc b => dictInsert acc b.1 b.2) [] =
      bs.map (fun b => (joinChar ' ' b.nameToks,
        (b.rows.map (fun r => (pySplitWs r).map pyParseDec)).flatten)) := by
    have := dictFold_append (bs.map (fun b => (joinChar ' ' b.nameToks,
      (b.rows.map (fun r => (pySplitWs r).map pyParseDec)).flatten))) []
      (by simp) (by simpa [List.map_map, Function.comp] using hnodup)
    simpa using this
  have hall : allSameLength ((bs.map (fun b => (joinChar ' ' b.nameToks,
      (b.rows.map (fun r => (pySplitWs r).map pyParseDec)).flatten))).map
        (fun p => p.2)) = true := by
    cases bs with
    | nil => exact absurd rfl hne
    | cons b0 btl =>
      apply allSameLength_of _ b0.rows.length
      intro x hx
      simp only [List.map_map, List.mem_map, Function.comp] at hx
      obtain ⟨b, hb, rfl⟩ := hx
      rw [flatten_length_nine b.rows
        (fun r hr => ((hgood b hb).2.2.2.2.1 r hr).2.1),
        hsame b hb b0 (by simp)]
  have hp : parseProfile (l0 :: l1 :: profileBody bs) =
      .ok ⟨matchProfileHeader l0, pyStrip l1,
        bs.map (fun b => (joinChar ' ' b.nameToks,
          (b.rows.map (fun r => (pySplitWs r).map pyParseDec)).flatten))⟩ := by
    rw [parseProfile_of_blocks l0 l1 _ _ hib, hfold, if_pos hall]
  obtain ⟨bls, hmapm, hflen, hlast⟩ := encodeBlocks_profile bs hne
    (fun b hb => ⟨(hgood b hb).2.2.2.2.2,
      fun r hr => ((hgood b hb).2.2.2.2.1 r hr).2.1⟩)
  have henc : encodeProfileParts ⟨matchProfileHeader l0, pyStrip l1,
      bs.map (fun b => (joinChar ' ' b.nameToks,
        (b.rows.map (fun r => (pySplitWs r).map pyParseDec)).flatten))⟩ =
      .ok (("Profile file: " ++ (match matchProfileHeader l0 with
        | some f => if f.isEmpty then "None" else f
        | none => "None")) :: pyStrip l1 :: bls.flatten) := by
    unfold encodeProfileParts
    rw [show (⟨matchProfileHeader l0, pyStrip l1,
      bs.map (fun b => (joinChar ' ' b.nameToks,
        (b.rows.map (fun r => (pySplitWs r).map pyParseDec)).flatten))⟩ :
        ProfileData).data =
      bs.map (fun b => (joinChar ' ' b.nameToks,
        (b.rows.map (fun r => (pySplitWs r).map pyParseDec)).flatten)) from rfl,
      hmapm]
    rfl
  refine ⟨_, _, hp, henc, ?_⟩
  obtain ⟨f0, ftl, hfl⟩ : ∃ f0 ftl, bls.flatten = f0 :: ftl := by
    cases hx : bls.flatten with
    | nil => rw [hx] at hlast; simp at hlast
    | cons f0 ftl => exact ⟨f0, ftl, rfl⟩
  have hplast : (("Profile file: " ++ (match matchProfileHeader l0 with
      | some f => if f.isEmpty then "None" else f
      | none => "None")) :: pyStrip l1 :: bls.flatten).getLast? = some "" := by
    rw [List.getLast?_cons_cons, hfl, List.getLast?_cons_cons, ← hfl, hlast]
  unfold fileLineCount
  rw [hplast, if_pos rfl]
  simp only [List.length_cons]
  omega

/-- C8 counterexample: this profile file parses, but it ends with a blank
line, which the encoder never reproduces after the last block: the re-encoded
file has 4 lines where the original had 5. -/
theorem claimC8_cex :
    ∃ p parts,
      parseProfile ["Profile file: x.csv", "c",
        "TemperC T1 T1 T1 T1 T1 T1 T1 T1 T1",
        "1.0 1.0 1.0 1.0 1.0 1.0 1.0 1.0 1.0", ""] = .ok p ∧
      encodeProfileParts p = .ok parts ∧
      fileLineCount parts ≠ (["Profile file: x.csv", "c",
        "TemperC T1 T1 T1 T1 T1 T1 T1 T1 T1",
        "1.0 1.0 1.0 1.0 1.0 1.0 1.0 1.0 1.0", ""] : List String).length := by
  refine ⟨⟨some "x.csv", "c",
    [("TemperC", List.replicate 9 (some ⟨10, 1⟩))]⟩, _, by rfl, by rfl, ?_⟩
  decide

/-- C8 witness: the same single-block profile laid out canonically (no
trailing blank line) parses and re-encodes to the same number of lines. -/
theorem claimC8_witness :
    ∃ p parts,
      parseProfile ("Profile file: x.csv" :: "c" ::
        profileBody [⟨"TemperC T1 T1 T1 T1 T1 T1 T1 T1 T1", ["TemperC"], "T1",
          8, ["1.0 1.0 1.0 1.0 1.0 1.0 1.0 1.0 1.0"]⟩]) = .ok p ∧
      encodeProfileParts p = .ok parts ∧
      fileLineCount parts = ("Profile file: x.csv" :: "c" ::
        profileBody [⟨"TemperC T1 T1 T1 T1 T1 T1 T1 T1 T1", ["TemperC"], "T1",
          8, ["1.0 1.0 1.0 1.0 1.0 1.0 1.0 1.0 1.0"]⟩]).length :=
  claimC8 "Profile file: x.csv" "c"
    [⟨"TemperC T1 T1 T1 T1 T1 T1 T1 T1 T1", ["TemperC"], "T1", 8,
      ["1.0 1.0 1.0 1.0 1.0 1.0 1.0 1.0 1.0"]⟩]
    (by decide) (by decide) (by decide) (by decide)

/-! ## Claim C1: lemmas about the rendered field values -/

theorem w2_schemasOk : schemasOk w2Schemas = true := by decide

theorem printInt_chars (n : Int) :
    ∀ c ∈ (printInt n).data, isPySpace c = false ∧ ¬ c = ',' := by
  unfold printInt
  intro c hc
  by_cases hn : n < 0
  · rw [if_pos hn] at hc
    have hc' : c ∈ '-' :: natDigits n.natAbs := hc
    rcases List.mem_cons.mp hc' with rfl | hc'
    · exact ⟨by decide, by decide⟩
    · exact ⟨natDigits_not_space _ c hc', natDigits_ne_comma _ c hc'⟩
  · rw [if_neg hn] at hc
    have hc' : c ∈ natDigits n.natAbs := hc
    exact ⟨natDigits_not_space _ c hc', natDigits_ne_comma _ c hc'⟩

theorem printInt_ne_empty (n : Int) : printInt n ≠ "" := by
  unfold printInt
  by_cases hn : n < 0
  · rw [if_pos hn, mk_ne_empty_iff]
    simp
  · rw [if_neg hn, mk_ne_empty_iff]
    exact natDigits_ne_nil _

theorem printDec_ds_chars (k m : Nat) :
    ∀ c ∈ List.replicate k '0' ++ natDigits m, isPySpace c = false ∧ ¬ c = ',' := by
  intro c hc
  rcases List.mem_append.mp hc with hc | hc
  · rw [List.eq_of_mem_replicate hc]
    exact ⟨by decide, by decide⟩
  · exact ⟨natDigits_not_space _ c hc, natDigits_ne_comma _ c hc⟩

theorem printDec_chars (d : Dec) :
    ∀ c ∈ (printDec d).data, isPySpace c = false ∧ ¬ c = ',' := by
  unfold printDec
  intro c hc
  by_cases he : d.exp = 0
  · rw [if_pos he] at hc
    have hc' : c ∈ (if d.man < 0 then ['-'] else []) ++
        (List.replicate (d.exp + 1 - (natDigits d.man.natAbs).length) '0' ++
          natDigits d.man.natAbs) := hc
    rcases List.mem_append.mp hc' with hc2 | hc2
    · by_cases hm : d.man < 0
      · rw [if_pos hm] at hc2
        rw [List.mem_singleton.mp hc2]
        exact ⟨by decide, by decide⟩
      · rw [if_neg hm] at hc2
        simp at hc2
    · exact printDec_ds_chars _ _ c hc2
  · rw [if_neg he] at hc
    have hc' : c ∈ ((if d.man < 0 then ['-'] else []) ++
        (List.replicate (d.exp + 1 - (natDigits d.man.natAbs).length) '0' ++
            natDigits d.man.natAbs).take
          ((List.replicate (d.exp + 1 - (natDigits d.man.natAbs).length) '0' ++
            natDigits d.man.natAbs).length - d.exp)) ++
         ('.' :: (List.replicate (d.exp + 1 - (natDigits d.man.natAbs).length) '0' ++
            natDigits d.man.natAbs).drop
          ((List.replicate (d.exp + 1 - (natDigits d.man.natAbs).length) '0' ++
            natDigits d.man.natAbs).length - d.exp)) := hc
    rcases List.mem_append.mp hc' with hc2 | hc2
    · rcases List.mem_append.mp hc2 with hc3 | hc3
      · by_cases hm : d.man < 0
        · rw [if_pos hm] at hc3
          rw [List.mem_singleton.mp hc3]
          exact ⟨by decide, by decide⟩
        · rw [if_neg hm] at hc3
          simp at hc3
      · exact printDec_ds_chars _ _ c (List.take_subset _ _ hc3)
    · rcases List.mem_cons.mp hc2 with rfl | hc3
      · exact ⟨by decide, by decide⟩
      · exact printDec_ds_chars _ _ c (List.drop_subset _ _ hc3)

theorem printDec_ne_empty (d : Dec) : printDec d ≠ "" := by
  unfold printDec
  by_cases he : d.exp = 0
  · rw [if_pos he, mk_ne_empty_iff]
    intro hnil
    have hlen := congrArg List.length hnil
    simp only [List.length_append, List.length_replicate, List.length_nil] at hlen
    have : 0 < (natDigits d.man.natAbs).length :=
      List.length_pos.mpr (natDigits_ne_nil _)
    omega
  · rw [if_neg he, mk_ne_empty_iff]
    intro hnil
    have hlen := congrArg List.length hnil
    simp only [List.length_append, List.length_cons, List.length_nil] at hlen
    omega

theorem valOk_vstr (ty : FieldType) (s : String) (h : valOk ty (.vstr s) = true) :
    pyStrip s = s ∧ ∀ c ∈ s.data, ¬ c = ',' := by
  cases ty <;> simp only [valOk] at h
  · exact absurd h (by decide)
  · exact absurd h (by decide)
  · exact absurd h (by decide)
  · rw [Bool.and_eq_true] at h
    refine ⟨eq_of_beq h.1, ?_⟩
    intro c hc
    simpa using List.all_eq_true.mp h.2 c hc
  · exact absurd h (by decide)

theorem valOk_venum (ty : FieldType) (s : String) (h : valOk ty (.venum s) = true) :
    pyStrip s = s ∧ (∀ c ∈ s.data, ¬ c = ',') ∧
      ∃ allowed, ty = .tEnum allowed ∧ s ∈ allowed := by
  cases ty <;> simp only [valOk] at h
  · exact absurd h (by decide)
  · exact absurd h (by decide)
  · exact absurd h (by decide)
  · exact absurd h (by decide)
  · rename_i allowed
    rw [Bool.and_eq_true, Bool.and_eq_true] at h
    refine ⟨eq_of_beq h.1.2, ?_, allowed, rfl, ?_⟩
    · intro c hc
      simpa using List.all_eq_true.mp h.2 c hc
    · have := h.1.1
      simpa [List.contains_iff_exists_mem_beq] using this

theorem printField_stripId (ty : FieldType) (v : FieldVal) (h : valOk ty v = true) :
    pyStrip (printField v) = printField v := by
  cases v with
  | vint n =>
      show pyStrip (printInt n) = printInt n
      unfold pyStrip
      rw [stripChars_eq_self _ (fun c hc => (printInt_chars n c hc).1)]
  | vdec d =>
      show pyStrip (printDec d) = printDec d
      unfold pyStrip
      rw [stripChars_eq_self _ (fun c hc => (printDec_chars d c hc).1)]
  | vbool b => cases b <;> decide
  | vstr s => exact (valOk_vstr ty s h).1
  | venum s => exact (valOk_venum ty s h).1

theorem printField_noComma (ty : FieldType) (v : FieldVal) (h : valOk ty v = true) :
    ∀ c ∈ (printField v).data, ¬ c = ',' := by
  cases v with
  | vint n => exact fun c hc => (printInt_chars n c hc).2
  | vdec d => exact fun c hc => (printDec_chars d c hc).2
  | vbool b => cases b <;> decide
  | vstr s => exact (valOk_vstr ty s h).2
  | venum s => exact (valOk_venum ty s h).2.1

theorem printField_ne_empty (ty : FieldType) (v : FieldVal)
    (h : valOk ty v = true) (hty : tyOk ty = true) (hne : valNonempty v = true) :
    printField v ≠ "" := by
  cases v with
  | vint n => exact printInt_ne_empty n
  | vdec d => exact printDec_ne_empty d
  | vbool b => cases b <;> decide
  | vstr s =>
      show s ≠ ""
      simpa [valNonempty] using hne
  | venum s =>
      obtain ⟨-, -, allowed, rfl, hmem⟩ := valOk_venum ty s h
      simp only [tyOk] at hty
      have htok := List.all_eq_true.mp hty s hmem
      rw [Bool.and_eq_true, Bool.and_eq_true] at htok
      have h1 := htok.1.1
      show s ≠ ""
      intro hs
      rw [hs] at h1
      simp at h1

theorem stripChars_subset (cs : List Char) : ∀ c ∈ stripChars cs, c ∈ cs := by
  intro c hc
  unfold stripChars at hc
  rw [List.mem_reverse] at hc
  have h1 := (List.dropWhile_sublist (l := (cs.dropWhile isPySpace).reverse)
    (p := isPySpace)).subset hc
  rw [List.mem_reverse] at h1
  exact (List.dropWhile_sublist (l := cs) (p := isPySpace)).subset h1

theorem pyStrip_stripId (s : String) : stripId (pyStrip s) = true := by
  unfold stripId
  rw [beq_iff_eq]
  show (⟨stripChars (pyStrip s).data⟩ : String) = pyStrip s
  rw [show (pyStrip s).data = stripChars s.data from rfl, stripChars_idem]
  rfl

theorem pyStrip_noComma (s : String) (h : ∀ c ∈ s.data, ¬ c = ',') :
    noComma (pyStrip s) = true := by
  unfold noComma
  rw [List.all_eq_true]
  intro c hc
  have : c ∈ s.data := stripChars_subset _ c hc
  simpa using h c this

/-! ## Claim C1: provenance — what a successful decode guarantees -/

theorem optBind_none {α β : Type} (g : α → Option β) :
    ((none : Option α) >>= g) = none := rfl

theorem optionMapM_length {α β : Type} (f : α → Option β) :
    ∀ (l : List α) (r : List β), l.mapM f = some r → r.length = l.length
  | [], r, h => by
      simp only [List.mapM_nil, Option.pure_def, Option.some.injEq] at h
      subst h
      rfl
  | a :: t, r, h => by
      rw [List.mapM_cons] at h
      cases hfa : f a with
      | none => rw [hfa, optBind_none] at h; exact absurd h (by simp)
      | some b =>
          rw [hfa, optBind_some] at h
          cases hmt : t.mapM f with
          | none => rw [hmt, optBind_none] at h; exact absurd h (by simp)
          | some rt =>
              rw [hmt, optBind_some] at h
              simp only [Option.pure_def, Option.some.injEq] at h
              subst h
              simp [optionMapM_length f t rt hmt]

theorem optionMapM_zip_forall {α β : Type} (f : α → Option β) :
    ∀ (l : List α) (r : List β), l.mapM f = some r →
      ∀ q ∈ l.zip r, f q.1 = some q.2
  | [], r, h => by intro q hq; simp at hq
  | a :: t, r, h => by
      rw [List.mapM_cons] at h
      cases hfa : f a with
      | none => rw [hfa, optBind_none] at h; exact absurd h (by simp)
      | some b =>
          rw [hfa, optBind_some] at h
          cases hmt : t.mapM f with
          | none => rw [hmt, optBind_none] at h; exact absurd h (by simp)
          | some rt =>
              rw [hmt, optBind_some] at h
              simp only [Option.pure_def, Option.some.injEq] at h
              subst h
              intro q hq
              rw [List.zip_cons_cons] at hq
              rcases List.mem_cons.mp hq with rfl | hq
              · exact hfa
              · exact optionMapM_zip_forall f t rt hmt q hq

theorem zip_mem_get? {α β : Type} : ∀ (l₁ : List α) (l₂ : List β) (p : α × β),
    p ∈ l₁.zip l₂ → ∃ i, l₁.get? i = some p.1 ∧ l₂.get? i = some p.2
  | [], _, p, hp => by simp at hp
  | _ :: _, [], p, hp => by simp at hp
  | a :: t, b :: u, p, hp => by
      rw [List.zip_cons_cons] at hp
      rcases List.mem_cons.mp hp with rfl | hp
      · exact ⟨0, rfl, rfl⟩
      · obtain ⟨i, h1, h2⟩ := zip_mem_get? t u p hp
        exact ⟨i + 1, h1, h2⟩

theorem optionMapM_get? {α β : Type} (f : α → Option β) :
    ∀ (l : List α) (r : List β), l.mapM f = some r →
      ∀ (i : Nat) (a : α) (b : β), l.get? i = some a → r.get? i = some b →
      f a = some b := by
  intro l r h i a b h1 h2
  have hq : (a, b) ∈ l.zip r := by
    have hlen := optionMapM_length f l r h
    have hi : l.get? i = some a := h1
    rw [List.get?_eq_getElem?] at h1 h2
    have : (l.zip r).get? i = some (a, b) := by
      rw [List.get?_eq_getElem?, List.getElem?_zip_eq_some]
      exact ⟨h1, h2⟩
    exact List.get?_mem this
  exact optionMapM_zip_forall f l r h (a, b) hq

theorem lookupLast_mem (kvs : List (String × String)) (k w : String)
    (h : lookupLast kvs k = some w) : (k, w) ∈ kvs := by
  unfold lookupLast at h
  obtain ⟨l₁, l₂, he, -⟩ := List.lookup_eq_some_iff.mp h
  have : (k, w) ∈ kvs.reverse := by rw [he]; simp
  simpa using this

theorem parseField_valOk (ty : FieldType) (w : String) (v : FieldVal)
    (hw1 : pyStrip w = w) (hw2 : ∀ c ∈ w.data, ¬ c = ',')
    (h : parseField ty w = some v) : valOk ty v = true := by
  cases ty <;> simp only [parseField] at h
  · cases hp : pyParseInt w with
    | none => rw [hp] at h; simp at h
    | some n =>
        rw [hp] at h
        simp only [Option.map_some', Option.some.injEq] at h
        subst h
        rfl
  · cases hp : pyParseDec w with
    | none => rw [hp] at h; simp at h
    | some d =>
        rw [hp] at h
        simp only [Option.map_some', Option.some.injEq] at h
        subst h
        rfl
  · cases hp : pyParseBool w with
    | none => rw [hp] at h; simp at h
    | some b =>
        rw [hp] at h
        simp only [Option.map_some', Option.some.injEq] at h
        subst h
        rfl
  · simp only [Option.some.injEq] at h
    subst h
    simp only [valOk, Bool.and_eq_true]
    refine ⟨by simp [stripId, hw1], ?_⟩
    rw [noComma, List.all_eq_true]
    intro c hc
    simpa using hw2 c hc
  · rename_i allowed
    by_cases hin : w ∈ allowed
    · rw [if_pos hin] at h
      simp only [Option.some.injEq] at h
      subst h
      simp only [valOk, Bool.and_eq_true]
      have hcont : allowed.contains w = true := by
        rw [List.contains_iff_exists_mem_beq]
        exact ⟨w, hin, by simp⟩
      refine ⟨⟨hcont, by simp [stripId, hw1]⟩, ?_⟩
      rw [noComma, List.all_eq_true]
      intro c hc
      simpa using hw2 c hc
    · rw [if_neg hin] at h
      simp at h

theorem pairCells_val_origin : ∀ (ks vs : List String)
    (kvs : List (String × String)), pairCells ks vs = some kvs →
    ∀ p ∈ kvs, ∃ v ∈ vs, p.2 = pyStrip v
  | [], [], kvs, h => by
      simp only [pairCells, Option.some.injEq] at h
      subst h
      intro p hp
      simp at hp
  | [], _ :: _, kvs, h => by simp [pairCells] at h
  | _ :: _, [], kvs, h => by simp [pairCells] at h
  | k :: ks, v :: vs, kvs, h => by
      simp only [pairCells] at h
      by_cases he : k = "" ∨ v = ""
      · rw [if_pos he] at h
        simp only [Option.some.injEq] at h
        subst h
        intro p hp
        simp at hp
      · rw [if_neg he] at h
        cases hp : pairCells ks vs with
        | none => rw [hp] at h; simp at h
        | some rest =>
            rw [hp] at h
            simp only [Option.map_some', Option.some.injEq] at h
            subst h
            intro p hpm
            rcases List.mem_cons.mp hpm with rfl | hpm
            · exact ⟨v, by simp, rfl⟩
            · obtain ⟨v2, hv2, he2⟩ := pairCells_val_origin ks vs rest hp p hpm
              exact ⟨v2, by simp [hv2], he2⟩

theorem instantiateFields_valOk : ∀ (fields : List FieldSpec)
    (kvs : List (String × String)) (vals : List FieldVal),
    (∀ p ∈ kvs, pyStrip p.2 = p.2 ∧ ∀ c ∈ p.2.data, ¬ c = ',') →
    instantiateFields fields kvs = some vals →
    vals.length = fields.length ∧ ∀ q ∈ fields.zip vals, valOk q.1.ty q.2 = true
  | [], kvs, vals, _, h => by
      simp only [instantiateFields, List.mapM_nil, Option.pure_def,
        Option.some.injEq] at h
      subst h
      exact ⟨rfl, by intro q hq; simp at hq⟩
  | f :: ft, kvs, vals, hkv, h => by
      simp only [instantiateFields, List.mapM_cons] at h
      cases hl : lookupLast kvs f.key with
      | none => rw [hl] at h; simp [optBind_none] at h
      | some w =>
          rw [hl] at h
          simp only [Option.some_bind] at h
          cases hp : parseField f.ty w with
          | none => rw [hp, optBind_none] at h; exact absurd h (by simp)
          | some v =>
              rw [hp, optBind_some] at h
              cases hmt : ft.mapM (fun g => (lookupLast kvs g.key).bind
                  (parseField g.ty)) with
              | none => rw [hmt, optBind_none] at h; exact absurd h (by simp)
              | some vt =>
                  rw [hmt, optBind_some] at h
                  simp only [Option.pure_def, Option.some.injEq] at h
                  subst h
                  have hw := hkv (f.key, w) (lookupLast_mem kvs f.key w hl)
                  obtain ⟨hlen, hall⟩ :=
                    instantiateFields_valOk ft kvs vt hkv hmt
                  refine ⟨by simp [hlen], ?_⟩
                  intro q hq
                  rw [List.zip_cons_cons] at hq
                  rcases List.mem_cons.mp hq with rfl | hq
                  · exact parseField_valOk f.ty w v hw.1 hw.2 hp
                  · exact hall q hq

theorem lineVals_props (l : String) :
    ∀ w ∈ lineVals l, pyStrip w = w ∧ ∀ c ∈ w.data, ¬ c = ',' := by
  intro w hw
  unfold lineVals at hw
  have hw2 : w ∈ (rowCells l).map pyStrip :=
    (List.takeWhile_sublist _).subset hw
  obtain ⟨cell, hcell, rfl⟩ := List.mem_map.mp hw2
  refine ⟨?_, ?_⟩
  · exact eq_of_beq (pyStrip_stripId cell)
  · intro c hc
    have hnc := pyStrip_noComma cell (fun c2 hc2 =>
      splitChar_no_sep ',' (pyStrip l) cell hcell c2 hc2)
    simpa using List.all_eq_true.mp hnc c hc

theorem instantiateRows_valOk (fields : List FieldSpec) (rows : List String)
    (valss : List (List FieldVal))
    (hrows : ∀ r ∈ rows, (rowCells r).headD "" ≠ "")
    (h : instantiateRows fields rows = some valss) :
    valss.length = fields.length ∧
      ∀ q ∈ fields.zip valss, q.2 ≠ [] ∧ ∀ v ∈ q.2, valOk q.1.ty v = true := by
  unfold instantiateRows at h
  have hlen : valss.length = fields.length := by
    have := optionMapM_length _ _ _ h
    simpa [List.enum] using this
  refine ⟨hlen, ?_⟩
  intro q hq
  obtain ⟨i, h1, h2⟩ := zip_mem_get? fields valss q hq
  have he : (fields.enum).get? i = some (i, q.1) := by
    rw [List.get?_eq_getElem?]
    show (fields.enumFrom 0)[i]? = _
    rw [List.getElem?_enumFrom]
    rw [List.get?_eq_getElem?] at h1
    rw [h1]
    simp
  have hfa := optionMapM_get? _ _ _ h i (i, q.1) q.2 he h2
  cases hr : rows.get? i with
  | none => rw [hr, Option.none_bind] at hfa; exact absurd hfa (by simp)
  | some row =>
      rw [hr, Option.some_bind] at hfa
      have hrmem : row ∈ rows := List.get?_mem hr
      have hlv : lineVals row ≠ [] := by
        apply lineVals_ne_nil_of_first
        exact hrows row hrmem
      refine ⟨?_, ?_⟩
      · intro hnil
        have := optionMapM_length _ _ _ hfa
        rw [hnil] at this
        simp at this
        exact hlv (List.eq_nil_of_length_eq_zero this.symm)
      · intro v hv
        obtain ⟨i2, hv2⟩ := List.mem_iff_get?.mp hv
        cases hw : (lineVals row).get? i2 with
        | none =>
            rw [List.get?_eq_getElem?] at hw hv2
            rw [List.getElem?_eq_none_iff] at hw
            have hlen2 := optionMapM_length _ _ _ hfa
            rw [List.getElem?_eq_some_iff] at hv2
            obtain ⟨hlt, -⟩ := hv2
            omega
        | some w =>
            have := optionMapM_get? _ _ _ hfa i2 w v hw hv2
            obtain ⟨hp1, hp2⟩ := lineVals_props row w (List.get?_mem hw)
            exact parseField_valOk q.1.ty w v hp1 hp2 this

theorem pairTableKwargs_ok_inv (lines : List String) (i : Nat)
    (kvs : List (String × String)) (h : pairTableKwargs lines i = .ok kvs) :
    ∃ l1 l2, lines.get? i = some l1 ∧ lines.get? (i + 1) = some l2 ∧
      pairCells (splitChar ',' l1) (splitChar ',' l2) = some kvs := by
  cases h1 : lines.get? i with
  | none =>
      unfold pairTableKwargs at h
      rw [h1] at h
      cases h2 : lines.get? (i + 1) with
      | none => rw [h2] at h; simp at h
      | some l2 => rw [h2] at h; simp at h
  | some l1 =>
      cases h2 : lines.get? (i + 1) with
      | none =>
          unfold pairTableKwargs at h
          rw [h1, h2] at h
          simp at h
      | some l2 =>
          rw [pairTableKwargs_eq lines i l1 l2 h1 h2] at h
          cases hp : pairCells (splitChar ',' l1) (splitChar ',' l2) with
          | none => rw [hp] at h; simp at h
          | some m =>
              rw [hp] at h
              simp at h
              exact ⟨l1, l2, rfl, rfl, by rw [hp, h]⟩

theorem decodePairTable_ok_inv (fields : List FieldSpec) (lines : List String)
    (i : Nat) (vals : List FieldVal) (j : Nat)
    (h : decodePairTable fields lines i = .ok (vals, j)) :
    ∃ kvs, pairTableKwargs lines i = .ok kvs ∧
      instantiateFields fields kvs = some vals ∧ j = i + 3 := by
  cases hk : pairTableKwargs lines i with
  | error e =>
      rw [decodePairTable_err fields lines i e hk] at h
      simp at h
  | ok kvs =>
      rw [decodePairTable_eq_of_kwargs fields lines i kvs hk] at h
      cases hi : instantiateFields fields kvs with
      | none => rw [hi] at h; simp at h
      | some vals2 =>
          rw [hi] at h
          simp at h
          exact ⟨kvs, rfl, by rw [hi, h.1], h.2.symm⟩

theorem decodeRowTable_ok_inv (fields : List FieldSpec) (lines : List String)
    (i : Nat) (valss : List (List FieldVal)) (j warn : Nat)
    (h : decodeRowTable fields lines i = .ok (valss, j, warn)) :
    instantiateRows fields (rowBlockLines (lines.drop (i + 1))) = some valss := by
  rw [decodeRowTable_eq] at h
  cases hi : instantiateRows fields (rowBlockLines (lines.drop (i + 1))) with
  | none => rw [hi] at h; simp at h
  | some valss2 =>
      rw [hi] at h
      simp at h
      rw [h.1]

theorem decodeCard_secOk (c : CardSchema) (lines : List String) (i : Nat)
    (s : Section) (j : Nat) (h : decodeCard c lines i = .ok (s, j)) :
    secOk c s = true := by
  unfold decodeCard at h
  cases hk : c.kind with
  | title =>
      rw [hk] at h
      simp at h
      rw [← h.1]
      simp [secOk, hk]
  | pairTable =>
      rw [hk] at h
      cases hd : decodePairTable c.fields lines i with
      | error e => rw [hd] at h; simp [Except.map] at h
      | ok p =>
          rw [hd] at h
          simp only [Except.map] at h
          simp at h
          obtain ⟨hs, -⟩ := h
          obtain ⟨kvs, hkw, hins, -⟩ := decodePairTable_ok_inv c.fields lines i
            p.1 p.2 (by rw [hd])
          obtain ⟨l1, l2, hg1, hg2, hpc⟩ := pairTableKwargs_ok_inv _ _ _ hkw
          have hkvprops : ∀ q ∈ kvs,
              pyStrip q.2 = q.2 ∧ ∀ c2 ∈ q.2.data, ¬ c2 = ',' := by
            intro q hq
            obtain ⟨v, hv, he⟩ := pairCells_val_origin _ _ _ hpc q hq
            constructor
            · rw [he]
              exact eq_of_beq (pyStrip_stripId v)
            · rw [he]
              intro c2 hc2
              have hnc := pyStrip_noComma v (fun c3 hc3 =>
                splitChar_no_sep ',' l2 v hv c3 hc3)
              simpa using List.all_eq_true.mp hnc c2 hc2
          obtain ⟨hlen, hall⟩ := instantiateFields_valOk c.fields kvs p.1
            hkvprops hins
          rw [← hs]
          simp only [secOk, hk, Bool.and_eq_true]
          refine ⟨⟨by simp, by simp [hlen]⟩, ?_⟩
          rw [List.all_eq_true]
          intro q hq
          exact hall q hq
  | rowTable =>
      rw [hk] at h
      cases hd : decodeRowTable c.fields lines i with
      | error e => rw [hd] at h; simp [Except.map] at h
      | ok p =>
          rw [hd] at h
          simp only [Except.map] at h
          simp at h
          obtain ⟨hs, -⟩ := h
          have hins := decodeRowTable_ok_inv c.fields lines i p.1 p.2.1 p.2.2
            (by rw [hd])
          have hrows : ∀ r ∈ rowBlockLines (lines.drop (i + 1)),
              (rowCells r).headD "" ≠ "" := by
            intro r hr
            have := List.mem_takeWhile_imp hr
            simpa using this
          obtain ⟨hlen, hall⟩ := instantiateRows_valOk c.fields _ p.1 hrows hins
          rw [← hs]
          simp only [secOk, hk, Bool.and_eq_true]
          refine ⟨⟨by simp, by simp [hlen]⟩, ?_⟩
          rw [List.all_eq_true]
          intro q hq
          obtain ⟨hne, hvok⟩ := hall q hq
          simp only [Bool.and_eq_true]
          refine ⟨by simpa [List.isEmpty_iff] using hne, ?_⟩
          rw [List.all_eq_true]
          intro v hv
          exact hvok v hv

theorem decodeCards_cons_ok (c : CardSchema) (cs : List CardSchema)
    (lines : List String) (i : Nat) (s : Section) (j : Nat)
    (h : decodeCard c lines i = .ok (s, j)) :
    decodeCards (c :: cs) lines i =
      (decodeCards cs lines j).map (fun p => (s :: p.1, p.2)) := by
  conv_lhs => unfold decodeCards
  rw [h]

theorem decodeCards_cons_err (c : CardSchema) (cs : List CardSchema)
    (lines : List String) (i : Nat) (e : DErr)
    (h : decodeCard c lines i = .error e) :
    decodeCards (c :: cs) lines i = .error e := by
  conv_lhs => unfold decodeCards
  rw [h]

theorem decodeCards_cfgOk : ∀ (cs : List CardSchema) (lines : List String)
    (i : Nat) (ss : List Section) (j : Nat),
    decodeCards cs lines i = .ok (ss, j) → cfgOk cs ss = true
  | [], lines, i, ss, j, h => by
      simp only [decodeCards] at h
      simp at h
      rw [h.1]
      decide
  | c :: cs, lines, i, ss, j, h => by
      cases hd : decodeCard c lines i with
      | error e =>
          rw [decodeCards_cons_err c cs lines i e hd] at h
          simp at h
      | ok p =>
          rw [decodeCards_cons_ok c cs lines i p.1 p.2 (by rw [hd])] at h
          cases hr : decodeCards cs lines p.2 with
          | error e => rw [hr] at h; simp [Except.map] at h
          | ok q =>
              rw [hr] at h
              simp [Except.map] at h
              obtain ⟨hs, -⟩ := h
              have hsec := decodeCard_secOk c lines i p.1 p.2 (by rw [hd])
              have ihh := decodeCards_cfgOk cs lines p.2 q.1 q.2 (by rw [hr])
              simp only [cfgOk, Bool.and_eq_true, beq_iff_eq,
                List.all_eq_true] at ihh
              rw [← hs]
              simp only [cfgOk, Bool.and_eq_true, beq_iff_eq, List.all_eq_true]
              refine ⟨by simp [ihh.1], ?_⟩
              intro q2 hq2
              rw [List.zip_cons_cons] at hq2
              rcases List.mem_cons.mp hq2 with rfl | hq2
              · exact hsec
              · exact ihh.2 q2 hq2

/-! ## Claim C1: re-decoding an encoded card -/

theorem get?_append_at {α : Type} (pre X : List α) (k : Nat) :
    (pre ++ X).get? (pre.length + k) = X.get? k := by
  rw [List.get?_eq_getElem?, List.get?_eq_getElem?,
    List.getElem?_append_right (by omega)]
  congr 1
  omega

theorem drop_append_at {α : Type} (pre X : List α) (k : Nat) :
    (pre ++ X).drop (pre.length + k) = X.drop k := by
  rw [← List.drop_drop, List.drop_left]

theorem mem_snd_zip {α β : Type} (l₁ : List α) (l₂ : List β) (b : β)
    (hlen : l₂.length = l₁.length) (hb : b ∈ l₂) :
    ∃ a, (a, b) ∈ l₁.zip l₂ := by
  obtain ⟨i, hi⟩ := List.mem_iff_get?.mp hb
  rw [List.get?_eq_getElem?] at hi
  have hlt : i < l₂.length := (List.getElem?_eq_some_iff.mp hi).1
  have hlt1 : i < l₁.length := by omega
  refine ⟨l₁[i], ?_⟩
  have hz : (l₁.zip l₂).get? i = some (l₁[i], b) := by
    rw [List.get?_eq_getElem?, List.getElem?_zip_eq_some]
    exact ⟨by simp, hi⟩
  exact List.get?_mem hz

theorem lookup_unique : ∀ (l : List (String × String)) (k w : String),
    (l.map Prod.fst).Nodup → (k, w) ∈ l → l.lookup k = some w
  | [], k, w, _, hm => by simp at hm
  | (k2, w2) :: t, k, w, hnd, hm => by
      rw [List.map_cons] at hnd
      have hnd' := List.nodup_cons.mp hnd
      rcases List.mem_cons.mp hm with he | hm2
      · rw [Prod.mk.injEq] at he
        obtain ⟨rfl, rfl⟩ := he
        exact List.lookup_cons_self
      · have hk : ¬ k = k2 := by
          intro he
          apply hnd'.1
          rw [he] at hm2
          simpa using List.mem_map_of_mem Prod.fst hm2
        have hbeq : (k == k2) = false := by simpa using hk
        have hred : List.lookup k ((k2, w2) :: t) = List.lookup k t := by
          rw [List.lookup_cons, hbeq]
        rw [hred]
        exact lookup_unique t k w hnd'.2 hm2

theorem lookupLast_unique (l : List (String × String)) (k w : String)
    (hnd : (l.map Prod.fst).Nodup) (hm : (k, w) ∈ l) :
    lookupLast l k = some w := by
  unfold lookupLast
  apply lookup_unique
  · simpa using hnd
  · simpa using hm

theorem pairCells_full : ∀ ks vs : List String, ks.length = vs.length →
    (∀ k ∈ ks, k ≠ "") → (∀ v ∈ vs, v ≠ "") →
    pairCells ks vs =
      some ((ks.zip vs).map (fun p => (pyLower (pyStrip p.1), pyStrip p.2)))
  | [], [], _, _, _ => rfl
  | [], _ :: _, hlen, _, _ => by simp at hlen
  | _ :: _, [], hlen, _, _ => by simp at hlen
  | k :: ks, v :: vs, hlen, hk, hv => by
      simp only [pairCells]
      rw [if_neg (by push_neg; exact ⟨hk k (by simp), hv v (by simp)⟩),
        pairCells_full ks vs (by simpa using hlen)
          (fun x hx => hk x (by simp [hx])) (fun x hx => hv x (by simp [hx]))]
      rw [List.zip_cons_cons, List.map_cons]
      rfl

theorem valOk_vint (ty : FieldType) (n : Int)
    (h : valOk ty (.vint n) = true) : ty = .tInt := by
  cases ty
  · rfl
  · simp [valOk] at h
  · simp [valOk] at h
  · simp [valOk] at h
  · simp [valOk] at h

theorem valOk_vdec (ty : FieldType) (d : Dec)
    (h : valOk ty (.vdec d) = true) : ty = .tFloat := by
  cases ty
  · simp [valOk] at h
  · rfl
  · simp [valOk] at h
  · simp [valOk] at h
  · simp [valOk] at h

theorem valOk_vbool (ty : FieldType) (b : Bool)
    (h : valOk ty (.vbool b) = true) : ty = .tBool := by
  cases ty
  · simp [valOk] at h
  · simp [valOk] at h
  · rfl
  · simp [valOk] at h
  · simp [valOk] at h

theorem valOk_vstr_ty (ty : FieldType) (s : String)
    (h : valOk ty (.vstr s) = true) : ty = .tStr := by
  cases ty
  · simp [valOk] at h
  · simp [valOk] at h
  · simp [valOk] at h
  · rfl
  · simp [valOk] at h

theorem parseField_printField (ty : FieldType) (v : FieldVal)
    (h : valOk ty v = true) : parseField ty (printField v) = some v := by
  cases v with
  | vint n =>
      rw [valOk_vint ty n h]
      show (pyParseInt (printInt n)).map FieldVal.vint = some (FieldVal.vint n)
      rw [pyParseInt_printInt]
      rfl
  | vdec d =>
      rw [valOk_vdec ty d h]
      show (pyParseDec (printDec d)).map FieldVal.vdec = some (FieldVal.vdec d)
      rw [pyParseDec_printDec]
      rfl
  | vbool b =>
      rw [valOk_vbool ty b h]
      show (pyParseBool (printBool b)).map FieldVal.vbool = some (FieldVal.vbool b)
      rw [pyParseBool_printBool]
      rfl
  | vstr s =>
      rw [valOk_vstr_ty ty s h]
      rfl
  | venum s =>
      obtain ⟨-, -, allowed, rfl, hmem⟩ := valOk_venum ty s h
      show (if s ∈ allowed then some (FieldVal.venum s) else none) = _
      rw [if_pos hmem]

theorem mapM_parse_print (ty : FieldType) : ∀ vs : List FieldVal,
    (∀ v ∈ vs, valOk ty v = true) →
    (vs.map printField).mapM (parseField ty) = some vs
  | [], _ => rfl
  | v :: vt, h => by
      rw [List.map_cons, List.mapM_cons, parseField_printField ty v (h v (by simp)),
        optBind_some, mapM_parse_print ty vt (fun x hx => h x (by simp [hx])),
        optBind_some]
      rfl

theorem instantiateFields_of : ∀ (fields : List FieldSpec) (vals : List FieldVal)
    (kvs : List (String × String)),
    (∀ q ∈ fields.zip vals,
      lookupLast kvs q.1.key = some (pyStrip (printField q.2)) ∧
      parseField q.1.ty (pyStrip (printField q.2)) = some q.2) →
    fields.length = vals.length →
    instantiateFields fields kvs = some vals
  | [], [], kvs, _, _ => rfl
  | [], _ :: _, _, _, hlen => by simp at hlen
  | _ :: _, [], _, _, hlen => by simp at hlen
  | f :: ft, v :: vt, kvs, hq, hlen => by
      have h0 := hq (f, v) (by rw [List.zip_cons_cons]; simp)
      have hrec : ft.mapM (fun g => (lookupLast kvs g.key).bind (parseField g.ty)) =
          some vt :=
        instantiateFields_of ft vt kvs
          (fun q hqq => hq q (by rw [List.zip_cons_cons]; simp [hqq]))
          (by simpa using hlen)
      simp only [instantiateFields, List.mapM_cons]
      rw [h0.1, Option.some_bind, h0.2, optBind_some, hrec, optBind_some]
      rfl

theorem intercalate_cons_ne {α : Type} (sep : List α) (d : List α)
    (ds : List (List α)) :
    ∃ r, List.intercalate sep (d :: ds) = d ++ r := by
  unfold List.intercalate
  cases ds with
  | nil => exact ⟨[], by simp⟩
  | cons e es =>
      refine ⟨sep ++ (List.intersperse sep (e :: es)).flatten, ?_⟩
      rw [show List.intersperse sep (d :: e :: es) =
        d :: sep :: List.intersperse sep (e :: es) from rfl]
      rw [List.flatten_cons, List.flatten_cons]

theorem intercalate_concat_ne {α : Type} (sep : List α) :
    ∀ (ds : List (List α)) (d : List α),
    ∃ r, List.intercalate sep (ds ++ [d]) = r ++ d
  | [], d => ⟨[], by simp [List.intercalate]⟩
  | e :: ds, d => by
      have hne : ds ++ [d] ≠ [] := by simp
      obtain ⟨r, hr⟩ := intercalate_concat_ne sep ds d
      cases hx : ds ++ [d] with
      | nil => exact absurd hx hne
      | cons g gs =>
          refine ⟨e ++ sep ++ r, ?_⟩
          rw [List.cons_append, hx]
          show (List.intersperse sep (e :: g :: gs)).flatten = _
          rw [show List.intersperse sep (e :: g :: gs) =
            e :: sep :: List.intersperse sep (g :: gs) from rfl]
          rw [List.flatten_cons, List.flatten_cons]
          rw [show (List.intersperse sep (g :: gs)).flatten =
            List.intercalate sep (ds ++ [d]) from by rw [hx]; rfl]
          rw [hr]
          simp [List.append_assoc]

theorem joinChar_head_char (sep : Char) (p : String) (rest : List String)
    (hp : p.data ≠ []) : (joinChar sep (p :: rest)).data.head? = p.data.head? := by
  obtain ⟨r, hr⟩ := intercalate_cons_ne [sep] p.data (rest.map String.data)
  show (List.intercalate [sep] ((p :: rest).map String.data)).head? = _
  rw [List.map_cons, hr, List.head?_append]
  cases hd : p.data with
  | nil => exact absurd hd hp
  | cons c cs => simp

theorem joinChar_getLast_char (sep : Char) (ps : List String) (q : String)
    (hq : q.data ≠ []) :
    (joinChar sep (ps ++ [q])).data.getLast? = q.data.getLast? := by
  obtain ⟨r, hr⟩ := intercalate_concat_ne [sep] (ps.map String.data) q.data
  show (List.intercalate [sep] ((ps ++ [q]).map String.data)).getLast? = _
  rw [List.map_append, List.map_cons, List.map_nil, hr, List.getLast?_append]
  cases hd : q.data.getLast? with
  | none =>
      rw [List.getLast?_eq_none_iff] at hd
      exact absurd hd hq
  | some a => simp

theorem stripChars_getLast?_not_space (cs : List Char) (a : Char)
    (h : (stripChars cs).getLast? = some a) : isPySpace a = false := by
  unfold stripChars at h
  rw [List.getLast?_reverse] at h
  exact head?_dropWhile _ _ _ h

theorem pyStrip_join_stripped (sep : Char) (parts : List String)
    (hne : parts ≠ [])
    (hids : ∀ p ∈ parts, pyStrip p = p)
    (hnonempty : ∀ p ∈ parts, p ≠ "") :
    pyStrip (joinChar sep parts) = joinChar sep parts := by
  unfold pyStrip
  rw [stripChars_eq_self_of_ends]
  · intro a ha
    cases parts with
    | nil => exact absurd rfl hne
    | cons p rest =>
        rw [joinChar_head_char sep p rest
          (by rw [← mk_ne_empty_iff]; exact hnonempty p (by simp))] at ha
        have hps : p.data = stripChars p.data := by
          have := hids p (by simp)
          exact (congrArg String.data this).symm
        rw [hps] at ha
        exact stripChars_head?_not_space _ a ha
  · intro a ha
    rcases List.eq_nil_or_concat parts with rfl | ⟨ps, q, hcat⟩
    · exact absurd rfl hne
    · rw [List.concat_eq_append] at hcat
      subst hcat
      rw [joinChar_getLast_char sep ps q
        (by rw [← mk_ne_empty_iff]; exact hnonempty q (by simp))] at ha
      have hqs : q.data = stripChars q.data := by
        have := hids q (by simp)
        exact (congrArg String.data this).symm
      rw [hqs] at ha
      exact stripChars_getLast?_not_space _ a ha

theorem map_self_of_id {α : Type} (l : List α) (f : α → α)
    (h : ∀ a ∈ l, f a = a) : l.map f = l := by
  induction l with
  | nil => rfl
  | cons a t ih =>
      rw [List.map_cons, h a (by simp), ih (fun x hx => h x (by simp [hx]))]

theorem map_congr_mem {α β : Type} (l : List α) (f g : α → β)
    (h : ∀ a ∈ l, f a = g a) : l.map f = l.map g := by
  induction l with
  | nil => rfl
  | cons a t ih =>
      rw [List.map_cons, List.map_cons, h a (by simp),
        ih (fun x hx => h x (by simp [hx]))]

theorem decodeCard_title_eq (c : CardSchema) (hk : c.kind = .title)
    (lines : List String) (i : Nat) :
    decodeCard c lines i = .ok (.title ((lines.drop i).take 10), i + 12) := by
  unfold decodeCard
  rw [hk]

theorem decodeCard_pair_eq (c : CardSchema) (hk : c.kind = .pairTable)
    (lines : List String) (i : Nat) :
    decodeCard c lines i =
      (decodePairTable c.fields lines i).map (fun p => (.pairs p.1, p.2)) := by
  unfold decodeCard
  rw [hk]

theorem decodeCard_row_eq (c : CardSchema) (hk : c.kind = .rowTable)
    (lines : List String) (i : Nat) :
    decodeCard c lines i =
      (decodeRowTable c.fields lines i).map (fun p => (.rows p.1, p.2.1)) := by
  unfold decodeCard
  rw [hk]

theorem decodeCard_title_at (c : CardSchema) (hk : c.kind = .title)
    (pre ls post : List String) (hlen : ls.length = 10) :
    decodeCard c (pre ++ ((ls ++ ["", ""]) ++ post)) pre.length =
      .ok (.title ls, pre.length + 12) := by
  rw [decodeCard_title_eq c hk, List.drop_left, List.append_assoc, ← hlen,
    List.take_left]

theorem schemaOk_pair (c : CardSchema) (hk : c.kind = .pairTable)
    (hsch : schemaOk c = true) :
    c.fields ≠ [] ∧ (c.fields.map FieldSpec.key).Nodup ∧
      ∀ f ∈ c.fields, (f.key ≠ "" ∧ pyStrip f.key = f.key ∧
        (∀ ch ∈ f.key.data, ¬ ch = ',') ∧ pyLower f.key = f.key) ∧
        tyOk f.ty = true := by
  unfold schemaOk at hsch
  rw [hk] at hsch
  simp only [Bool.and_eq_true, List.all_eq_true] at hsch
  obtain ⟨⟨h1, h2⟩, h3⟩ := hsch
  refine ⟨by simpa using h1, by simpa using h2, ?_⟩
  intro f hf
  obtain ⟨hkey, hty⟩ := h3 f hf
  simp only [keyOk, Bool.and_eq_true] at hkey
  obtain ⟨⟨⟨hne, hid⟩, hnc⟩, hlo⟩ := hkey
  refine ⟨⟨by simpa using hne, eq_of_beq (by simpa [stripId] using hid), ?_,
    eq_of_beq (by simpa [lowerId] using hlo)⟩, hty⟩
  intro ch hch
  have h4 : ∀ x ∈ f.key.data, ¬ x = ',' := by
    simpa [noComma, List.all_eq_true] using hnc
  exact h4 ch hch

theorem schemaOk_row (c : CardSchema) (hk : c.kind = .rowTable)
    (hsch : schemaOk c = true) : ∀ f ∈ c.fields, tyOk f.ty = true := by
  unfold schemaOk at hsch
  rw [hk] at hsch
  rw [List.all_eq_true] at hsch
  exact hsch

theorem decodeCard_pair_at (c : CardSchema) (hk : c.kind = .pairTable)
    (pre post : List String) (vals : List FieldVal)
    (hsch : schemaOk c = true)
    (hlen : vals.length = c.fields.length)
    (hvok : ∀ q ∈ c.fields.zip vals, valOk q.1.ty q.2 = true)
    (hvne : ∀ v ∈ vals, valNonempty v = true) :
    decodeCard c (pre ++ (encodeCard c (.pairs vals) ++ post)) pre.length =
      .ok (.pairs vals, pre.length + 3) := by
  obtain ⟨hfne, hnodup, hfields⟩ := schemaOk_pair c hk hsch
  have hvalsne : vals ≠ [] := by
    intro h0
    rw [h0] at hlen
    exact hfne (List.eq_nil_of_length_eq_zero hlen.symm)
  have hprint_ne : ∀ p ∈ vals.map printField, p ≠ "" := by
    intro p hp
    obtain ⟨v, hv, rfl⟩ := List.mem_map.mp hp
    obtain ⟨f, hfv⟩ := mem_snd_zip c.fields vals v (by omega) hv
    exact printField_ne_empty f.ty v (hvok (f, v) hfv)
      ((hfields f (List.of_mem_zip hfv).1).2) (hvne v hv)
  have hprint_nc : ∀ p ∈ vals.map printField, ∀ ch ∈ p.data, ch ≠ ',' := by
    intro p hp ch hch
    obtain ⟨v, hv, rfl⟩ := List.mem_map.mp hp
    obtain ⟨f, hfv⟩ := mem_snd_zip c.fields vals v (by omega) hv
    exact printField_noComma f.ty v (hvok (f, v) hfv) ch hch
  have hkeys_ne : ∀ k ∈ c.fields.map FieldSpec.key, k ≠ "" := by
    intro k hkm
    obtain ⟨f, hf, rfl⟩ := List.mem_map.mp hkm
    exact (hfields f hf).1.1
  have hkeys_nc : ∀ k ∈ c.fields.map FieldSpec.key, ∀ ch ∈ k.data, ch ≠ ',' := by
    intro k hkm ch hch
    obtain ⟨f, hf, rfl⟩ := List.mem_map.mp hkm
    exact (hfields f hf).1.2.2.1 ch hch
  have hsk : splitChar ',' (joinChar ',' (c.fields.map FieldSpec.key)) =
      c.fields.map FieldSpec.key :=
    splitChar_joinChar ',' _ (by simpa using hfne) hkeys_nc
  have hsv : splitChar ',' (joinChar ',' (vals.map printField)) =
      vals.map printField :=
    splitChar_joinChar ',' _ (by simpa using hvalsne) hprint_nc
  have hpc := pairCells_full (c.fields.map FieldSpec.key) (vals.map printField)
    (by simp [hlen]) hkeys_ne hprint_ne
  have hg1 : (pre ++ ([joinChar ',' (c.fields.map FieldSpec.key),
      joinChar ',' (vals.map printField), ""] ++ post)).get? pre.length =
      some (joinChar ',' (c.fields.map FieldSpec.key)) := by
    have h0 := get?_append_at pre ([joinChar ',' (c.fields.map FieldSpec.key),
      joinChar ',' (vals.map printField), ""] ++ post) 0
    rw [Nat.add_zero] at h0
    exact h0
  have hg2 : (pre ++ ([joinChar ',' (c.fields.map FieldSpec.key),
      joinChar ',' (vals.map printField), ""] ++ post)).get? (pre.length + 1) =
      some (joinChar ',' (vals.map printField)) :=
    get?_append_at pre _ 1
  have hkvs_eq : ((c.fields.map FieldSpec.key).zip (vals.map printField)).map
      (fun p => (pyLower (pyStrip p.1), pyStrip p.2)) =
      (c.fields.zip vals).map
        (fun q => (q.1.key, pyStrip (printField q.2))) := by
    rw [List.zip_map, List.map_map]
    apply map_congr_mem
    intro q hq
    have hf := hfields q.1 (List.of_mem_zip hq).1
    show (pyLower (pyStrip q.1.key), pyStrip (printField q.2)) = _
    rw [hf.1.2.1, hf.1.2.2.2]
  have hkw : pairTableKwargs (pre ++ ([joinChar ',' (c.fields.map FieldSpec.key),
      joinChar ',' (vals.map printField), ""] ++ post)) pre.length =
      .ok ((c.fields.zip vals).map
        (fun q => (q.1.key, pyStrip (printField q.2)))) := by
    apply pairTableKwargs_ok_of _ _ _ _ _ hg1 hg2
    rw [hsk, hsv, hpc, hkvs_eq]
  have hfst : ((c.fields.zip vals).map
      (fun q => (q.1.key, pyStrip (printField q.2)))).map Prod.fst =
      c.fields.map FieldSpec.key := by
    rw [List.map_map]
    have h1 : (c.fields.zip vals).map
        (Prod.fst ∘ (fun q : FieldSpec × FieldVal =>
          (q.1.key, pyStrip (printField q.2)))) =
        ((c.fields.zip vals).map Prod.fst).map FieldSpec.key := by
      rw [List.map_map]
      rfl
    rw [h1, List.map_fst_zip c.fields vals (by omega)]
  have hins : instantiateFields c.fields ((c.fields.zip vals).map
      (fun q => (q.1.key, pyStrip (printField q.2)))) = some vals := by
    apply instantiateFields_of _ _ _ _ hlen.symm
    intro q hq
    constructor
    · apply lookupLast_unique _ _ _ (by rw [hfst]; exact hnodup)
      exact List.mem_map_of_mem _ hq
    · rw [printField_stripId q.1.ty q.2 (hvok q hq)]
      exact parseField_printField q.1.ty q.2 (hvok q hq)
  rw [show encodeCard c (.pairs vals) =
    [joinChar ',' (c.fields.map FieldSpec.key),
      joinChar ',' (vals.map printField), ""] from rfl]
  rw [decodeCard_pair_eq c hk,
    decodePairTable_ok_of c.fields _ pre.length _ vals hkw hins]
  rfl

theorem rowLine_ok (f : FieldSpec) (vs : List FieldVal)
    (hvs : vs ≠ []) (hok : ∀ v ∈ vs, valOk f.ty v = true)
    (hty : tyOk f.ty = true) (hne : ∀ v ∈ vs, valNonempty v = true) :
    rowCells (joinChar ',' (vs.map printField)) = vs.map printField ∧
    lineVals (joinChar ',' (vs.map printField)) = vs.map printField ∧
    (rowCells (joinChar ',' (vs.map printField))).headD "" ≠ "" := by
  have hprint_ne : ∀ p ∈ vs.map printField, p ≠ "" := by
    intro p hp
    obtain ⟨v, hv, rfl⟩ := List.mem_map.mp hp
    exact printField_ne_empty f.ty v (hok v hv) hty (hne v hv)
  have hprint_id : ∀ p ∈ vs.map printField, pyStrip p = p := by
    intro p hp
    obtain ⟨v, hv, rfl⟩ := List.mem_map.mp hp
    exact printField_stripId f.ty v (hok v hv)
  have hnc : ∀ p ∈ vs.map printField, ∀ ch ∈ p.data, ch ≠ ',' := by
    intro p hp ch hch
    obtain ⟨v, hv, rfl⟩ := List.mem_map.mp hp
    exact printField_noComma f.ty v (hok v hv) ch hch
  have hmapne : vs.map printField ≠ [] := by simpa using hvs
  have h1 : pyStrip (joinChar ',' (vs.map printField)) =
      joinChar ',' (vs.map printField) :=
    pyStrip_join_stripped ',' _ hmapne hprint_id hprint_ne
  have h2 : rowCells (joinChar ',' (vs.map printField)) = vs.map printField := by
    unfold rowCells
    rw [h1]
    exact splitChar_joinChar ',' _ hmapne hnc
  refine ⟨h2, ?_, ?_⟩
  · unfold lineVals
    rw [h2, map_self_of_id _ _ hprint_id]
    apply takeWhile_eq_self_of
    intro p hp
    simpa using hprint_ne p hp
  · rw [h2]
    cases hx : vs with
    | nil => exact absurd hx hvs
    | cons v vt =>
        rw [List.map_cons]
        show printField v ≠ ""
        apply hprint_ne
        rw [hx]
        simp

theorem instRows_aux : ∀ (fields : List FieldSpec)
    (valss : List (List FieldVal)) (rows : List String) (k : Nat),
    rows.drop k = valss.map (fun vs => joinChar ',' (vs.map printField)) →
    (∀ q ∈ fields.zip valss,
      (lineVals (joinChar ',' (q.2.map printField))).mapM (parseField q.1.ty) =
        some q.2) →
    fields.length = valss.length →
    (fields.enumFrom k).mapM (fun jf => (rows.get? jf.1).bind
      (fun row => (lineVals row).mapM (parseField jf.2.ty))) = some valss
  | [], [], rows, k, _, _, _ => rfl
  | [], _ :: _, _, _, _, _, hlen => by simp at hlen
  | _ :: _, [], _, _, _, _, hlen => by simp at hlen
  | f :: ft, vs :: vt, rows, k, hdrop, hq, hlen => by
      have hget : rows.get? k = some (joinChar ',' (vs.map printField)) := by
        have h0 : (rows.drop k).get? 0 =
            some (joinChar ',' (vs.map printField)) := by
          rw [hdrop]
          rfl
        rw [List.get?_eq_getElem?] at h0 ⊢
        rw [List.getElem?_drop] at h0
        simpa using h0
      have hd2 : rows.drop (k + 1) =
          vt.map (fun vs2 => joinChar ',' (vs2.map printField)) := by
        rw [← List.drop_drop, hdrop]
        rfl
      have hrec := instRows_aux ft vt rows (k + 1) hd2
        (fun q hqq => hq q (by rw [List.zip_cons_cons]; simp [hqq]))
        (by simpa using hlen)
      rw [List.enumFrom_cons]
      simp only [List.mapM_cons]
      rw [hget, Option.some_bind,
        hq (f, vs) (by rw [List.zip_cons_cons]; simp), optBind_some, hrec,
        optBind_some]
      rfl

theorem instantiateRows_of (fields : List FieldSpec)
    (valss : List (List FieldVal))
    (hq : ∀ q ∈ fields.zip valss,
      (lineVals (joinChar ',' (q.2.map printField))).mapM (parseField q.1.ty) =
        some q.2)
    (hlen : fields.length = valss.length) :
    instantiateRows fields
      (valss.map (fun vs => joinChar ',' (vs.map printField))) = some valss := by
  unfold instantiateRows
  exact instRows_aux fields valss _ 0 (by rw [List.drop_zero]) hq hlen

theorem decodeCard_row_at (c : CardSchema) (hk : c.kind = .rowTable)
    (pre post : List String) (valss : List (List FieldVal))
    (hsch : schemaOk c = true)
    (hlen : valss.length = c.fields.length)
    (hvok : ∀ q ∈ c.fields.zip valss, q.2 ≠ [] ∧
      ∀ v ∈ q.2, valOk q.1.ty v = true)
    (hvne : ∀ vs ∈ valss, ∀ v ∈ vs, valNonempty v = true) :
    decodeCard c (pre ++ (encodeCard c (.rows valss) ++ post)) pre.length =
      .ok (.rows valss, pre.length + (valss.length + 2)) := by
  have hfields := schemaOk_row c hk hsch
  have hline : ∀ vs ∈ valss,
      rowCells (joinChar ',' (vs.map printField)) = vs.map printField ∧
      lineVals (joinChar ',' (vs.map printField)) = vs.map printField ∧
      (rowCells (joinChar ',' (vs.map printField))).headD "" ≠ "" := by
    intro vs hvs
    obtain ⟨f, hfv⟩ := mem_snd_zip c.fields valss vs (by omega) hvs
    exact rowLine_ok f vs (hvok (f, vs) hfv).1 (hvok (f, vs) hfv).2
      (hfields f (List.of_mem_zip hfv).1) (hvne vs hvs)
  have hdrop : (pre ++ (encodeCard c (.rows valss) ++ post)).drop
      (pre.length + 1) =
      valss.map (fun vs => joinChar ',' (vs.map printField)) ++ ("," :: post) := by
    rw [drop_append_at pre _ 1]
    rw [show encodeCard c (.rows valss) ++ post = c.header ::
      ((valss.map (fun vs => joinChar ',' (vs.map printField)) ++ [","]) ++ post)
      from rfl]
    rw [show (c.header :: ((valss.map (fun vs => joinChar ','
      (vs.map printField)) ++ [","]) ++ post)).drop 1 =
      (valss.map (fun vs => joinChar ',' (vs.map printField)) ++ [","]) ++ post
      from rfl]
    rw [List.append_assoc]
    rfl
  have hrbl : rowBlockLines (valss.map
      (fun vs => joinChar ',' (vs.map printField)) ++ ("," :: post)) =
      valss.map (fun vs => joinChar ',' (vs.map printField)) := by
    unfold rowBlockLines
    rw [takeWhile_append_all _ _ _ ?_, List.takeWhile_cons, if_neg (by decide)]
    · simp
    · intro l hl
      obtain ⟨vs, hvs, rfl⟩ := List.mem_map.mp hl
      simpa using (hline vs hvs).2.2
  have hinst : instantiateRows c.fields (valss.map
      (fun vs => joinChar ',' (vs.map printField))) = some valss := by
    apply instantiateRows_of _ _ _ hlen.symm
    intro q hq
    rw [(hline q.2 (List.of_mem_zip hq).2).2.1]
    exact mapM_parse_print q.1.ty q.2 (hvok q hq).2
  have hdec := decodeRowTable_ok_of c.fields
    (pre ++ (encodeCard c (.rows valss) ++ post)) pre.length valss
    (by rw [hdrop, hrbl]; exact hinst)
  rw [decodeCard_row_eq c hk, hdec]
  show Except.ok (Section.rows valss, pre.length + (rowBlockLines
    ((pre ++ (encodeCard c (.rows valss) ++ post)).drop
      (pre.length + 1))).length + 2) = _
  rw [hdrop, hrbl, List.length_map, Nat.add_assoc]

theorem encodeConfig_cons (c : CardSchema) (cs : List CardSchema) (s : Section)
    (ss : List Section) :
    encodeConfig (c :: cs) (s :: ss) = encodeCard c s ++ encodeConfig cs ss := rfl

theorem decodeCards_encode : ∀ (cs : List CardSchema) (ss : List Section)
    (pre post : List String),
    schemasOk cs = true → cfgOk cs ss = true → cfgStrNonempty ss = true →
    cfgTitles10 ss = true →
    decodeCards cs (pre ++ (encodeConfig cs ss ++ post)) pre.length =
      .ok (ss, pre.length + (encodeConfig cs ss).length)
  | [], ss, pre, post, _, hok, _, _ => by
      have hss : ss = [] := by
        simp only [cfgOk, Bool.and_eq_true, beq_iff_eq] at hok
        exact List.eq_nil_of_length_eq_zero (by simpa using hok.1)
      subst hss
      show Except.ok ([], pre.length) = _
      simp [encodeConfig]
  | c :: cs, ss, pre, post, hsch, hok, hne, ht10 => by
      cases ss with
      | nil =>
          simp only [cfgOk, Bool.and_eq_true, beq_iff_eq] at hok
          simp at hok
      | cons s ss' =>
          simp only [cfgOk, List.zip_cons_cons, List.all_cons, Bool.and_eq_true,
            beq_iff_eq, List.length_cons] at hok
          obtain ⟨hlen1, hsec, hall⟩ := hok
          have hok' : cfgOk cs ss' = true := by
            simp only [cfgOk, Bool.and_eq_true, beq_iff_eq, List.all_eq_true]
            exact ⟨by omega, fun q hq => by
              have := List.all_eq_true.mp hall q hq
              exact this⟩
          simp only [schemasOk, List.all_cons, Bool.and_eq_true] at hsch
          obtain ⟨hsc, hscs⟩ := hsch
          have hscs' : schemasOk cs = true := hscs
          simp only [cfgStrNonempty, List.all_cons, Bool.and_eq_true] at hne
          obtain ⟨hne1, hne2⟩ := hne
          have hne2' : cfgStrNonempty ss' = true := hne2
          simp only [cfgTitles10, List.all_cons, Bool.and_eq_true] at ht10
          obtain ⟨ht1, ht2⟩ := ht10
          have ht2' : cfgTitles10 ss' = true := ht2
          rw [encodeConfig_cons]
          cases s with
          | title ls =>
              have hk : c.kind = .title := by
                simp only [secOk] at hsec
                exact eq_of_beq hsec
              have h10 : ls.length = 10 := by simpa using ht1
              have hcard : encodeCard c (.title ls) = ls ++ ["", ""] := rfl
              rw [hcard, List.append_assoc]
              have hd := decodeCard_title_at c hk pre ls
                (encodeConfig cs ss' ++ post) h10
              rw [decodeCards_cons_ok c cs _ pre.length (.title ls)
                (pre.length + 12) hd]
              have hpre' : (pre ++ (ls ++ ["", ""])).length = pre.length + 12 := by
                simp [List.length_append, h10]
              have hre : pre ++ ((ls ++ ["", ""]) ++
                  (encodeConfig cs ss' ++ post)) =
                  (pre ++ (ls ++ ["", ""])) ++ (encodeConfig cs ss' ++ post) :=
                (List.append_assoc _ _ _).symm
              rw [hre, show pre.length + 12 = (pre ++ (ls ++ ["", ""])).length
                from hpre'.symm]
              rw [decodeCards_encode cs ss' (pre ++ (ls ++ ["", ""])) post
                hscs' hok' hne2' ht2']
              show Except.ok (Section.title ls :: ss',
                (pre ++ (ls ++ ["", ""])).length +
                  (encodeConfig cs ss').length) = _
              rw [hpre']
              congr 2
              simp [List.length_append, h10]
              omega
          | pairs vals =>
              have hk : c.kind = .pairTable := by
                simp only [secOk, Bool.and_eq_true] at hsec
                exact eq_of_beq hsec.1.1
              simp only [secOk, Bool.and_eq_true, beq_iff_eq,
                List.all_eq_true] at hsec
              obtain ⟨⟨-, hvlen⟩, hvall⟩ := hsec
              have hd := decodeCard_pair_at c hk pre
                (encodeConfig cs ss' ++ post) vals hsc hvlen
                (fun q hq => hvall q hq)
                (fun v hv => List.all_eq_true.mp (by simpa using hne1) v hv)
              rw [List.append_assoc]
              rw [decodeCards_cons_ok c cs _ pre.length (.pairs vals)
                (pre.length + 3) hd]
              have hpre' : (pre ++ encodeCard c (.pairs vals)).length =
                  pre.length + 3 := by
                simp [encodeCard, List.length_append]
              have hre : pre ++ (encodeCard c (.pairs vals) ++
                  (encodeConfig cs ss' ++ post)) =
                  (pre ++ encodeCard c (.pairs vals)) ++
                    (encodeConfig cs ss' ++ post) :=
                (List.append_assoc _ _ _).symm
              rw [hre, show pre.length + 3 =
                (pre ++ encodeCard c (.pairs vals)).length from hpre'.symm]
              rw [decodeCards_encode cs ss' (pre ++ encodeCard c (.pairs vals))
                post hscs' hok' hne2' ht2']
              show Except.ok (Section.pairs vals :: ss',
                (pre ++ encodeCard c (.pairs vals)).length +
                  (encodeConfig cs ss').length) = _
              rw [hpre']
              congr 2
              simp [encodeCard, List.length_append]
              omega
          | rows valss =>
              have hk : c.kind = .rowTable := by
                simp only [secOk, Bool.and_eq_true] at hsec
                exact eq_of_beq hsec.1.1
              simp only [secOk, Bool.and_eq_true, beq_iff_eq,
                List.all_eq_true] at hsec
              obtain ⟨⟨-, hvlen⟩, hvall⟩ := hsec
              have hvok : ∀ q ∈ c.fields.zip valss, q.2 ≠ [] ∧
                  ∀ v ∈ q.2, valOk q.1.ty v = true := by
                intro q hq
                obtain ⟨h1, h2⟩ := hvall q hq
                exact ⟨by simpa [List.isEmpty_iff] using h1, h2⟩
              have hvne : ∀ vs ∈ valss, ∀ v ∈ vs, valNonempty v = true := by
                intro vs hvs v hv
                have h0 : valss.all (fun vs2 => vs2.all valNonempty) = true := by
                  simpa using hne1
                exact List.all_eq_true.mp (List.all_eq_true.mp h0 vs hvs) v hv
              have hd := decodeCard_row_at c hk pre
                (encodeConfig cs ss' ++ post) valss hsc hvlen hvok hvne
              rw [List.append_assoc]
              rw [decodeCards_cons_ok c cs _ pre.length (.rows valss)
                (pre.length + (valss.length + 2)) hd]
              have hpre' : (pre ++ encodeCard c (.rows valss)).length =
                  pre.length + (valss.length + 2) := by
                simp [encodeCard, List.length_append]
              have hre : pre ++ (encodeCard c (.rows valss) ++
                  (encodeConfig cs ss' ++ post)) =
                  (pre ++ encodeCard c (.rows valss)) ++
                    (encodeConfig cs ss' ++ post) :=
                (List.append_assoc _ _ _).symm
              rw [hre, show pre.length + (valss.length + 2) =
                (pre ++ encodeCard c (.rows valss)).length from hpre'.symm]
              rw [decodeCards_encode cs ss' (pre ++ encodeCard c (.rows valss))
                post hscs' hok' hne2' ht2']
              show Except.ok (Section.rows valss :: ss',
                (pre ++ encodeCard c (.rows valss)).length +
                  (encodeConfig cs ss').length) = _
              rw [hpre']
              congr 2
              simp [encodeCard, List.length_append]
              omega

/-- C1 (amended): for a configuration file that decodes successfully, in
which every string-typed field value is nonempty and every title section
holds its full 10 lines, decoding the re-encoded configuration yields
exactly the configuration decoded from the original file
(`decode(encode(decode(lines))) == decode(lines)` field-for-field).  The
nonemptiness condition is necessary: a decodable file whose `selectc` cell
is blank decodes to an empty string whose re-encoding the pair-table
decoder cannot re-read (`claimC1_cex`). -/
theorem claimC1 (lines : List String) (cfg : List Section) (n : Nat)
    (hdec : decodeConfig lines = .ok (cfg, n))
    (hse : cfgStrNonempty cfg = true)
    (ht : cfgTitles10 cfg = true) :
    ∃ m, decodeConfig (encodeW2 cfg) = .ok (cfg, m) := by
  have hok := decodeCards_cfgOk w2Schemas lines 0 cfg n hdec
  have hmain := decodeCards_encode w2Schemas cfg [] [] w2_schemasOk hok hse ht
  refine ⟨(encodeConfig w2Schemas cfg).length, ?_⟩
  unfold decodeConfig encodeW2
  simpa using hmain

/-- C1 counterexample: this configuration (its `selectc` cell a single
space) decodes successfully — the blank cell strips to the empty string —
but re-encoding the decoded configuration produces an empty `selectc` cell
at which the paired-header-row decoder stops pairing, so the re-decode
fails instead of reproducing the decode. -/
theorem claimC1_cex :
    ∃ cfg n, decodeConfig (encodeW2 ([
      .title ["T01", "T02", "T03", "T04", "T05", "T06", "T07", "T08", "T09",
        "T10"],
      .pairs [.vint 1, .vint 1, .vint 1, .vint 1, .vint 1, .vbool true],
      .pairs [.vint 0, .vint 0, .vint 0, .vint 0, .vint 0, .vint 0, .vint 0,
        .vint 0],
      .pairs [.vint 0, .vint 0, .vint 0, .vint 0, .vint 0, .vint 0, .vint 0],
      .pairs [.vint 1, .vstr " ", .vbool true, .vbool true, .vbool true,
        .vbool true, .vbool true, .vbool true],
      .pairs [.vdec (Dec.mk 10 1), .vdec (Dec.mk 20 1), .vint 2020],
      .pairs [.vint 1, .vdec (Dec.mk 10 1), .vbool true],
      .rows [[.vdec (Dec.mk 10 1)]],
      .rows [[.vdec (Dec.mk 10 1)]],
      .rows [[.vdec (Dec.mk 10 1)]],
      .rows [[.vbool true], [.vbool true], [.vbool true]],
      .rows [[.vint 1], [.vint 1], [.vint 1], [.vint 1], [.vint 1],
        [.vdec (Dec.mk 10 1)], [.vdec (Dec.mk 10 1)]],
      .rows [[.vdec (Dec.mk 10 1)], [.vdec (Dec.mk 10 1)],
        [.vdec (Dec.mk 10 1)], [.vint 1], [.vint 1], [.vint 1]],
      .rows [[.vdec (Dec.mk 10 1)], [.vdec (Dec.mk 10 1)], [.venum "FRESH"],
        [.venum "RECT"]],
      .rows [[.vbool true], [.vbool true], [.vbool true], [.vbool true],
        [.vbool true], [.vbool true]],
      .rows [[.vbool true], [.vbool true], [.vbool true], [.vbool true]],
      .rows [[.vbool true], [.vbool true], [.vbool true]],
      .rows [[.venum "TERM"], [.vbool true], [.vbool true], [.vbool true],
        [.vbool true], [.vdec (Dec.mk 10 1)], [.vdec (Dec.mk 10 1)],
        [.vdec (Dec.mk 10 1)], [.vdec (Dec.mk 10 1)]],
      .rows [[.venum "ON"], [.venum "SIMPLE"], [.vdec (Dec.mk 10 1)],
        [.vdec (Dec.mk 10 1)], [.vdec (Dec.mk 10 1)], [.vdec (Dec.mk 10 1)],
        [.vdec (Dec.mk 10 1)], [.vdec (Dec.mk 10 1)]],
      .rows [[.venum "ULTIMATE"], [.vdec (Dec.mk 10 1)]],
      .rows [[.vdec (Dec.mk 10 1)], [.vdec (Dec.mk 10 1)],
        [.vdec (Dec.mk 10 1)], [.vdec (Dec.mk 10 1)], [.vdec (Dec.mk 10 1)],
        [.vdec (Dec.mk 10 1)], [.venum "MANN"], [.vdec (Dec.mk 10 1)]],
      .rows [[.venum "NICK"], [.venum "IMP"], [.vdec (Dec.mk 10 1)],
        [.vint 1], [.vdec (Dec.mk 10 1)], [.vdec (Dec.mk 10 1)],
        [.vdec (Dec.mk 10 1)], [.vdec (Dec.mk 10 1)], [.venum "IMP"]],
      .rows [[.vint 1], [.vbool true]],
      .rows [[.vbool true]]] : List Section)) = .ok (cfg, n) ∧
      ∃ e, decodeConfig (encodeW2 cfg) = .error e :=
  ⟨_, _, rfl, _, rfl⟩

/-- C1 witness: a full 24-card configuration with nonempty string fields and
full title card; the encoded file decodes back to it exactly. -/
theorem claimC1_witness :
    ∃ m, decodeConfig (encodeW2 ([
      .title ["T01", "T02", "T03", "T04", "T05", "T06", "T07", "T08", "T09",
        "T10"],
      .pairs [.vint 1, .vint 1, .vint 1, .vint 1, .vint 1, .vbool true],
      .pairs [.vint 0, .vint 0, .vint 0, .vint 0, .vint 0, .vint 0, .vint 0,
        .vint 0],
      .pairs [.vint 0, .vint 0, .vint 0, .vint 0, .vint 0, .vint 0, .vint 0],
      .pairs [.vint 1, .vstr "X", .vbool true, .vbool true, .vbool true,
        .vbool true, .vbool true, .vbool true],
      .pairs [.vdec (Dec.mk 10 1), .vdec (Dec.mk 20 1), .vint 2020],
      .pairs [.vint 1, .vdec (Dec.mk 10 1), .vbool true],
      .rows [[.vdec (Dec.mk 10 1)]],
      .rows [[.vdec (Dec.mk 10 1)]],
      .rows [[.vdec (Dec.mk 10 1)]],
      .rows [[.vbool true], [.vbool true], [.vbool true]],
      .rows [[.vint 1], [.vint 1], [.vint 1], [.vint 1], [.vint 1],
        [.vdec (Dec.mk 10 1)], [.vdec (Dec.mk 10 1)]],
      .rows [[.vdec (Dec.mk 10 1)], [.vdec (Dec.mk 10 1)],
        [.vdec (Dec.mk 10 1)], [.vint 1], [.vint 1], [.vint 1]],
      .rows [[.vdec (Dec.mk 10 1)], [.vdec (Dec.mk 10 1)], [.venum "FRESH"],
        [.venum "RECT"]],
      .rows [[.vbool true], [.vbool true], [.vbool true], [.vbool true],
        [.vbool true], [.vbool true]],
      .rows [[.vbool true], [.vbool true], [.vbool true], [.vbool true]],
      .rows [[.vbool true], [.vbool true], [.vbool true]],
      .rows [[.venum "TERM"], [.vbool true], [.vbool true], [.vbool true],
        [.vbool true], [.vdec (Dec.mk 10 1)], [.vdec (Dec.mk 10 1)],
        [.vdec (Dec.mk 10 1)], [.vdec (Dec.mk 10 1)]],
      .rows [[.venum "ON"], [.venum "SIMPLE"], [.vdec (Dec.mk 10 1)],
        [.vdec (Dec.mk 10 1)], [.vdec (Dec.mk 10 1)], [.vdec (Dec.mk 10 1)],
        [.vdec (Dec.mk 10 1)], [.vdec (Dec.mk 10 1)]],
      .rows [[.venum "ULTIMATE"], [.vdec (Dec.mk 10 1)]],
      .rows [[.vdec (Dec.mk 10 1)], [.vdec (Dec.mk 10 1)],
        [.vdec (Dec.mk 10 1)], [.vdec (Dec.mk 10 1)], [.vdec (Dec.mk 10 1)],
        [.vdec (Dec.mk 10 1)], [.venum "MANN"], [.vdec (Dec.mk 10 1)]],
      .rows [[.venum "NICK"], [.venum "IMP"], [.vdec (Dec.mk 10 1)],
        [.vint 1], [.vdec (Dec.mk 10 1)], [.vdec (Dec.mk 10 1)],
        [.vdec (Dec.mk 10 1)], [.vdec (Dec.mk 10 1)], [.venum "IMP"]],
      .rows [[.vint 1], [.vbool true]],
      .rows [[.vbool true]]] : List Section)) =
      .ok (([
      .title ["T01", "T02", "T03", "T04", "T05", "T06", "T07", "T08", "T09",
        "T10"],
      .pairs [.vint 1, .vint 1, .vint 1, .vint 1, .vint 1, .vbool true],
      .pairs [.vint 0, .vint 0, .vint 0, .vint 0, .vint 0, .vint 0, .vint 0,
        .vint 0],
      .pairs [.vint 0, .vint 0, .vint 0, .vint 0, .vint 0, .vint 0, .vint 0],
      .pairs [.vint 1, .vstr "X", .vbool true, .vbool true, .vbool true,
        .vbool true, .vbool true, .vbool true],
      .pairs [.vdec (Dec.mk 10 1), .vdec (Dec.mk 20 1), .vint 2020],
      .pairs [.vint 1, .vdec (Dec.mk 10 1), .vbool true],
      .rows [[.vdec (Dec.mk 10 1)]],
      .rows [[.vdec (Dec.mk 10 1)]],
      .rows [[.vdec (Dec.mk 10 1)]],
      .rows [[.vbool true], [.vbool true], [.vbool true]],
      .rows [[.vint 1], [.vint 1], [.vint 1], [.vint 1], [.vint 1],
        [.vdec (Dec.mk 10 1)], [.vdec (Dec.mk 10 1)]],
      .rows [[.vdec (Dec.mk 10 1)], [.vdec (Dec.mk 10 1)],
        [.vdec (Dec.mk 10 1)], [.vint 1], [.vint 1], [.vint 1]],
      .rows [[.vdec (Dec.mk 10 1)], [.vdec (Dec.mk 10 1)], [.venum "FRESH"],
        [.venum "RECT"]],
      .rows [[.vbool true], [.vbool true], [.vbool true], [.vbool true],
        [.vbool true], [.vbool true]],
      .rows [[.vbool true], [.vbool true], [.vbool true], [.vbool true]],
      .rows [[.vbool true], [.vbool true], [.vbool true]],
      .rows [[.venum "TERM"], [.vbool true], [.vbool true], [.vbool true],
        [.vbool true], [.vdec (Dec.mk 10 1)], [.vdec (Dec.mk 10 1)],
        [.vdec (Dec.mk 10 1)], [.vdec (Dec.mk 10 1)]],
      .rows [[.venum "ON"], [.venum "SIMPLE"], [.vdec (Dec.mk 10 1)],
        [.vdec (Dec.mk 10 1)], [.vdec (Dec.mk 10 1)], [.vdec (Dec.mk 10 1)],
        [.vdec (Dec.mk 10 1)], [.vdec (Dec.mk 10 1)]],
      .rows [[.venum "ULTIMATE"], [.vdec (Dec.mk 10 1)]],
      .rows [[.vdec (Dec.mk 10 1)], [.vdec (Dec.mk 10 1)],
        [.vdec (Dec.mk 10 1)], [.vdec (Dec.mk 10 1)], [.vdec (Dec.mk 10 1)],
        [.vdec (Dec.mk 10 1)], [.venum "MANN"], [.vdec (Dec.mk 10 1)]],
      .rows [[.venum "NICK"], [.venum "IMP"], [.vdec (Dec.mk 10 1)],
        [.vint 1], [.vdec (Dec.mk 10 1)], [.vdec (Dec.mk 10 1)],
        [.vdec (Dec.mk 10 1)], [.vdec (Dec.mk 10 1)], [.venum "IMP"]],
      .rows [[.vint 1], [.vbool true]],
      .rows [[.vbool true]]] : List Section), m) :=
  claimC1 (encodeW2 ([
      .title ["T01", "T02", "T03", "T04", "T05", "T06", "T07", "T08", "T09",
        "T10"],
      .pairs [.vint 1, .vint 1, .vint 1, .vint 1, .vint 1, .vbool true],
      .pairs [.vint 0, .vint 0, .vint 0, .vint 0, .vint 0, .vint 0, .vint 0,
        .vint 0],
      .pairs [.vint 0, .vint 0, .vint 0, .vint 0, .vint 0, .vint 0, .vint 0],
      .pairs [.vint 1, .vstr "X", .vbool true, .vbool true, .vbool true,
        .vbool true, .vbool true, .vbool true],
      .pairs [.vdec (Dec.mk 10 1), .vdec (Dec.mk 20 1), .vint 2020],
      .pairs [.vint 1, .vdec (Dec.mk 10 1), .vbool true],
      .rows [[.vdec (Dec.mk 10 1)]],
      .rows [[.vdec (Dec.mk 10 1)]],
      .rows [[.vdec (Dec.mk 10 1)]],
      .rows [[.vbool true], [.vbool true], [.vbool true]],
      .rows [[.vint 1], [.vint 1], [.vint 1], [.vint 1], [.vint 1],
        [.vdec (Dec.mk 10 1)], [.vdec (Dec.mk 10 1)]],
      .rows [[.vdec (Dec.mk 10 1)], [.vdec (Dec.mk 10 1)],
        [.vdec (Dec.mk 10 1)], [.vint 1], [.vint 1], [.vint 1]],
      .rows [[.vdec (Dec.mk 10 1)], [.vdec (Dec.mk 10 1)], [.venum "FRESH"],
        [.venum "RECT"]],
      .rows [[.vbool true], [.vbool true], [.vbool true], [.vbool true],
        [.vbool true], [.vbool true]],
      .rows [[.vbool true], [.vbool true], [.vbool true], [.vbool true]],
      .rows [[.vbool true], [.vbool true], [.vbool true]],
      .rows [[.venum "TERM"], [.vbool true], [.vbool true], [.vbool true],
        [.vbool true], [.vdec (Dec.mk 10 1)], [.vdec (Dec.mk 10 1)],
        [.vdec (Dec.mk 10 1)], [.vdec (Dec.mk 10 1)]],
      .rows [[.venum "ON"], [.venum "SIMPLE"], [.vdec (Dec.mk 10 1)],
        [.vdec (Dec.mk 10 1)], [.vdec (Dec.mk 10 1)], [.vdec (Dec.mk 10 1)],
        [.vdec (Dec.mk 10 1)], [.vdec (Dec.mk 10 1)]],
      .rows [[.venum "ULTIMATE"], [.vdec (Dec.mk 10 1)]],
      .rows [[.vdec (Dec.mk 10 1)], [.vdec (Dec.mk 10 1)],
        [.vdec (Dec.mk 10 1)], [.vdec (Dec.mk 10 1)], [.vdec (Dec.mk 10 1)],
        [.vdec (Dec.mk 10 1)], [.venum "MANN"], [.vdec (Dec.mk 10 1)]],
      .rows [[.venum "NICK"], [.venum "IMP"], [.vdec (Dec.mk 10 1)],
        [.vint 1], [.vdec (Dec.mk 10 1)], [.vdec (Dec.mk 10 1)],
        [.vdec (Dec.mk 10 1)], [.vdec (Dec.mk 10 1)], [.venum "IMP"]],
      .rows [[.vint 1], [.vbool true]],
      .rows [[.vbool true]]] : List Section)) _ _ (by rfl) (by decide) (by decide)

end PyQualW2
